import Mathlib

/-!
# mymuduo: a verification development

A shallow embedding of the core of the mymuduo reactor library
(`Buffer`, `TcpConnection`, `TcpServer`, `EPollPoller`, `EventLoop`)
together with theorems about it.

Conventions of the embedding:

* `size_t` values are natural numbers below `2 ^ 64`; every `size_t`
  addition and subtraction of the source is written with `sizeAdd` /
  `sizeSub`, which wrap modulo `2 ^ 64` exactly as the machine does;
  an `int` is an integer reduced to 32 bits by `wrapInt32`.
* a `char` is a `Byte`, a value below 256;
* `std::vector<char>` and the payload strings are `List Byte`, names are
  `List Char`.
* what the kernel answers to a `read`, `write` or `epoll_ctl` is a parameter
  of the call (`ReadOutcome`, `WriteOutcome`) or a table (`registered`).
* callbacks supplied by the user are recorded, not run: a connection keeps
  the `log` of the actions it performs and the list of tasks it hands to its
  loop.
* `Buffer::makeSpace` and `Buffer::ensureWritableBytes` are embedded twice: as
  the buffer after a call that returns, and (`makeSpaceChecked`,
  `ensureWritableBytesChecked`) with the exceptions of `resize`, where `none`
  is a throw.

All definitions come first, the lemmas and theorems follow.
-/

set_option maxRecDepth 100000

namespace MyMuduo

/-! ## Machine arithmetic -/

/-- One `char` of a buffer or message. -/
abbrev Byte := Fin 256

/-- Number of values of a `size_t` on the 64-bit targets the library builds for. -/
def sizeMod : Nat := 2 ^ 64

/-- Addition of two `size_t` values (wraps). -/
def sizeAdd (a b : Nat) : Nat := (a + b) % sizeMod

/-- Subtraction of two `size_t` values (wraps). -/
def sizeSub (a b : Nat) : Nat := (a % sizeMod + sizeMod - b % sizeMod) % sizeMod

/-! ## Buffer (src/Buffer.h, src/Buffer.cc) -/

/-- Embedding of `Buffer::kCheapPrepend`. -/
def kCheapPrepend : Nat := 8

/-- Embedding of `Buffer::kInitialSize`. -/
def kInitialSize : Nat := 1024

/-- The three data members of `class Buffer`. -/
structure Buffer where
  buffer_ : List Byte
  readerIndex_ : Nat
  writerIndex_ : Nat
deriving DecidableEq, Repr

/-- Embedding of `std::vector<char>::resize(n)` for a call that returns: truncate, or
pad with value-initialised chars.  The exceptions of the call
(`std::length_error` above `max_size()`, `std::bad_alloc`) are added by
`vectorResizeChecked`. -/
def vectorResize (v : List Byte) (n : Nat) : List Byte :=
  if n ≤ v.length then v.take n else v ++ List.replicate (n - v.length) 0

/-- Embedding of `std::copy(first, last, d)` from a source range that does not alias the
destination vector: the loop `*d++ = *first++`.  A store outside the vector
(undefined behaviour in C++) is dropped, so the vector's size never changes. -/
def stdCopy : List Byte → List Byte → Nat → List Byte
  | [], dst, _ => dst
  | x :: xs, dst, pos => stdCopy xs (dst.set pos x) (pos + 1)

/-- Embedding of `std::copy(begin()+first, begin()+first+n, begin()+dFirst)` inside one
vector: the same forward loop, each load reading the vector as the earlier
stores left it. -/
def stdCopyWithin : Nat → List Byte → Nat → Nat → List Byte
  | 0, buf, _, _ => buf
  | n + 1, buf, first, dFirst =>
      stdCopyWithin n (buf.set dFirst (buf.getD first 0)) (first + 1) (dFirst + 1)

namespace Buffer

/-- Embedding of `Buffer::Buffer(size_t initialSize)`. -/
def init (initialSize : Nat) : Buffer :=
  { buffer_ := List.replicate (sizeAdd kCheapPrepend initialSize) 0
    readerIndex_ := kCheapPrepend
    writerIndex_ := kCheapPrepend }

/-- Embedding of `Buffer::readableBytes`. -/
def readableBytes (b : Buffer) : Nat := sizeSub b.writerIndex_ b.readerIndex_

/-- Embedding of `Buffer::writableBytes`. -/
def writableBytes (b : Buffer) : Nat := sizeSub b.buffer_.length b.writerIndex_

/-- Embedding of `Buffer::prependableBytes`. -/
def prependableBytes (b : Buffer) : Nat := b.readerIndex_

/-- Embedding of `Buffer::retrieveAll`. -/
def retrieveAll (b : Buffer) : Buffer :=
  { b with readerIndex_ := kCheapPrepend, writerIndex_ := kCheapPrepend }

/-- Embedding of `Buffer::retrieve`. -/
def retrieve (b : Buffer) (len : Nat) : Buffer :=
  if len < b.readableBytes then
    { b with readerIndex_ := sizeAdd b.readerIndex_ len }
  else
    b.retrieveAll

/-- The bytes `std::string(peek(), len)` copies out of the vector. -/
def peekString (b : Buffer) (len : Nat) : List Byte :=
  (b.buffer_.drop b.readerIndex_).take len

/-- Embedding of `Buffer::retrieveAsString`: the returned string and the buffer afterwards. -/
def retrieveAsString (b : Buffer) (len : Nat) : List Byte × Buffer :=
  (b.peekString len, b.retrieve len)

/-- Embedding of `Buffer::retrieveAllAsString`. -/
def retrieveAllAsString (b : Buffer) : List Byte × Buffer :=
  b.retrieveAsString b.readableBytes

/-- Embedding of `Buffer::makeSpace`. -/
def makeSpace (b : Buffer) (len : Nat) : Buffer :=
  if sizeAdd b.writableBytes b.prependableBytes < sizeAdd len kCheapPrepend then
    { b with buffer_ := vectorResize b.buffer_ (sizeAdd b.writerIndex_ len) }
  else
    let readable := b.readableBytes
    { buffer_ := stdCopyWithin (sizeSub b.writerIndex_ b.readerIndex_) b.buffer_
        b.readerIndex_ kCheapPrepend
      readerIndex_ := kCheapPrepend
      writerIndex_ := sizeAdd kCheapPrepend readable }

/-- Embedding of `Buffer::ensureWritableBytes`. -/
def ensureWritableBytes (b : Buffer) (len : Nat) : Buffer :=
  if b.writableBytes < len then b.makeSpace len else b

/-- Embedding of `Buffer::hasWritten`. -/
def hasWritten (b : Buffer) (len : Nat) : Buffer :=
  { b with writerIndex_ := sizeAdd b.writerIndex_ len }

/-- Embedding of `Buffer::append(const char* data, size_t len)`; `len` is `data.length`. -/
def append (b : Buffer) (data : List Byte) : Buffer :=
  let b1 := b.ensureWritableBytes data.length
  let b2 := { b1 with buffer_ := stdCopy data b1.buffer_ b1.writerIndex_ }
  b2.hasWritten data.length

/-- The index invariant drawn at the top of Buffer.h,
`0 <= readerIndex <= writerIndex <= size`, with the `size >= 8` of the
specification. -/
def IndexInv (b : Buffer) : Prop :=
  b.readerIndex_ ≤ b.writerIndex_ ∧ b.writerIndex_ ≤ b.buffer_.length ∧
    kCheapPrepend ≤ b.buffer_.length

instance (b : Buffer) : Decidable (IndexInv b) := by
  unfold IndexInv; infer_instance

/-- The vector's size is a `size_t`. -/
def Representable (b : Buffer) : Prop := b.buffer_.length < sizeMod

/-- The readable region `[readerIndex, writerIndex)` of the vector. -/
def content (b : Buffer) : List Byte :=
  (b.buffer_.drop b.readerIndex_).take (b.writerIndex_ - b.readerIndex_)

end Buffer

/-! ## Buffer: operation sequences -/

/-- The calls a client makes on a Buffer after constructing it. -/
inductive BufferOp where
  | append (data : List Byte)
  | retrieve (len : Nat)
  | retrieveAll
  | retrieveAsString (n : Nat)
  | ensureWritableBytes (len : Nat)
deriving DecidableEq, Repr

/-- The buffer after one call. -/
def Buffer.applyOp (b : Buffer) : BufferOp → Buffer
  | .append data => b.append data
  | .retrieve len => b.retrieve len
  | .retrieveAll => b.retrieveAll
  | .retrieveAsString n => (b.retrieveAsString n).2
  | .ensureWritableBytes len => b.ensureWritableBytes len

/-- A call is admissible when its arguments are `size_t` values and
`retrieveAsString(n)` is given `n <= readableBytes`. -/
def BufferOp.Admissible (b : Buffer) : BufferOp → Prop
  | .append data => data.length < sizeMod
  | .retrieve len => len < sizeMod
  | .retrieveAll => True
  | .retrieveAsString n => n ≤ b.readableBytes
  | .ensureWritableBytes len => len < sizeMod

/-- A call stays in range when, besides being admissible, the sum
`writerIndex + len` that `append` and `makeSpace` compute fits a `size_t`. -/
def BufferOp.InRange (b : Buffer) : BufferOp → Prop
  | .append data => b.writerIndex_ + data.length < sizeMod
  | .retrieve len => len < sizeMod
  | .retrieveAll => True
  | .retrieveAsString n => n ≤ b.readableBytes
  | .ensureWritableBytes len => b.writerIndex_ + len < sizeMod

instance (b : Buffer) (op : BufferOp) : Decidable (op.Admissible b) := by
  cases op <;> unfold BufferOp.Admissible <;> infer_instance

instance (b : Buffer) (op : BufferOp) : Decidable (op.InRange b) := by
  cases op <;> unfold BufferOp.InRange <;> infer_instance

/-- Buffers reachable from construction with any `size_t` initial size by
admissible calls. -/
inductive Buffer.Reachable : Buffer → Prop
  | init (initialSize : Nat) (h : initialSize < sizeMod) : Reachable (Buffer.init initialSize)
  | step (b : Buffer) (op : BufferOp) (hb : Reachable b) (h : op.Admissible b) :
      Reachable (b.applyOp op)

/-- Buffers reachable from construction by calls none of whose size
computations wraps: `8 + initialSize` fits a `size_t`, and every call is in
range. -/
inductive Buffer.ReachableInRange : Buffer → Prop
  | init (initialSize : Nat) (h : kCheapPrepend + initialSize < sizeMod) :
      ReachableInRange (Buffer.init initialSize)
  | step (b : Buffer) (op : BufferOp) (hb : ReachableInRange b) (h : op.InRange b) :
      ReachableInRange (b.applyOp op)

/-! ## Buffer: the exceptions of `resize` (src/Buffer.h, `makeSpace`) -/

/-- Embedding of `std::vector<char>::max_size()` on the 64-bit targets the library
builds for: `PTRDIFF_MAX`. -/
def vectorMaxSize : Nat := 2 ^ 63 - 1

/-- What the allocator answers when a `resize` has to grow the vector: the
memory, or `std::bad_alloc`.  Like the kernel's answers it is a parameter of
the call. -/
inductive AllocOutcome where
  | succeeds
  | fails
deriving DecidableEq, Repr

/-- Embedding of `std::vector<char>::resize(n)` with its exceptions: `none` is a throw,
which leaves the vector as it was.  The call throws `std::length_error` when
`n` exceeds `max_size()`, and `std::bad_alloc` when the vector has to grow and
the allocator refuses; otherwise it returns with the vector resized. -/
def vectorResizeChecked (v : List Byte) (n : Nat) (alloc : AllocOutcome) :
    Option (List Byte) :=
  if vectorMaxSize < n then none
  else if v.length < n ∧ alloc = .fails then none
  else some (vectorResize v n)

/-- Embedding of `Buffer::makeSpace` with the exceptions of `resize`: `none` is a throw,
which leaves the buffer as it was. -/
def Buffer.makeSpaceChecked (b : Buffer) (len : Nat) (alloc : AllocOutcome) : Option Buffer :=
  if sizeAdd b.writableBytes b.prependableBytes < sizeAdd len kCheapPrepend then
    match vectorResizeChecked b.buffer_ (sizeAdd b.writerIndex_ len) alloc with
    | none => none
    | some v => some { b with buffer_ := v }
  else
    let readable := b.readableBytes
    some
      { buffer_ := stdCopyWithin (sizeSub b.writerIndex_ b.readerIndex_) b.buffer_
          b.readerIndex_ kCheapPrepend
        readerIndex_ := kCheapPrepend
        writerIndex_ := sizeAdd kCheapPrepend readable }

/-- Embedding of `Buffer::ensureWritableBytes` with the exceptions of `resize`: `none` is
a throw, which leaves the buffer as it was. -/
def Buffer.ensureWritableBytesChecked (b : Buffer) (len : Nat) (alloc : AllocOutcome) :
    Option Buffer :=
  if b.writableBytes < len then b.makeSpaceChecked len alloc else some b

/-! ## Buffer::readFd (src/Buffer.cc) -/

/-- Outcome of one `::readv` on the socket, chosen by the kernel: it delivers
some bytes (none at all means end of file, return value 0) and leaves `errno`
at the value it held, or fails (return value -1) and sets `errno`. -/
inductive ReadOutcome where
  | delivers (d : List Byte) (errno : Nat)
  | fails (errno : Nat)
deriving DecidableEq, Repr

/-- Embedding of `sizeof(extrabuf)` in `Buffer::readFd`. -/
def kExtraBufSize : Nat := 65536

/-- Embedding of `iovcnt` in `Buffer::readFd`. -/
def Buffer.readFdIovcnt (b : Buffer) : Nat :=
  if b.writableBytes < kExtraBufSize then 2 else 1

/-- Total length of the segments `Buffer::readFd` offers to `::readv`. -/
def Buffer.readFdCapacity (b : Buffer) : Nat :=
  if b.readFdIovcnt = 2 then b.writableBytes + kExtraBufSize else b.writableBytes

/-- Embedding of `Buffer::readFd`: the return value `n`, the value stored in `*savedErrno`
(if any) and the buffer afterwards.  The kernel fills the offered segments in
order with at most their total length. -/
def Buffer.readFd (b : Buffer) (r : ReadOutcome) : Int × Option Nat × Buffer :=
  let writable := b.writableBytes
  match r with
  | .fails errno => (-1, some errno, b)
  | .delivers d errno =>
    let got := d.take b.readFdCapacity
    let n := got.length
    let b1 := { b with buffer_ := stdCopy (got.take writable) b.buffer_ b.writerIndex_ }
    let extrabuf := got.drop writable
    if n = 0 then
      (0, some errno, b1)
    else if n ≤ writable then
      (n, none, { b1 with writerIndex_ := sizeAdd b1.writerIndex_ n })
    else
      (n, none, ({ b1 with writerIndex_ := b1.buffer_.length }).append
        (extrabuf.take (sizeSub n writable)))

/-! ## Channel -/

/-- Embedding of `kNew` of src/EPollPoller.cc. -/
def kNew : Int := -1

/-- Embedding of `kAdded` of src/EPollPoller.cc. -/
def kAdded : Int := 1

/-- Embedding of `kDeleted` of src/EPollPoller.cc. -/
def kDeleted : Int := 2

/-- Modelled from the spec: Channel.h and Channel.cc are not under src/.  The
specification describes a channel as the tuple
`(loop, fd, interest_events, returned_events, index, tied_owner?, callbacks)`
with the operations `enableReading`, `disableReading`, `enableWriting`,
`disableWriting`, `disableAll`, `isWriting`, `isReading`, `isNoneEvent`.  The
interest mask is kept as its read-interest and write-interest bits. -/
structure Channel where
  fd_ : Int
  reading : Bool
  writing : Bool
  index_ : Int
  tied_ : Bool
deriving DecidableEq, Repr

namespace Channel

/-- Modelled from the spec: a channel is created free-floating, with an empty
interest mask and index `new`. -/
def init (fd : Int) : Channel :=
  { fd_ := fd, reading := false, writing := false, index_ := kNew, tied_ := false }

/-- Modelled from the spec: `Channel::enableReading`. -/
def enableReading (ch : Channel) : Channel := { ch with reading := true }

/-- Modelled from the spec: `Channel::disableReading`. -/
def disableReading (ch : Channel) : Channel := { ch with reading := false }

/-- Modelled from the spec: `Channel::enableWriting`. -/
def enableWriting (ch : Channel) : Channel := { ch with writing := true }

/-- Modelled from the spec: `Channel::disableWriting`. -/
def disableWriting (ch : Channel) : Channel := { ch with writing := false }

/-- Modelled from the spec: `Channel::disableAll`. -/
def disableAll (ch : Channel) : Channel := { ch with reading := false, writing := false }

/-- Modelled from the spec: `Channel::isWriting`. -/
def isWriting (ch : Channel) : Bool := ch.writing

/-- Modelled from the spec: `Channel::isReading`. -/
def isReading (ch : Channel) : Bool := ch.reading

/-- Modelled from the spec: `Channel::isNoneEvent`, the interest mask is empty. -/
def isNoneEvent (ch : Channel) : Bool := !ch.reading && !ch.writing

/-- Modelled from the spec: `Channel::tie`. -/
def tie (ch : Channel) : Channel := { ch with tied_ := true }

end Channel

/-! ## TcpConnection (src/TcpConnection.h, src/TcpConnection.cc) -/

/-- Embedding of `TcpConnection::StateE`. -/
inductive StateE where
  | kDisconnected
  | kConnecting
  | kConnected
  | kDisconnecting
deriving DecidableEq, Repr

/-- Embedding of `EWOULDBLOCK` (equal to `EAGAIN`) on Linux. -/
def EWOULDBLOCK : Nat := 11

/-- Embedding of `EPIPE` on Linux. -/
def EPIPE : Nat := 32

/-- Embedding of `ECONNRESET` on Linux. -/
def ECONNRESET : Nat := 104

/-- Outcome of one `::write` on the socket, chosen by the kernel: it accepts
the first `k` of the offered bytes (all of them if fewer are offered), or
fails with an errno (return value -1). -/
inductive WriteOutcome where
  | accepts (k : Nat)
  | fails (errno : Nat)
deriving DecidableEq, Repr

/-- Embedding of `::write(fd, data, len)`: the return value, `errno`, and the bytes the
socket took. -/
def sysWrite (w : WriteOutcome) (data : List Byte) : Int × Nat × List Byte :=
  match w with
  | .accepts k => (((data.take k).length : Nat), 0, data.take k)
  | .fails errno => (-1, errno, [])

/-- A task a connection hands to `loop_->queueInLoop` (or, from another
thread, to `loop_->runInLoop`). -/
inductive Functor where
  | writeCompleteCallback
  | highWaterMarkCallback (bytes : Nat)
  | sendInLoop (message : List Byte)
  | shutdownInLoop
deriving DecidableEq, Repr

/-- What a connection does to the outside, in the order it does it.
`shutdownWrite` records the number of readable bytes the output buffer holds
at the moment of the call. -/
inductive Action where
  | connectionCallback (state : StateE)
  | messageCallback
  | writeCompleteCallback
  | highWaterMarkCallback (bytes : Nat)
  | closeCallback
  | shutdownWrite (outputReadable : Nat)
  | channelRemove
deriving DecidableEq, Repr

/-- The data members of `class TcpConnection` that its methods read or write,
with three observation fields: `wire` (the bytes the socket has accepted),
`log` (the actions performed) and `pendingFunctors_` (the tasks handed to the
loop and not yet run). -/
structure TcpConnection where
  state_ : StateE
  channel_ : Channel
  writeCompleteCallback_ : Bool
  highWaterMarkCallback_ : Bool
  highWaterMark_ : Nat
  inputBuffer_ : Buffer
  outputBuffer_ : Buffer
  wire : List Byte
  log : List Action
  pendingFunctors_ : List Functor
deriving DecidableEq, Repr

namespace TcpConnection

/-- Embedding of `TcpConnection::TcpConnection`. -/
def init (sockfd : Int) : TcpConnection :=
  { state_ := .kConnecting
    channel_ := Channel.init sockfd
    writeCompleteCallback_ := false
    highWaterMarkCallback_ := false
    highWaterMark_ := 64 * 1024 * 1024
    inputBuffer_ := Buffer.init kInitialSize
    outputBuffer_ := Buffer.init kInitialSize
    wire := []
    log := []
    pendingFunctors_ := [] }

/-- Embedding of `TcpConnection::setWriteCompleteCallback` with a non-empty callback. -/
def setWriteCompleteCallback (c : TcpConnection) : TcpConnection :=
  { c with writeCompleteCallback_ := true }

/-- Embedding of `TcpConnection::setHighWaterMarkCallback` with a non-empty callback. -/
def setHighWaterMarkCallback (c : TcpConnection) (highWaterMark : Nat) : TcpConnection :=
  { c with highWaterMarkCallback_ := true, highWaterMark_ := highWaterMark }

/-- Embedding of `loop_->queueInLoop(task)` as the connection sees it. -/
def queueInLoop (c : TcpConnection) (f : Functor) : TcpConnection :=
  { c with pendingFunctors_ := c.pendingFunctors_ ++ [f] }

/-- Record one action. -/
def act (c : TcpConnection) (a : Action) : TcpConnection :=
  { c with log := c.log ++ [a] }

/-- Embedding of `TcpConnection::shutdownInLoop`. -/
def shutdownInLoop (c : TcpConnection) : TcpConnection :=
  if !c.channel_.isWriting then
    c.act (.shutdownWrite c.outputBuffer_.readableBytes)
  else c

/-- Embedding of `TcpConnection::sendInLoop`, condition of the direct write:
`!channel_->isWriting() && outputBuffer_.readableBytes() == 0`. -/
def sendDirect (c : TcpConnection) : Bool :=
  !c.channel_.isWriting && c.outputBuffer_.readableBytes == 0

/-- Embedding of `TcpConnection::sendInLoop`, the local `nwrote` when the second `if` is
reached: the result of the direct write if it was made and did not fail, 0
otherwise. -/
def sendNwrote (c : TcpConnection) (message : List Byte) (w : WriteOutcome) : Int :=
  if c.sendDirect = true ∧ 0 ≤ (sysWrite w message).1 then (sysWrite w message).1 else 0

/-- Embedding of `TcpConnection::sendInLoop`, the local `remaining` when the second `if`
is reached: `len - nwrote` after a direct write that did not fail, `len`
otherwise. -/
def sendRemaining (c : TcpConnection) (message : List Byte) (w : WriteOutcome) : Nat :=
  if c.sendDirect = true ∧ 0 ≤ (sysWrite w message).1 then
    sizeSub message.length (sysWrite w message).1.toNat
  else message.length

/-- Embedding of `TcpConnection::sendInLoop`, the local `faultError` when the second `if`
is reached. -/
def sendFaultError (c : TcpConnection) (message : List Byte) (w : WriteOutcome) : Bool :=
  c.sendDirect && decide ((sysWrite w message).1 < 0) &&
    decide ((sysWrite w message).2.1 ≠ EWOULDBLOCK) &&
    (decide ((sysWrite w message).2.1 = EPIPE) || decide ((sysWrite w message).2.1 = ECONNRESET))

/-- Embedding of `TcpConnection::sendInLoop`. -/
def sendInLoop (c : TcpConnection) (message : List Byte) (w : WriteOutcome) : TcpConnection :=
  if c.state_ = .kDisconnected then c
  else
    let nwrote := c.sendNwrote message w
    let remaining := c.sendRemaining message w
    let faultError := c.sendFaultError message w
    let c1 := if c.sendDirect = true then { c with wire := c.wire ++ (sysWrite w message).2.2 } else c
    let c2 :=
      if c.sendDirect = true ∧ 0 ≤ (sysWrite w message).1 ∧ remaining = 0 ∧
          c1.writeCompleteCallback_ = true then
        c1.queueInLoop .writeCompleteCallback
      else c1
    if faultError = false ∧ 0 < remaining then
      let oldLen := c2.outputBuffer_.readableBytes
      let c3 :=
        if c2.highWaterMark_ ≤ sizeAdd oldLen remaining ∧ oldLen < c2.highWaterMark_ ∧
            c2.highWaterMarkCallback_ = true then
          c2.queueInLoop (.highWaterMarkCallback (sizeAdd oldLen remaining))
        else c2
      let c4 := { c3 with
        outputBuffer_ := c3.outputBuffer_.append ((message.drop nwrote.toNat).take remaining) }
      if c4.channel_.isWriting = false then { c4 with channel_ := c4.channel_.enableWriting }
      else c4
    else c2

/-- Embedding of `TcpConnection::send`, called on the loop thread or on another thread.
From another thread the call is queued with a pointer into the caller's
string; the queued task is taken to find the bytes unchanged. -/
def send (c : TcpConnection) (buf : List Byte) (inLoopThread : Bool) (w : WriteOutcome) :
    TcpConnection :=
  if c.state_ = .kConnected then
    if inLoopThread then c.sendInLoop buf w else c.queueInLoop (.sendInLoop buf)
  else c

/-- Embedding of `TcpConnection::handleWrite`. -/
def handleWrite (c : TcpConnection) (w : WriteOutcome) : TcpConnection :=
  if c.channel_.isWriting then
    let r := sysWrite w (c.outputBuffer_.peekString c.outputBuffer_.readableBytes)
    let c1 := { c with wire := c.wire ++ r.2.2 }
    if 0 < r.1 then
      let c2 := { c1 with outputBuffer_ := c1.outputBuffer_.retrieve r.1.toNat }
      if c2.outputBuffer_.readableBytes = 0 then
        let c3 := { c2 with channel_ := c2.channel_.disableWriting }
        let c4 := if c3.writeCompleteCallback_ then c3.queueInLoop .writeCompleteCallback else c3
        if c4.state_ = .kDisconnecting then c4.shutdownInLoop else c4
      else c2
    else c1
  else c

/-- Embedding of `TcpConnection::handleClose`. -/
def handleClose (c : TcpConnection) : TcpConnection :=
  let c1 := { c with state_ := .kDisconnected }
  let c2 := { c1 with channel_ := c1.channel_.disableAll }
  let c3 := c2.act (.connectionCallback c2.state_)
  c3.act .closeCallback

/-- Embedding of `TcpConnection::handleError`: reads `SO_ERROR` and logs it. -/
def handleError (c : TcpConnection) : TcpConnection := c

/-- Embedding of `TcpConnection::handleRead`. -/
def handleRead (c : TcpConnection) (r : ReadOutcome) : TcpConnection :=
  let res := c.inputBuffer_.readFd r
  let c1 := { c with inputBuffer_ := res.2.2 }
  if 0 < res.1 then c1.act .messageCallback
  else if res.1 = 0 then c1.handleClose
  else c1.handleError

/-- Embedding of `TcpConnection::connectEstablished`. -/
def connectEstablished (c : TcpConnection) : TcpConnection :=
  let c1 := { c with state_ := .kConnected }
  let c2 := { c1 with channel_ := c1.channel_.tie }
  let c3 := { c2 with channel_ := c2.channel_.enableReading }
  c3.act (.connectionCallback c3.state_)

/-- Embedding of `TcpConnection::connectDestroyed`. -/
def connectDestroyed (c : TcpConnection) : TcpConnection :=
  let c1 :=
    if c.state_ = .kConnected then
      let d1 := { c with state_ := .kDisconnected }
      let d2 := { d1 with channel_ := d1.channel_.disableAll }
      d2.act (.connectionCallback d2.state_)
    else c
  c1.act .channelRemove

/-- Embedding of `TcpConnection::shutdown`, called on the loop thread (where `runInLoop`
runs `shutdownInLoop` at once) or on another thread (where it queues it). -/
def shutdown (c : TcpConnection) (inLoopThread : Bool) : TcpConnection :=
  if c.state_ = .kConnected then
    let c1 := { c with state_ := .kDisconnecting }
    if inLoopThread then c1.shutdownInLoop else c1.queueInLoop .shutdownInLoop
  else c

/-- The loop runs the oldest task the connection handed to it. -/
def runFunctor (c : TcpConnection) (w : WriteOutcome) : TcpConnection :=
  match c.pendingFunctors_ with
  | [] => c
  | f :: rest =>
    let c1 := { c with pendingFunctors_ := rest }
    match f with
    | .writeCompleteCallback => c1.act .writeCompleteCallback
    | .highWaterMarkCallback n => c1.act (.highWaterMarkCallback n)
    | .sendInLoop message => c1.sendInLoop message w
    | .shutdownInLoop => c1.shutdownInLoop

end TcpConnection

/-- One thing that happens to a connection: a call of one of its methods by
the server, the user or the channel dispatch, together with what the kernel
answers to the read or write the call makes (if it makes one). -/
inductive Event where
  | connectEstablished
  | connectDestroyed
  | send (buf : List Byte) (inLoopThread : Bool) (w : WriteOutcome)
  | sendInLoop (message : List Byte) (w : WriteOutcome)
  | shutdown (inLoopThread : Bool)
  | handleRead (r : ReadOutcome)
  | handleWrite (w : WriteOutcome)
  | handleClose
  | handleError
  | runFunctor (w : WriteOutcome)
deriving DecidableEq, Repr

/-- The connection after one event. -/
def TcpConnection.step (c : TcpConnection) : Event → TcpConnection
  | .connectEstablished => c.connectEstablished
  | .connectDestroyed => c.connectDestroyed
  | .send buf inLoopThread w => c.send buf inLoopThread w
  | .sendInLoop message w => c.sendInLoop message w
  | .shutdown inLoopThread => c.shutdown inLoopThread
  | .handleRead r => c.handleRead r
  | .handleWrite w => c.handleWrite w
  | .handleClose => c.handleClose
  | .handleError => c.handleError
  | .runFunctor w => c.runFunctor w

/-- The connection after a sequence of events. -/
def TcpConnection.run (c : TcpConnection) (evs : List Event) : TcpConnection :=
  evs.foldl TcpConnection.step c

/-- The kernel's answer to a write is not one of the two fatal errors
`EPIPE` and `ECONNRESET`. -/
def WriteOutcome.NotFault : WriteOutcome → Prop
  | .accepts _ => True
  | .fails errno => errno ≠ EPIPE ∧ errno ≠ ECONNRESET

instance (w : WriteOutcome) : Decidable w.NotFault := by
  cases w <;> unfold WriteOutcome.NotFault <;> infer_instance

/-- The bytes an event hands to `sendInLoop`. -/
def Event.sentBytes : Event → List Byte
  | .sendInLoop message _ => message
  | _ => []

/-- The bytes a sequence of events hands to `sendInLoop`, in call order. -/
def sentBytes : List Event → List Byte
  | [] => []
  | e :: evs => e.sentBytes ++ sentBytes evs

/-- The event is a `sendInLoop` call whose direct write (if made) does not
fail with `EPIPE`/`ECONNRESET`, or a `handleWrite` event. -/
def Event.IsSendOrWrite : Event → Prop
  | .sendInLoop _ w => w.NotFault
  | .handleWrite _ => True
  | _ => False

instance (e : Event) : Decidable e.IsSendOrWrite := by
  cases e <;> unfold Event.IsSendOrWrite <;> infer_instance

/-- The event is anything but the two lifecycle calls `connectEstablished`
and `connectDestroyed`, which the server makes once each. -/
def Event.IsTraffic : Event → Prop
  | .connectEstablished => False
  | .connectDestroyed => False
  | _ => True

instance (e : Event) : Decidable e.IsTraffic := by
  cases e <;> unfold Event.IsTraffic <;> infer_instance

/-- The event is a dispatch of the channel's read or close callback. -/
def Event.IsReadOrClose : Event → Prop
  | .handleRead _ => True
  | .handleClose => True
  | _ => False

instance (e : Event) : Decidable e.IsReadOrClose := by
  cases e <;> unfold Event.IsReadOrClose <;> infer_instance

/-- Every `handleRead` and `handleClose` of the sequence is dispatched while
the channel has read-interest registered. -/
def TcpConnection.DispatchedWhileReading : TcpConnection → List Event → Prop
  | _, [] => True
  | c, e :: evs =>
    (e.IsReadOrClose → c.channel_.isReading = true) ∧
      TcpConnection.DispatchedWhileReading (c.step e) evs

/-- Every `handleRead` of the sequence is dispatched while the channel has
read-interest registered. -/
def TcpConnection.ReadWhileReading : TcpConnection → List Event → Prop
  | _, [] => True
  | c, e :: evs =>
    ((∃ r, e = .handleRead r) → c.channel_.isReading = true) ∧
      TcpConnection.ReadWhileReading (c.step e) evs

/-- How often the connection callback has been invoked with the connection
in state `s`. -/
def TcpConnection.connectionCallbacks (c : TcpConnection) (s : StateE) : Nat :=
  c.log.count (.connectionCallback s)

/-- The action is one that only `shutdownInLoop` or a queued user callback
performs. -/
def Action.IsQuiet : Action → Prop
  | .shutdownWrite _ => True
  | .writeCompleteCallback => True
  | .highWaterMarkCallback _ => True
  | _ => False

/-- Relation between a connection and its successor under an event that
neither reads nor closes: the state is kept (or goes from Connected to
Disconnecting), the read-interest is kept, and only quiet actions are
performed. -/
def TcpConnection.QuietStep (c c2 : TcpConnection) : Prop :=
  (c2.state_ = c.state_ ∨ (c.state_ = .kConnected ∧ c2.state_ = .kDisconnecting)) ∧
  c2.channel_.reading = c.channel_.reading ∧
  ∃ extra, c2.log = c.log ++ extra ∧ ∀ a ∈ extra, a.IsQuiet

/-- The event is one of send, sendInLoop, handleWrite, shutdown, a queued
task, handleError or connectDestroyed: anything but connectEstablished and
the read and close dispatches. -/
def Event.IsWriteSide : Event → Prop
  | .connectEstablished => False
  | .handleRead _ => False
  | .handleClose => False
  | _ => True

instance (e : Event) : Decidable e.IsWriteSide := by
  cases e <;> unfold Event.IsWriteSide <;> infer_instance

/-- The invariant that makes the half-close safe: while the connection is
not Disconnected a non-empty output buffer has write-interest; a queued
`shutdownInLoop` means the state is Disconnecting; and every half-close made
so far found the output buffer empty. -/
def TcpConnection.HalfCloseInv (c : TcpConnection) : Prop :=
  (c.state_ ≠ .kDisconnected → c.outputBuffer_.readableBytes ≠ 0 →
    c.channel_.isWriting = true) ∧
  (Functor.shutdownInLoop ∈ c.pendingFunctors_ → c.state_ = .kDisconnecting) ∧
  (∀ n, Action.shutdownWrite n ∈ c.log → n = 0)

/-! ## TcpServer (src/TcpServer.h, src/TcpServer.cc) -/

/-- A value of the C++ type `int` after an arithmetic operation: the result
reduced to 32 bits, two's complement. -/
def wrapInt32 (x : Int) : Int := (x + 2 ^ 31) % 2 ^ 32 - 2 ^ 31

/-- What `%d` prints for an `int`. -/
def formatInt (i : Int) : List Char :=
  if i < 0 then '-' :: Nat.toDigits 10 i.natAbs else Nat.toDigits 10 i.toNat

/-- What `%s` prints for `s.c_str()`: the characters up to the first NUL. -/
def cStr (s : List Char) : List Char := s.takeWhile (fun ch => ch ≠ '\x00')

/-- Embedding of `sizeof(buf)` in `TcpServer::newConnection`. -/
def kNameBufSize : Nat := 1024

/-- The data members of `class TcpServer` that `newConnection` reads or
writes.  `ipPort_` is `listenAddr.toIpPort()`; InetAddress is not under src/,
so the string is a parameter of the constructor. -/
structure TcpServer where
  ipPort_ : List Char
  name_ : List Char
  writeCompleteCallback_ : Bool
  nextConnId_ : Int
  connections_ : List (List Char × TcpConnection)

namespace TcpServer

/-- Embedding of `TcpServer::TcpServer`. -/
def init (ipPort nameArg : List Char) : TcpServer :=
  { ipPort_ := ipPort
    name_ := nameArg
    writeCompleteCallback_ := false
    nextConnId_ := 1
    connections_ := [] }

/-- Embedding of `TcpServer::newConnection`, the contents of `buf` after
`snprintf(buf, sizeof(buf), "-%s#%d", ipPort_.c_str(), nextConnId_)`:
at most `sizeof(buf) - 1` characters are stored. -/
def connNameSuffix (s : TcpServer) : List Char :=
  (['-'] ++ cStr s.ipPort_ ++ ['#'] ++ formatInt s.nextConnId_).take (kNameBufSize - 1)

/-- Embedding of `TcpServer::newConnection`, the local `connName`. -/
def connName (s : TcpServer) : List Char := s.name_ ++ s.connNameSuffix

/-- Embedding of `connections_[key] = conn` on the `std::unordered_map`: an entry with
the same key is replaced. -/
def mapAssign (m : List (List Char × TcpConnection)) (key : List Char) (conn : TcpConnection) :
    List (List Char × TcpConnection) :=
  m.filter (fun e => e.1 ≠ key) ++ [(key, conn)]

/-- Embedding of `TcpServer::newConnection`. -/
def newConnection (s : TcpServer) (sockfd : Int) : TcpServer :=
  let connName := s.connName
  let s1 := { s with nextConnId_ := wrapInt32 (s.nextConnId_ + 1) }
  let conn := { TcpConnection.init sockfd with writeCompleteCallback_ := s.writeCompleteCallback_ }
  { s1 with connections_ := mapAssign s1.connections_ connName conn }

/-- The server after the acceptor has delivered the given sockets, in order. -/
def newConnections (s : TcpServer) (sockfds : List Int) : TcpServer :=
  sockfds.foldl newConnection s

end TcpServer

/-- The name the specification gives the `k`-th connection of a server:
`serverName + "-" + ipPort + "#" + decimal(k)`. -/
def specConnName (serverName ipPort : List Char) (k : Nat) : List Char :=
  serverName ++ (['-'] ++ ipPort ++ ['#'] ++ Nat.toDigits 10 k)

/-- Value of a character as a decimal digit. -/
def digitValue (ch : Char) : Nat := ch.toNat - 48

/-- Value of a string of decimal digits. -/
def decimalValue : List Char → Nat
  | [] => 0
  | ch :: cs => digitValue ch * 10 ^ cs.length + decimalValue cs

/-! ## EPollPoller (src/EPollPoller.cc, src/Poller.h) -/

/-- The `op` argument of `epoll_ctl`. -/
inductive EpollOp where
  | EPOLL_CTL_ADD
  | EPOLL_CTL_MOD
  | EPOLL_CTL_DEL
deriving DecidableEq, Repr

/-- What the kernel keeps for one registered fd: the event mask
(read-interest, write-interest) and `data.ptr`, the address of the channel. -/
structure EpollEntry where
  reading : Bool
  writing : Bool
  ptr : Nat
deriving DecidableEq, Repr

/-- An `EPollPoller` with the memory it points into: `channels_` is
`Poller::channels_` (fd to `Channel*`), `registered` is the interest list the
kernel keeps for `epollfd_`, and `channelAt` gives the `Channel` object at
each address. -/
structure EPollPoller where
  channels_ : Int → Option Nat
  registered : Int → Option EpollEntry
  channelAt : Nat → Channel

/-- Embedding of `f[k] = v` on a map kept as a function. -/
def mapSet {β : Type} (f : Int → β) (k : Int) (v : β) : Int → β :=
  fun x => if x = k then v else f x

/-- Embedding of `*p = ch` on the memory of channels. -/
def storeChannel (mem : Nat → Channel) (p : Nat) (ch : Channel) : Nat → Channel :=
  fun x => if x = p then ch else mem x

/-- Embedding of `::epoll_ctl(epollfd_, op, fd, &event)` on the kernel's interest list:
`none` when the call fails, which it does for ADD on a registered fd
(`EEXIST`) and for MOD or DEL on an fd that is not registered (`ENOENT`). -/
def epollCtl (reg : Int → Option EpollEntry) (op : EpollOp) (fd : Int) (event : EpollEntry) :
    Option (Int → Option EpollEntry) :=
  match op with
  | .EPOLL_CTL_ADD => if (reg fd).isSome then none else some (mapSet reg fd (some event))
  | .EPOLL_CTL_MOD => if (reg fd).isSome then some (mapSet reg fd (some event)) else none
  | .EPOLL_CTL_DEL => if (reg fd).isSome then some (mapSet reg fd none) else none

/-- Modelled from the spec: the macro `LOG_FATAL` is defined in Logger.h,
which is not under src/.  The specification lists a registration failure on
add or modify as fatal and process-terminating, so nothing runs after it: the
result is `none`. -/
def logFatal {α : Type} : Option α := none

namespace EPollPoller

/-- A poller that has registered nothing, over the given channel objects. -/
def init (mem : Nat → Channel) : EPollPoller :=
  { channels_ := fun _ => none, registered := fun _ => none, channelAt := mem }

/-- Embedding of `channel->set_index(idx)`. -/
def setIndex (s : EPollPoller) (channel : Nat) (idx : Int) : EPollPoller :=
  { s with channelAt := storeChannel s.channelAt channel { s.channelAt channel with index_ := idx } }

/-- Embedding of `EPollPoller::update`.  A failed `epoll_ctl` is logged and ignored for
DEL (`LOG_ERROR`) and is fatal for ADD and MOD (`LOG_FATAL`). -/
def update (s : EPollPoller) (operation : EpollOp) (channel : Nat) : Option EPollPoller :=
  let ch := s.channelAt channel
  let event : EpollEntry := { reading := ch.reading, writing := ch.writing, ptr := channel }
  match epollCtl s.registered operation ch.fd_ event with
  | some reg => some { s with registered := reg }
  | none => if operation = .EPOLL_CTL_DEL then some s else logFatal

/-- Embedding of `EPollPoller::updateChannel`. -/
def updateChannel (s : EPollPoller) (channel : Nat) : Option EPollPoller :=
  let index := (s.channelAt channel).index_
  if index = kNew ∨ index = kDeleted then
    let s1 :=
      if index = kNew then
        { s with channels_ := mapSet s.channels_ (s.channelAt channel).fd_ (some channel) }
      else s
    (s1.setIndex channel kAdded).update .EPOLL_CTL_ADD channel
  else
    if (s.channelAt channel).isNoneEvent then
      (s.update .EPOLL_CTL_DEL channel).map (fun s1 => s1.setIndex channel kDeleted)
    else
      s.update .EPOLL_CTL_MOD channel

/-- Embedding of `EPollPoller::removeChannel`. -/
def removeChannel (s : EPollPoller) (channel : Nat) : Option EPollPoller :=
  let fd := (s.channelAt channel).fd_
  let s1 := { s with channels_ := mapSet s.channels_ fd none }
  let index := (s1.channelAt channel).index_
  let s2 := if index = kAdded then s1.update .EPOLL_CTL_DEL channel else some s1
  s2.map (fun s3 => s3.setIndex channel kNew)

/-- What the claims observe of a poller: the index of a channel, the
fd-to-channel map at an fd, and whether an fd is registered with the kernel. -/
def observe (s : EPollPoller) (channel : Nat) (fd : Int) : Int × Option Nat × Bool :=
  ((s.channelAt channel).index_, s.channels_ fd, (s.registered fd).isSome)

end EPollPoller

/-! ## EventLoop (src/EventLoop.h, src/EventLoop.cc) -/

/-- A task (`EventLoop::Functor`, a `std::function<void()>`) as the loop sees
it: an identity, and the tasks its body hands to `queueInLoop` of the same
loop when it runs, in the order it does so. -/
inductive LoopTask where
  | mk (id : Nat) (enqueues : List LoopTask)

/-- Identity of a task. -/
def LoopTask.id : LoopTask → Nat
  | .mk i _ => i

/-- The tasks the body of a task enqueues. -/
def LoopTask.enqueues : LoopTask → List LoopTask
  | .mk _ ts => ts

/-- The data members of `class EventLoop` that the task queue uses, with two
observation fields: `wakeups` counts the calls of `wakeup()`, and `executed`
lists the tasks run so far, each with the value `callingPendingFunctors_` had
while it ran. -/
structure EventLoop where
  threadId_ : Nat
  callingPendingFunctors_ : Bool
  pendingFunctors_ : List LoopTask
  wakeups : Nat
  executed : List (Nat × Bool)

namespace EventLoop

/-- Embedding of `EventLoop::EventLoop`, constructed on thread `tid`. -/
def init (tid : Nat) : EventLoop :=
  { threadId_ := tid
    callingPendingFunctors_ := false
    pendingFunctors_ := []
    wakeups := 0
    executed := [] }

/-- Embedding of `EventLoop::isInLoopThread`, evaluated on thread `callerTid`. -/
def isInLoopThread (l : EventLoop) (callerTid : Nat) : Bool :=
  l.threadId_ == callerTid

/-- Embedding of `EventLoop::wakeup`. -/
def wakeup (l : EventLoop) : EventLoop :=
  { l with wakeups := l.wakeups + 1 }

/-- Embedding of `EventLoop::queueInLoop`, called on thread `callerTid`. -/
def queueInLoop (l : EventLoop) (callerTid : Nat) (cb : LoopTask) : EventLoop :=
  let l1 := { l with pendingFunctors_ := l.pendingFunctors_ ++ [cb] }
  if !l1.isInLoopThread callerTid || l1.callingPendingFunctors_ then l1.wakeup else l1

/-- Embedding of `functor()` inside `doPendingFunctors`: the task runs on the loop's own
thread and makes its `queueInLoop` calls. -/
def runTask (l : EventLoop) (t : LoopTask) : EventLoop :=
  let l1 := { l with executed := l.executed ++ [(t.id, l.callingPendingFunctors_)] }
  t.enqueues.foldl (fun acc cb => acc.queueInLoop acc.threadId_ cb) l1

/-- Embedding of `EventLoop::doPendingFunctors`. -/
def doPendingFunctors (l : EventLoop) : EventLoop :=
  let l1 := { l with callingPendingFunctors_ := true }
  let functors := l1.pendingFunctors_
  let l2 := { l1 with pendingFunctors_ := [] }
  let l3 := functors.foldl runTask l2
  { l3 with callingPendingFunctors_ := false }

end EventLoop

/-! ## EPollPoller with the `epoll_ctl` calls recorded -/

/-- A poller together with the `epoll_ctl` calls it has issued so far, each
as the operation and the fd it was issued for, in order. -/
structure TracedPoller where
  poller : EPollPoller
  ctlCalls : List (EpollOp × Int)

namespace TracedPoller

/-- Embedding of `channel->set_index(idx)`. -/
def setIndex (t : TracedPoller) (channel : Nat) (idx : Int) : TracedPoller :=
  { t with poller := t.poller.setIndex channel idx }

/-- Embedding of `EPollPoller::update`, recording the `epoll_ctl` call it makes. -/
def update (t : TracedPoller) (operation : EpollOp) (channel : Nat) : Option TracedPoller :=
  (t.poller.update operation channel).map (fun s =>
    { poller := s
      ctlCalls := t.ctlCalls ++ [(operation, (t.poller.channelAt channel).fd_)] })

/-- Embedding of `EPollPoller::updateChannel`, recording the `epoll_ctl` calls. -/
def updateChannel (t : TracedPoller) (channel : Nat) : Option TracedPoller :=
  let index := (t.poller.channelAt channel).index_
  if index = kNew ∨ index = kDeleted then
    let t1 :=
      if index = kNew then
        { t with poller := { t.poller with
            channels_ := (mapSet t.poller.channels_ (t.poller.channelAt channel).fd_
              (some channel)) } }
      else t
    (t1.setIndex channel kAdded).update .EPOLL_CTL_ADD channel
  else
    if (t.poller.channelAt channel).isNoneEvent then
      (t.update .EPOLL_CTL_DEL channel).map (fun t1 => t1.setIndex channel kDeleted)
    else
      t.update .EPOLL_CTL_MOD channel

/-- Embedding of `EPollPoller::removeChannel`, recording the `epoll_ctl` calls. -/
def removeChannel (t : TracedPoller) (channel : Nat) : Option TracedPoller :=
  let fd := (t.poller.channelAt channel).fd_
  let t1 := { t with poller := { t.poller with channels_ := mapSet t.poller.channels_ fd none } }
  let index := (t1.poller.channelAt channel).index_
  let t2 := if index = kAdded then t1.update .EPOLL_CTL_DEL channel else some t1
  t2.map (fun t3 => t3.setIndex channel kNew)

end TracedPoller

/-- A call on the poller made by the owner of a channel.  Before
`updateChannel` the owner has set the channel's interest mask (through
`enableReading`, `disableAll`, ...), so the call carries the mask. -/
inductive PollerOp where
  | updateChannel (channel : Nat) (reading writing : Bool)
  | removeChannel (channel : Nat)
deriving DecidableEq, Repr

namespace EPollPoller

/-- Modelled from the spec: the `enable...`/`disable...` operations of
Channel (Channel.h is not under src/) set the interest mask of the channel
object before they call into `updateChannel`. -/
def setInterest (s : EPollPoller) (channel : Nat) (reading writing : Bool) : EPollPoller :=
  { s with channelAt := (storeChannel s.channelAt channel
      { s.channelAt channel with reading := reading, writing := writing }) }

/-- The poller after one call. -/
def applyOp (s : EPollPoller) : PollerOp → Option EPollPoller
  | .updateChannel channel reading writing =>
      (s.setInterest channel reading writing).updateChannel channel
  | .removeChannel channel => s.removeChannel channel

/-- The poller after a sequence of calls; `none` once a call was fatal. -/
def applyOps (s : EPollPoller) : List PollerOp → Option EPollPoller
  | [] => some s
  | op :: ops => (s.applyOp op).bind (fun s1 => s1.applyOps ops)

/-- The channel is registered with the kernel: the interest list holds an
entry for its fd whose `data.ptr` is the channel, so `poll` hands it out
through `fillActiveChannels`. -/
def IsRegistered (s : EPollPoller) (channel : Nat) : Prop :=
  ∃ e, s.registered (s.channelAt channel).fd_ = some e ∧ e.ptr = channel

/-- The consistency of kernel interest list, fd-to-channel map and channel
indices that `updateChannel` and `removeChannel` maintain on channels with
pairwise distinct fds. -/
def Consistent (s : EPollPoller) : Prop :=
  (∀ p q, (s.channelAt p).fd_ = (s.channelAt q).fd_ → p = q) ∧
  (∀ fd e, s.registered fd = some e →
    (s.channelAt e.ptr).fd_ = fd ∧ (s.channelAt e.ptr).index_ = kAdded) ∧
  (∀ p, (s.channelAt p).index_ = kAdded →
    ∃ e, s.registered (s.channelAt p).fd_ = some e ∧ e.ptr = p) ∧
  (∀ p, (s.channelAt p).index_ = kNew → s.channels_ (s.channelAt p).fd_ = none) ∧
  (∀ p, (s.channelAt p).index_ ≠ kNew → s.channels_ (s.channelAt p).fd_ = some p) ∧
  (∀ p, (s.channelAt p).index_ = kNew ∨ (s.channelAt p).index_ = kAdded ∨
    (s.channelAt p).index_ = kDeleted)

end EPollPoller

/-! ## TcpConnection: write-interest and the output buffer -/

/-- The event is a `sendInLoop` call, a `handleWrite` dispatch, a `shutdown`
call (on the loop thread or on another thread), or the loop running the oldest
queued task. -/
def Event.IsSendWriteShutdown : Event → Prop
  | .sendInLoop _ _ => True
  | .handleWrite _ => True
  | .shutdown _ => True
  | .runFunctor _ => True
  | _ => False

instance (e : Event) : Decidable e.IsSendWriteShutdown := by
  cases e <;> unfold Event.IsSendWriteShutdown <;> infer_instance

/-- The task is a `sendInLoop` queued by a `send` from another thread. -/
def Functor.IsQueuedSend : Functor → Prop
  | .sendInLoop _ => True
  | _ => False

instance (f : Functor) : Decidable f.IsQueuedSend := by
  cases f <;> unfold Functor.IsQueuedSend <;> infer_instance

/-- Write-interest is enabled exactly when the output buffer has a readable
byte; the output buffer satisfies its index invariant; and no `sendInLoop` is
waiting in the queue. -/
def TcpConnection.WriteInterestInv (c : TcpConnection) : Prop :=
  c.outputBuffer_.IndexInv ∧
  (c.channel_.isWriting = true ↔ c.outputBuffer_.readableBytes ≠ 0) ∧
  ∀ f ∈ c.pendingFunctors_, ¬ f.IsQueuedSend

/-! ## TcpConnection: the half-close and the bytes sent before it -/

/-- The action is a half-close of the write side. -/
def Action.IsShutdownWrite : Action → Prop
  | .shutdownWrite _ => True
  | _ => False

instance (a : Action) : Decidable a.IsShutdownWrite := by
  cases a <;> unfold Action.IsShutdownWrite <;> infer_instance

/-- The connection has half-closed the write side of its socket. -/
def TcpConnection.HalfClosed (c : TcpConnection) : Prop :=
  ∃ a ∈ c.log, a.IsShutdownWrite

instance (c : TcpConnection) : Decidable c.HalfClosed := by
  unfold TcpConnection.HalfClosed; infer_instance

/-- The event is a call of `shutdown`. -/
def Event.IsShutdown : Event → Prop
  | .shutdown _ => True
  | _ => False

instance (e : Event) : Decidable e.IsShutdown := by
  cases e <;> unfold Event.IsShutdown <;> infer_instance

/-- Whenever `shutdown` is called in the sequence, no `sendInLoop` queued by a
`send` from another thread is still waiting in the loop's queue. -/
def TcpConnection.ShutdownAfterQueuedSends : TcpConnection → List Event → Prop
  | _, [] => True
  | c, e :: evs =>
    (e.IsShutdown → ∀ f ∈ c.pendingFunctors_, ¬ f.IsQueuedSend) ∧
      TcpConnection.ShutdownAfterQueuedSends (c.step e) evs

/-- The bytes passed to `send` before the first call of `shutdown`, in call
order. -/
def sentBeforeShutdown : List Event → List Byte
  | [] => []
  | .send buf _ _ :: evs => buf ++ sentBeforeShutdown evs
  | .shutdown _ :: _ => []
  | _ :: evs => sentBeforeShutdown evs

/-- The event is a `send` made on the loop thread whose direct write (if made)
does not fail with `EPIPE`/`ECONNRESET`, a `handleWrite` dispatch, a
`shutdown` call on either thread, the run of a queued task, or
`handleError`. -/
def Event.IsLoopThreadSend : Event → Prop
  | .send _ inLoopThread w => inLoopThread = true ∧ w.NotFault
  | .handleWrite _ => True
  | .shutdown _ => True
  | .runFunctor _ => True
  | .handleError => True
  | _ => False

instance (e : Event) : Decidable e.IsLoopThreadSend := by
  cases e <;> unfold Event.IsLoopThreadSend <;> infer_instance

/-- What holds of the queue around a half-close: in state Disconnecting no
`sendInLoop` is queued, a half-close has been made only in state
Disconnecting, and a queued `shutdownInLoop` means state Disconnecting. -/
def TcpConnection.SendQueueInv (c : TcpConnection) : Prop :=
  (c.state_ = .kDisconnecting → ∀ f ∈ c.pendingFunctors_, ¬ f.IsQueuedSend) ∧
  (c.HalfClosed → c.state_ = .kDisconnecting) ∧
  (Functor.shutdownInLoop ∈ c.pendingFunctors_ → c.state_ = .kDisconnecting)

/-- What holds of a connection whose sends are all made on the loop thread:
the output buffer satisfies its index invariant, the state is Connected or
Disconnecting, no `sendInLoop` is queued, the half-close invariant holds, and
once the half-close is made the state is Disconnecting and the output buffer
is empty. -/
def TcpConnection.LoopSendInv (c : TcpConnection) : Prop :=
  c.outputBuffer_.IndexInv ∧
  (c.state_ = .kConnected ∨ c.state_ = .kDisconnecting) ∧
  (∀ f ∈ c.pendingFunctors_, ¬ f.IsQueuedSend) ∧
  c.HalfCloseInv ∧
  (c.HalfClosed → c.state_ = .kDisconnecting ∧ c.outputBuffer_.content = [])

/-! # Theorems -/

/-! ## Lemmas on machine arithmetic and the copy loops -/

theorem sizeAdd_of_lt {a b : Nat} (h : a + b < sizeMod) : sizeAdd a b = a + b := by
  unfold sizeAdd; exact Nat.mod_eq_of_lt h

theorem sizeSub_of_le {a b : Nat} (hb : b ≤ a) (ha : a < sizeMod) : sizeSub a b = a - b := by
  unfold sizeSub
  have hb2 : b < sizeMod := lt_of_le_of_lt hb ha
  rw [Nat.mod_eq_of_lt ha, Nat.mod_eq_of_lt hb2]
  have : a + sizeMod - b = (a - b) + sizeMod := by omega
  rw [this, Nat.add_mod_right]
  exact Nat.mod_eq_of_lt (by omega)

theorem stdCopy_length (src : List Byte) : ∀ (dst : List Byte) (pos : Nat),
    (stdCopy src dst pos).length = dst.length := by
  induction src with
  | nil => intro dst pos; rfl
  | cons x xs ih => intro dst pos; simp [stdCopy, ih]

theorem stdCopy_getElem? (src : List Byte) : ∀ (dst : List Byte) (pos i : Nat),
    (stdCopy src dst pos)[i]? =
      if pos ≤ i ∧ i < pos + src.length ∧ i < dst.length then src[i - pos]? else dst[i]? := by
  induction src with
  | nil =>
    intro dst pos i
    rw [if_neg (by simp only [List.length_nil]; omega)]; rfl
  | cons x xs ih =>
    intro dst pos i
    rw [stdCopy, ih]
    simp only [List.length_set, List.length_cons]
    by_cases hi : i = pos
    · subst hi
      rw [if_neg (by omega)]
      by_cases hl : i < dst.length
      · rw [if_pos (by omega)]; simp [hl]
      · rw [if_neg (by omega)]; simp [List.getElem?_set, hl]; omega
    · rw [List.getElem?_set_ne (fun h => hi h.symm)]
      by_cases hc : pos + 1 ≤ i ∧ i < pos + 1 + xs.length ∧ i < dst.length
      · rw [if_pos hc, if_pos (by omega)]
        obtain ⟨k, hk⟩ : ∃ k, i - pos = k + 1 := ⟨i - pos - 1, by omega⟩
        have hk2 : i - (pos + 1) = k := by omega
        rw [hk, hk2]; simp
      · rw [if_neg hc, if_neg (by omega)]

theorem stdCopyWithin_length : ∀ (n : Nat) (buf : List Byte) (first dFirst : Nat),
    (stdCopyWithin n buf first dFirst).length = buf.length := by
  intro n
  induction n with
  | zero => intro buf first dFirst; rfl
  | succ n ih => intro buf first dFirst; simp [stdCopyWithin, ih]

theorem stdCopyWithin_getElem? : ∀ (n : Nat) (buf : List Byte) (first dFirst i : Nat),
    dFirst ≤ first → first + n ≤ buf.length →
    (stdCopyWithin n buf first dFirst)[i]? =
      if dFirst ≤ i ∧ i < dFirst + n then buf[i - dFirst + first]? else buf[i]? := by
  intro n
  induction n with
  | zero => intro buf first dFirst i _ _; rw [if_neg (by omega)]; rfl
  | succ n ih =>
    intro buf first dFirst i hle hlen
    have hlen2 : first + 1 + n ≤ (buf.set dFirst (buf.getD first 0)).length := by
      rw [List.length_set]; omega
    rw [stdCopyWithin, ih _ (first + 1) (dFirst + 1) i (by omega) hlen2]
    by_cases hc : dFirst + 1 ≤ i ∧ i < dFirst + 1 + n
    · rw [if_pos hc, if_pos (by omega)]
      have e : i - (dFirst + 1) + (first + 1) = i - dFirst + first := by omega
      rw [e, List.getElem?_set_ne (by omega)]
    · rw [if_neg hc]
      by_cases hi : i = dFirst
      · subst hi
        rw [if_pos (by omega)]
        have hf : first < buf.length := by omega
        have hd : i < buf.length := by omega
        simp [List.getElem?_set, hd, List.getElem?_eq_getElem hf]
      · rw [if_neg (by omega), List.getElem?_set_ne (fun h => hi h.symm)]

/-! ## Lemmas on Buffer -/

namespace Buffer

theorem content_getElem? (b : Buffer) (i : Nat) :
    b.content[i]? =
      if i < b.writerIndex_ - b.readerIndex_ then b.buffer_[b.readerIndex_ + i]? else none := by
  unfold content
  rw [List.getElem?_take, List.getElem?_drop]

theorem content_length (b : Buffer) (h : IndexInv b) :
    b.content.length = b.writerIndex_ - b.readerIndex_ := by
  obtain ⟨h1, h2, _⟩ := h
  unfold content
  rw [List.length_take, List.length_drop]
  omega

theorem readableBytes_eq (b : Buffer) (h : IndexInv b) (hr : Representable b) :
    b.readableBytes = b.writerIndex_ - b.readerIndex_ := by
  obtain ⟨h1, h2, _⟩ := h
  unfold Representable at hr
  exact sizeSub_of_le h1 (by omega)

theorem writableBytes_eq (b : Buffer) (h : IndexInv b) (hr : Representable b) :
    b.writableBytes = b.buffer_.length - b.writerIndex_ := by
  obtain ⟨h1, h2, _⟩ := h
  exact sizeSub_of_le h2 hr

/-- What `ensureWritableBytes` establishes, in each of its three branches. -/
theorem ensureWritableBytes_spec (b : Buffer) (len : Nat) (h : IndexInv b)
    (hr : Representable b) (hfit : b.writerIndex_ + len < sizeMod)
    (hfit8 : len + kCheapPrepend < sizeMod) :
    IndexInv (b.ensureWritableBytes len) ∧
    (b.ensureWritableBytes len).content = b.content ∧
    (b.ensureWritableBytes len).writerIndex_ + len ≤ (b.ensureWritableBytes len).buffer_.length ∧
    (b.ensureWritableBytes len).buffer_.length ≤ b.buffer_.length + len ∧
    b.buffer_.length ≤ (b.ensureWritableBytes len).buffer_.length ∧
    (kCheapPrepend ≤ b.readerIndex_ → kCheapPrepend ≤ (b.ensureWritableBytes len).readerIndex_) ∧
    Representable (b.ensureWritableBytes len) := by
  have hw := writableBytes_eq b h hr
  have hrd := readableBytes_eq b h hr
  obtain ⟨h1, h2, h3⟩ := h
  unfold kCheapPrepend at h3 hfit8
  unfold Representable at hr ⊢
  unfold ensureWritableBytes
  by_cases hc : b.writableBytes < len
  · rw [if_pos hc]
    rw [hw] at hc
    unfold makeSpace
    have e1 : sizeAdd b.writableBytes b.prependableBytes
        = b.buffer_.length - b.writerIndex_ + b.readerIndex_ := by
      rw [hw]; unfold prependableBytes; exact sizeAdd_of_lt (by omega)
    have e2 : sizeAdd len kCheapPrepend = len + 8 := by
      unfold kCheapPrepend; exact sizeAdd_of_lt (by omega)
    rw [e1, e2]
    by_cases hg : b.buffer_.length - b.writerIndex_ + b.readerIndex_ < len + 8
    · rw [if_pos hg]
      have e3 : sizeAdd b.writerIndex_ len = b.writerIndex_ + len := sizeAdd_of_lt (by omega)
      rw [e3]
      have hv : vectorResize b.buffer_ (b.writerIndex_ + len)
          = b.buffer_ ++ List.replicate (b.writerIndex_ + len - b.buffer_.length) 0 := by
        unfold vectorResize; rw [if_neg (by omega)]
      rw [hv]
      refine ⟨⟨h1, ?_, ?_⟩, ?_, ?_, ?_, ?_, fun hx => hx, ?_⟩
      · simp only [List.length_append, List.length_replicate]; omega
      · unfold kCheapPrepend; simp only [List.length_append, List.length_replicate]; omega
      · apply List.ext_getElem?
        intro i
        rw [content_getElem?, content_getElem?]
        by_cases hi : i < b.writerIndex_ - b.readerIndex_
        · simp only [hi, if_true]
          rw [List.getElem?_append_left (by omega)]
        · simp only [hi, if_false]
      · simp only [List.length_append, List.length_replicate]; omega
      · simp only [List.length_append, List.length_replicate]; omega
      · simp only [List.length_append, List.length_replicate]; omega
      · simp only [List.length_append, List.length_replicate]; omega
    · rw [if_neg hg]
      have e4 : sizeSub b.writerIndex_ b.readerIndex_ = b.writerIndex_ - b.readerIndex_ :=
        sizeSub_of_le h1 (by omega)
      have e5 : sizeAdd kCheapPrepend b.readableBytes = 8 + (b.writerIndex_ - b.readerIndex_) := by
        rw [hrd]; unfold kCheapPrepend; exact sizeAdd_of_lt (by omega)
      simp only [e4, e5]
      refine ⟨⟨?_, ?_, ?_⟩, ?_, ?_, ?_, ?_, fun _ => ?_, ?_⟩
      · show kCheapPrepend ≤ 8 + (b.writerIndex_ - b.readerIndex_)
        unfold kCheapPrepend; omega
      · show 8 + (b.writerIndex_ - b.readerIndex_) ≤ (stdCopyWithin _ _ _ _).length
        rw [stdCopyWithin_length]; omega
      · show kCheapPrepend ≤ (stdCopyWithin _ _ _ _).length
        rw [stdCopyWithin_length]; unfold kCheapPrepend; omega
      · apply List.ext_getElem?
        intro i
        rw [content_getElem?, content_getElem?]
        show (if i < 8 + (b.writerIndex_ - b.readerIndex_) - kCheapPrepend then
            (stdCopyWithin (b.writerIndex_ - b.readerIndex_) b.buffer_ b.readerIndex_
              kCheapPrepend)[kCheapPrepend + i]? else none) = _
        unfold kCheapPrepend
        by_cases hi : i < b.writerIndex_ - b.readerIndex_
        · rw [if_pos (by omega), if_pos hi,
            stdCopyWithin_getElem? _ _ _ _ _ (by omega) (by omega), if_pos (by omega)]
          congr 1; omega
        · rw [if_neg (by omega), if_neg hi]
      · show 8 + (b.writerIndex_ - b.readerIndex_) + len ≤ (stdCopyWithin _ _ _ _).length
        rw [stdCopyWithin_length]; omega
      · show (stdCopyWithin _ _ _ _).length ≤ _
        rw [stdCopyWithin_length]; omega
      · show _ ≤ (stdCopyWithin _ _ _ _).length
        rw [stdCopyWithin_length]
      · exact Nat.le_refl _
      · show (stdCopyWithin _ _ _ _).length < _
        rw [stdCopyWithin_length]; exact hr
  · rw [if_neg hc]
    rw [hw] at hc
    refine ⟨⟨h1, h2, h3⟩, rfl, by omega, by omega, Nat.le_refl _, fun hx => hx, hr⟩

/-- What `append` establishes: the invariant is kept and the readable bytes
are the old ones followed by the data. -/
theorem append_spec (b : Buffer) (data : List Byte) (h : IndexInv b)
    (hr : Representable b) (hfit : b.writerIndex_ + data.length < sizeMod)
    (hfit8 : data.length + kCheapPrepend < sizeMod) :
    IndexInv (b.append data) ∧
    (b.append data).content = b.content ++ data ∧
    (b.append data).buffer_.length ≤ b.buffer_.length + data.length ∧
    b.buffer_.length ≤ (b.append data).buffer_.length ∧
    (kCheapPrepend ≤ b.readerIndex_ → kCheapPrepend ≤ (b.append data).readerIndex_) ∧
    Representable (b.append data) := by
  obtain ⟨⟨k1, k2, k3⟩, kc, kw, ks, ks2, kr, krep⟩ :=
    ensureWritableBytes_spec b data.length h hr hfit hfit8
  unfold Representable at hr krep ⊢
  have hlenc := content_length b h
  unfold append hasWritten
  simp only
  generalize b.ensureWritableBytes data.length = b1 at *
  have e : sizeAdd b1.writerIndex_ data.length = b1.writerIndex_ + data.length :=
    sizeAdd_of_lt (by omega)
  rw [e]
  refine ⟨⟨?_, ?_, ?_⟩, ?_, ?_, ?_, kr, ?_⟩
  · show b1.readerIndex_ ≤ b1.writerIndex_ + data.length
    omega
  · show b1.writerIndex_ + data.length ≤ (stdCopy _ _ _).length
    rw [stdCopy_length]; exact kw
  · show kCheapPrepend ≤ (stdCopy _ _ _).length
    rw [stdCopy_length]; exact k3
  · apply List.ext_getElem?
    intro i
    rw [content_getElem?]
    show (if i < b1.writerIndex_ + data.length - b1.readerIndex_ then
        (stdCopy data b1.buffer_ b1.writerIndex_)[b1.readerIndex_ + i]? else none) = _
    rw [stdCopy_getElem?, ← kc, List.getElem?_append, content_length b1 ⟨k1, k2, k3⟩,
      content_getElem?]
    by_cases hi : i < b1.writerIndex_ - b1.readerIndex_
    · rw [if_pos (by omega), if_neg (by omega), if_pos hi, if_pos hi]
    · rw [if_neg hi]
      by_cases hj : i < b1.writerIndex_ + data.length - b1.readerIndex_
      · rw [if_pos hj, if_pos (by omega)]
        congr 1; omega
      · rw [if_neg hj, List.getElem?_eq_none (by omega)]
  · show (stdCopy _ _ _).length ≤ _
    rw [stdCopy_length]; exact ks
  · show _ ≤ (stdCopy _ _ _).length
    rw [stdCopy_length]; exact ks2
  · show (stdCopy _ _ _).length < _
    rw [stdCopy_length]; exact krep

theorem retrieveAll_spec (b : Buffer) (h : IndexInv b) :
    IndexInv b.retrieveAll ∧ b.retrieveAll.content = [] ∧
    b.retrieveAll.buffer_ = b.buffer_ ∧ b.retrieveAll.readerIndex_ = kCheapPrepend := by
  obtain ⟨h1, h2, h3⟩ := h
  refine ⟨⟨Nat.le_refl _, h3, h3⟩, ?_, rfl, rfl⟩
  unfold content retrieveAll
  simp

theorem retrieve_spec (b : Buffer) (len : Nat) (h : IndexInv b) (hr : Representable b) :
    IndexInv (b.retrieve len) ∧ (b.retrieve len).content = b.content.drop len ∧
    (b.retrieve len).buffer_ = b.buffer_ ∧
    (kCheapPrepend ≤ b.readerIndex_ → kCheapPrepend ≤ (b.retrieve len).readerIndex_) := by
  have hrd := readableBytes_eq b h hr
  have hcl := content_length b h
  unfold retrieve
  rw [hrd]
  by_cases hc : len < b.writerIndex_ - b.readerIndex_
  · obtain ⟨h1, h2, h3⟩ := h
    unfold Representable at hr
    rw [if_pos hc, sizeAdd_of_lt (by omega)]
    refine ⟨⟨?_, h2, h3⟩, ?_, rfl, fun hx => ?_⟩
    · show b.readerIndex_ + len ≤ b.writerIndex_
      omega
    · apply List.ext_getElem?
      intro i
      rw [content_getElem?, List.getElem?_drop, content_getElem?]
      show (if i < b.writerIndex_ - (b.readerIndex_ + len) then
        b.buffer_[b.readerIndex_ + len + i]? else none) = _
      by_cases hi : i < b.writerIndex_ - (b.readerIndex_ + len)
      · rw [if_pos hi, if_pos (by omega), Nat.add_assoc]
      · rw [if_neg hi, if_neg (by omega)]
    · show kCheapPrepend ≤ b.readerIndex_ + len
      omega
  · rw [if_neg hc]
    obtain ⟨k1, k2, k3, k4⟩ := retrieveAll_spec b h
    refine ⟨k1, ?_, k3, fun _ => by rw [k4]⟩
    rw [k2, List.drop_of_length_le (by omega)]

/-- On a buffer whose indices are in order, `retrieveAllAsString` returns the
readable region. -/
theorem retrieveAllAsString_fst (b : Buffer) (h : IndexInv b) (hr : Representable b) :
    b.retrieveAllAsString.1 = b.content := by
  unfold retrieveAllAsString retrieveAsString peekString content
  rw [readableBytes_eq b h hr]

end Buffer

/-! ## Buffer: theorems -/

/-- C1. On a buffer that satisfies the index invariant (and whose size plus
the data length is a `size_t`), `append(S)` followed by
`retrieveAllAsString()` returns what `retrieveAllAsString()` would have
returned before the append, followed by `S`, whichever branch `append` takes;
on a buffer with no readable bytes it returns exactly `S`. -/
theorem Buffer.append_retrieveAllAsString (b : Buffer) (S : List Byte)
    (h : b.IndexInv) (hfit : b.buffer_.length + S.length < sizeMod) :
    (b.append S).retrieveAllAsString.1 = b.retrieveAllAsString.1 ++ S ∧
    (b.readableBytes = 0 → (b.append S).retrieveAllAsString.1 = S) := by
  have hr : b.Representable := by unfold Buffer.Representable; omega
  have h2 := h.2.1
  have h3 : kCheapPrepend ≤ b.buffer_.length := h.2.2
  have hk : kCheapPrepend = 8 := rfl
  obtain ⟨k1, k2, _, _, _, k6⟩ := Buffer.append_spec b S h hr (by omega) (by omega)
  have e : (b.append S).retrieveAllAsString.1 = b.retrieveAllAsString.1 ++ S := by
    rw [Buffer.retrieveAllAsString_fst _ k1 k6, Buffer.retrieveAllAsString_fst _ h hr, k2]
  refine ⟨e, fun h0 => ?_⟩
  rw [e, Buffer.retrieveAllAsString_fst _ h hr]
  have hl := Buffer.content_length b h
  rw [Buffer.readableBytes_eq b h hr] at h0
  rw [h0] at hl
  rw [List.length_eq_zero.mp hl, List.nil_append]

/-- Witness for C1: a 12-byte buffer holding `[7]` takes three more bytes
through the resize branch. -/
theorem Buffer.append_retrieveAllAsString_witness :
    (((Buffer.init 4).append [7]).append [1, 2, 3, 4]).retrieveAllAsString.1
      = [7, 1, 2, 3, 4] :=
  (Buffer.append_retrieveAllAsString ((Buffer.init 4).append [7]) [1, 2, 3, 4]
    (by decide) (by decide)).1

/-- The invariant the in-range calls maintain. -/
theorem Buffer.reachableInRange_inv (b : Buffer) (hb : b.ReachableInRange) :
    b.IndexInv ∧ b.Representable ∧ kCheapPrepend ≤ b.readerIndex_ := by
  induction hb with
  | init n h =>
    unfold Buffer.init Buffer.IndexInv Buffer.Representable
    simp only [List.length_replicate, sizeAdd_of_lt h]
    exact ⟨⟨Nat.le_refl _, Nat.le_add_right _ _, Nat.le_add_right _ _⟩, h, Nat.le_refl _⟩
  | step b op _ h ih =>
    obtain ⟨i1, i2, i3⟩ := ih
    have hw : b.readerIndex_ ≤ b.writerIndex_ := i1.1
    cases op with
    | append data =>
      have h2 : b.writerIndex_ + data.length < sizeMod := h
      obtain ⟨k1, _, _, _, k5, k6⟩ := Buffer.append_spec b data i1 i2 h2 (by omega)
      exact ⟨k1, k6, k5 i3⟩
    | retrieve len =>
      obtain ⟨k1, _, k3, k4⟩ := Buffer.retrieve_spec b len i1 i2
      refine ⟨k1, ?_, k4 i3⟩
      unfold Buffer.Representable Buffer.applyOp
      rw [k3]; exact i2
    | retrieveAll =>
      obtain ⟨k1, _, k3, k4⟩ := Buffer.retrieveAll_spec b i1
      refine ⟨k1, ?_, ?_⟩
      · unfold Buffer.Representable Buffer.applyOp
        rw [k3]; exact i2
      · unfold Buffer.applyOp
        rw [k4]
    | retrieveAsString n =>
      obtain ⟨k1, _, k3, k4⟩ := Buffer.retrieve_spec b n i1 i2
      refine ⟨k1, ?_, k4 i3⟩
      unfold Buffer.Representable Buffer.applyOp Buffer.retrieveAsString
      rw [k3]; exact i2
    | ensureWritableBytes len =>
      have h2 : b.writerIndex_ + len < sizeMod := h
      obtain ⟨k1, _, _, _, _, k5, k6⟩ :=
        Buffer.ensureWritableBytes_spec b len i1 i2 h2 (by omega)
      exact ⟨k1, k6, k5 i3⟩

/-- C2 (amended). For every Buffer reachable from construction by append,
retrieve, retrieveAll, retrieveAsString(n) with n <= readableBytes and
ensureWritableBytes calls whose size computations fit a `size_t`
(`8 + initialSize < 2^64`, and `writerIndex + len < 2^64` at every append and
ensureWritableBytes), the indices satisfy
`readerIndex <= writerIndex <= buffer size`, `buffer size >= 8`, and
readableBytes is the integer difference `writerIndex - readerIndex`. -/
theorem Buffer.reachableInRange_indexInv (b : Buffer) (hb : b.ReachableInRange) :
    b.IndexInv ∧ (b.readableBytes : Int) = (b.writerIndex_ : Int) - (b.readerIndex_ : Int) := by
  obtain ⟨i1, i2, _⟩ := Buffer.reachableInRange_inv b hb
  refine ⟨i1, ?_⟩
  rw [Buffer.readableBytes_eq b i1 i2]
  have := i1.1
  omega

/-- Witness for C2: construct with 4 bytes, append 6 (resize), retrieve 2,
append 3 more. -/
theorem Buffer.reachableInRange_indexInv_witness :
    ((((Buffer.init 4).applyOp (.append [1, 2, 3, 4, 5, 6])).applyOp (.retrieve 2)).applyOp
        (.append [7, 8, 9])).IndexInv ∧
      ((((((Buffer.init 4).applyOp (.append [1, 2, 3, 4, 5, 6])).applyOp (.retrieve 2)).applyOp
        (.append [7, 8, 9])).readableBytes : Nat) : Int) = 17 - 10 :=
  Buffer.reachableInRange_indexInv _
    (.step _ (.append [7, 8, 9])
      (.step _ (.retrieve 2)
        (.step _ (.append [1, 2, 3, 4, 5, 6]) (.init 4 (by decide)) (by decide))
        (by decide))
      (by decide))

/-- C2 as stated fails: with "any initial size" the constructor's
`kCheapPrepend + initialSize` wraps, so `Buffer(2^64 - 8)` has a vector of
size 0 under indices 8; and `ensureWritableBytes(2^64 - 9)` on a buffer with
`writerIndex = 9` resizes the vector to `9 + (2^64 - 9) mod 2^64 = 0`. -/
theorem Buffer.reachable_indexInv_fails :
    (Buffer.Reachable (Buffer.init (sizeMod - 8)) ∧
      ¬ (Buffer.init (sizeMod - 8)).IndexInv) ∧
    (Buffer.Reachable
        (((Buffer.init 0).applyOp (.append [1])).applyOp (.ensureWritableBytes (sizeMod - 9))) ∧
      ¬ (((Buffer.init 0).applyOp (.append [1])).applyOp
          (.ensureWritableBytes (sizeMod - 9))).IndexInv) :=
  ⟨⟨.init _ (by decide), by decide⟩,
   ⟨.step _ _ (.step _ _ (.init 0 (by decide)) (by decide)) (by decide), by decide⟩⟩

/-! ## Lemmas on TcpConnection -/

namespace TcpConnection

@[simp] theorem queueInLoop_wire (c : TcpConnection) (f : Functor) :
    (c.queueInLoop f).wire = c.wire := rfl
@[simp] theorem queueInLoop_outputBuffer (c : TcpConnection) (f : Functor) :
    (c.queueInLoop f).outputBuffer_ = c.outputBuffer_ := rfl
@[simp] theorem queueInLoop_state (c : TcpConnection) (f : Functor) :
    (c.queueInLoop f).state_ = c.state_ := rfl
@[simp] theorem queueInLoop_channel (c : TcpConnection) (f : Functor) :
    (c.queueInLoop f).channel_ = c.channel_ := rfl
@[simp] theorem queueInLoop_log (c : TcpConnection) (f : Functor) :
    (c.queueInLoop f).log = c.log := rfl
@[simp] theorem queueInLoop_pending (c : TcpConnection) (f : Functor) :
    (c.queueInLoop f).pendingFunctors_ = c.pendingFunctors_ ++ [f] := rfl
@[simp] theorem queueInLoop_highWaterMark (c : TcpConnection) (f : Functor) :
    (c.queueInLoop f).highWaterMark_ = c.highWaterMark_ := rfl
@[simp] theorem queueInLoop_highWaterMarkCallback (c : TcpConnection) (f : Functor) :
    (c.queueInLoop f).highWaterMarkCallback_ = c.highWaterMarkCallback_ := rfl
@[simp] theorem queueInLoop_writeCompleteCallback (c : TcpConnection) (f : Functor) :
    (c.queueInLoop f).writeCompleteCallback_ = c.writeCompleteCallback_ := rfl
@[simp] theorem act_wire (c : TcpConnection) (a : Action) : (c.act a).wire = c.wire := rfl
@[simp] theorem act_outputBuffer (c : TcpConnection) (a : Action) :
    (c.act a).outputBuffer_ = c.outputBuffer_ := rfl
@[simp] theorem act_state (c : TcpConnection) (a : Action) : (c.act a).state_ = c.state_ := rfl
@[simp] theorem act_channel (c : TcpConnection) (a : Action) :
    (c.act a).channel_ = c.channel_ := rfl
@[simp] theorem act_log (c : TcpConnection) (a : Action) : (c.act a).log = c.log ++ [a] := rfl
@[simp] theorem act_pending (c : TcpConnection) (a : Action) :
    (c.act a).pendingFunctors_ = c.pendingFunctors_ := rfl

end TcpConnection

theorem Buffer.content_eq_nil_of_readableBytes (b : Buffer) (h : b.IndexInv)
    (hr : b.Representable) (h0 : b.readableBytes = 0) : b.content = [] := by
  have hl := Buffer.content_length b h
  rw [Buffer.readableBytes_eq b h hr] at h0
  rw [h0] at hl
  exact List.length_eq_zero.mp hl

theorem Buffer.peekString_readableBytes (b : Buffer) (h : b.IndexInv) (hr : b.Representable) :
    b.peekString b.readableBytes = b.content := by
  unfold Buffer.peekString Buffer.content
  rw [Buffer.readableBytes_eq b h hr]

theorem Channel.enableWriting_of_isWriting (ch : Channel)
    (h : ch.isWriting = true) : ch.enableWriting = ch := by
  cases ch
  simp_all [Channel.enableWriting, Channel.isWriting]

namespace TcpConnection

theorem sendInLoop_state (c : TcpConnection) (msg : List Byte) (w : WriteOutcome) :
    (c.sendInLoop msg w).state_ = c.state_ := by
  unfold sendInLoop
  simp only []
  split_ifs <;> rfl

theorem sendInLoop_wire (c : TcpConnection) (msg : List Byte) (w : WriteOutcome)
    (hs : c.state_ ≠ .kDisconnected) :
    (c.sendInLoop msg w).wire
      = c.wire ++ (if c.sendDirect = true then (sysWrite w msg).2.2 else []) := by
  unfold sendInLoop
  rw [if_neg hs]
  simp only []
  split_ifs <;> simp

theorem sendInLoop_outputBuffer (c : TcpConnection) (msg : List Byte) (w : WriteOutcome)
    (hs : c.state_ ≠ .kDisconnected) :
    (c.sendInLoop msg w).outputBuffer_
      = if c.sendFaultError msg w = false ∧ 0 < c.sendRemaining msg w then
          c.outputBuffer_.append
            ((msg.drop (c.sendNwrote msg w).toNat).take (c.sendRemaining msg w))
        else c.outputBuffer_ := by
  unfold sendInLoop
  rw [if_neg hs]
  simp only []
  split_ifs <;> simp

theorem sendInLoop_channel (c : TcpConnection) (msg : List Byte) (w : WriteOutcome)
    (hs : c.state_ ≠ .kDisconnected) :
    (c.sendInLoop msg w).channel_
      = if c.sendFaultError msg w = false ∧ 0 < c.sendRemaining msg w then
          c.channel_.enableWriting
        else c.channel_ := by
  unfold sendInLoop
  rw [if_neg hs]
  simp only []
  split_ifs <;> simp_all [Channel.enableWriting_of_isWriting]

theorem sendInLoop_log (c : TcpConnection) (msg : List Byte) (w : WriteOutcome) :
    (c.sendInLoop msg w).log = c.log := by
  unfold sendInLoop
  simp only []
  split_ifs <;> rfl

theorem sendInLoop_pending (c : TcpConnection) (msg : List Byte) (w : WriteOutcome)
    (hs : c.state_ ≠ .kDisconnected) :
    (c.sendInLoop msg w).pendingFunctors_
      = c.pendingFunctors_ ++
        (if c.sendDirect = true ∧ 0 ≤ (sysWrite w msg).1 ∧ c.sendRemaining msg w = 0 ∧
            c.writeCompleteCallback_ = true then [Functor.writeCompleteCallback] else []) ++
        (if (c.sendFaultError msg w = false ∧ 0 < c.sendRemaining msg w) ∧
            c.highWaterMark_ ≤ sizeAdd c.outputBuffer_.readableBytes (c.sendRemaining msg w) ∧
            c.outputBuffer_.readableBytes < c.highWaterMark_ ∧
            c.highWaterMarkCallback_ = true then
          [Functor.highWaterMarkCallback
            (sizeAdd c.outputBuffer_.readableBytes (c.sendRemaining msg w))] else []) := by
  unfold sendInLoop
  rw [if_neg hs]
  simp only []
  split_ifs <;> simp_all


theorem sysWrite_accepts (k : Nat) (data : List Byte) :
    sysWrite (.accepts k) data = (((min k data.length : Nat) : Int), 0, data.take k) := by
  simp [sysWrite, List.length_take]

/-- A write outcome other than `EPIPE`/`ECONNRESET` never sets `faultError`. -/
theorem sendFaultError_of_notFault (c : TcpConnection) (msg : List Byte) (w : WriteOutcome)
    (hw : w.NotFault) : c.sendFaultError msg w = false := by
  unfold sendFaultError
  cases w with
  | accepts k => rw [sysWrite_accepts]; simp
  | fails e =>
    obtain ⟨h1, h2⟩ := hw
    simp [sysWrite, h1, h2]

/-- How `sendInLoop` splits the message: the bytes the direct write put on
the socket, followed by the slice `message + nwrote` of length `remaining`,
are the message. -/
theorem send_split (c : TcpConnection) (msg : List Byte) (w : WriteOutcome)
    (hlen : msg.length < sizeMod) :
    (if c.sendDirect = true then (sysWrite w msg).2.2 else [])
      ++ (msg.drop (c.sendNwrote msg w).toNat).take (c.sendRemaining msg w) = msg ∧
    c.sendRemaining msg w
      = ((msg.drop (c.sendNwrote msg w).toNat).take (c.sendRemaining msg w)).length ∧
    (c.sendDirect = false → c.sendRemaining msg w = msg.length) := by
  unfold sendNwrote sendRemaining
  by_cases hd : c.sendDirect = true
  · cases w with
    | accepts k =>
      rw [sysWrite_accepts]
      have e : sizeSub msg.length (min k msg.length) = msg.length - min k msg.length :=
        sizeSub_of_le (Nat.min_le_right _ _) hlen
      simp only [hd, Int.toNat_ofNat, e]
      have h0 : (0 : Int) ≤ ((min k msg.length : Nat) : Int) := Int.ofNat_nonneg _
      simp only [h0, and_self, if_true]
      simp only [Int.toNat_natCast, Bool.true_and, if_true]
      refine ⟨?_, ?_, by simp⟩
      · by_cases hk : k ≤ msg.length
        · rw [Nat.min_eq_left hk]
          rw [List.take_of_length_le (l := msg.drop k) (by simp), List.take_append_drop]
        · rw [Nat.min_eq_right (by omega), List.take_of_length_le (l := msg) (by omega)]
          simp
      · simp only [List.length_take, List.length_drop]; omega
    | fails e =>
      simp [sysWrite, hd]
  · simp [hd]

theorem sendInLoop_order (c : TcpConnection) (msg : List Byte) (w : WriteOutcome)
    (hs : c.state_ ≠ .kDisconnected) (hinv : c.outputBuffer_.IndexInv)
    (hfit : c.outputBuffer_.buffer_.length + msg.length < sizeMod) (hw : w.NotFault) :
    (c.sendInLoop msg w).wire ++ (c.sendInLoop msg w).outputBuffer_.content
        = c.wire ++ c.outputBuffer_.content ++ msg ∧
      (c.sendInLoop msg w).outputBuffer_.IndexInv ∧
      (c.sendInLoop msg w).outputBuffer_.buffer_.length
        ≤ c.outputBuffer_.buffer_.length + msg.length := by
  have hr : c.outputBuffer_.Representable := by unfold Buffer.Representable; omega
  have h8 : kCheapPrepend ≤ c.outputBuffer_.buffer_.length := hinv.2.2
  have hw2 := hinv.2.1
  have hk : kCheapPrepend = 8 := rfl
  have s1 := sendFaultError_of_notFault c msg w hw
  obtain ⟨s2, s3, s4⟩ := send_split c msg w (by omega)
  rw [sendInLoop_wire c msg w hs, sendInLoop_outputBuffer c msg w hs]
  generalize (msg.drop (c.sendNwrote msg w).toNat).take (c.sendRemaining msg w) = post at *
  generalize hpre : (if c.sendDirect = true then (sysWrite w msg).2.2 else []) = pre at *
  have hlen : msg.length = pre.length + post.length := by rw [← s2]; simp
  have hc : c.outputBuffer_.content ++ pre = pre ++ c.outputBuffer_.content := by
    by_cases hd : c.sendDirect = true
    · have h0 : c.outputBuffer_.readableBytes = 0 := by
        unfold sendDirect at hd
        simp only [Bool.and_eq_true, beq_iff_eq] at hd
        exact hd.2
      rw [Buffer.content_eq_nil_of_readableBytes _ hinv hr h0]; simp
    · rw [if_neg hd] at hpre
      rw [← hpre]; simp
  rw [s1]
  by_cases hp : 0 < c.sendRemaining msg w
  · rw [if_pos ⟨rfl, hp⟩]
    obtain ⟨k1, k2, k3, _, _, _⟩ :=
      Buffer.append_spec c.outputBuffer_ post hinv hr (by omega) (by omega)
    refine ⟨?_, k1, by omega⟩
    rw [k2, ← s2]
    simp only [List.append_assoc]
    rw [← List.append_assoc c.outputBuffer_.content pre post, hc]
    simp only [List.append_assoc]
  · rw [if_neg (by omega)]
    have hp0 : post = [] := List.length_eq_zero.mp (by omega)
    refine ⟨?_, hinv, by omega⟩
    rw [← s2, hp0, List.append_nil, List.append_assoc, List.append_assoc, hc]

theorem handleWrite_state (c : TcpConnection) (w : WriteOutcome) :
    (c.handleWrite w).state_ = c.state_ := by
  unfold handleWrite shutdownInLoop
  simp only []
  split_ifs <;> rfl

theorem handleWrite_wire (c : TcpConnection) (w : WriteOutcome) :
    (c.handleWrite w).wire
      = c.wire ++ (if c.channel_.isWriting = true then
          (sysWrite w (c.outputBuffer_.peekString c.outputBuffer_.readableBytes)).2.2
        else []) := by
  unfold handleWrite shutdownInLoop
  simp only []
  split_ifs <;> simp

theorem handleWrite_outputBuffer (c : TcpConnection) (w : WriteOutcome) :
    (c.handleWrite w).outputBuffer_
      = if c.channel_.isWriting = true ∧
          0 < (sysWrite w (c.outputBuffer_.peekString c.outputBuffer_.readableBytes)).1 then
          c.outputBuffer_.retrieve
            (sysWrite w (c.outputBuffer_.peekString c.outputBuffer_.readableBytes)).1.toNat
        else c.outputBuffer_ := by
  unfold handleWrite shutdownInLoop
  simp only []
  split_ifs <;> simp_all

theorem handleWrite_order (c : TcpConnection) (w : WriteOutcome)
    (hinv : c.outputBuffer_.IndexInv) (hr : c.outputBuffer_.Representable) :
    (c.handleWrite w).wire ++ (c.handleWrite w).outputBuffer_.content
        = c.wire ++ c.outputBuffer_.content ∧
      (c.handleWrite w).outputBuffer_.IndexInv ∧
      (c.handleWrite w).outputBuffer_.buffer_.length = c.outputBuffer_.buffer_.length := by
  rw [handleWrite_wire, handleWrite_outputBuffer, Buffer.peekString_readableBytes _ hinv hr]
  by_cases hwr : c.channel_.isWriting = true
  · simp only [hwr, if_true, true_and]
    cases w with
    | accepts k =>
      rw [sysWrite_accepts]
      simp only [Int.toNat_natCast]
      obtain ⟨k1, k2, k3, _⟩ :=
        Buffer.retrieve_spec c.outputBuffer_ (min k c.outputBuffer_.content.length) hinv hr
      by_cases hp : (0 : Int) < ((min k c.outputBuffer_.content.length : Nat) : Int)
      · rw [if_pos hp]
        refine ⟨?_, k1, by rw [k3]⟩
        rw [k2, List.append_assoc]
        congr 1
        by_cases hk : k ≤ c.outputBuffer_.content.length
        · rw [Nat.min_eq_left hk, List.take_append_drop]
        · rw [Nat.min_eq_right (by omega), List.take_of_length_le (by omega)]
          simp
      · rw [if_neg hp]
        refine ⟨?_, hinv, rfl⟩
        have h0 : min k c.outputBuffer_.content.length = 0 := by omega
        have : (c.outputBuffer_.content.take k).length = 0 := by
          rw [List.length_take]; exact h0
        rw [List.length_eq_zero.mp this, List.append_nil]
    | fails e =>
      simp [sysWrite, hinv]
  · simp [hwr, hinv]

theorem run_sendInLoop_handleWrite (c : TcpConnection) (evs : List Event)
    (hs : c.state_ = .kConnected) (hinv : c.outputBuffer_.IndexInv)
    (hev : ∀ e ∈ evs, e.IsSendOrWrite)
    (hfit : c.outputBuffer_.buffer_.length + (sentBytes evs).length < sizeMod) :
    (c.run evs).wire ++ (c.run evs).outputBuffer_.content
      = (c.wire ++ c.outputBuffer_.content) ++ sentBytes evs ∧
    (c.run evs).state_ = .kConnected := by
  induction evs generalizing c with
  | nil => simp [run, sentBytes, hs]
  | cons e evs ih =>
    have he := hev e (List.mem_cons_self _ _)
    have hev2 : ∀ e2 ∈ evs, e2.IsSendOrWrite := fun e2 h2 => hev e2 (List.mem_cons_of_mem _ h2)
    simp only [sentBytes, List.length_append] at hfit
    have hrun : c.run (e :: evs) = (c.step e).run evs := rfl
    rw [hrun]
    cases e with
    | sendInLoop msg w =>
      have hs2 : c.state_ ≠ .kDisconnected := by rw [hs]; decide
      have hm : (Event.sendInLoop msg w).sentBytes = msg := rfl
      rw [hm] at hfit
      obtain ⟨k1, k2, k3⟩ := sendInLoop_order c msg w hs2 hinv (by omega) he
      have hst : (c.sendInLoop msg w).state_ = .kConnected := by rw [sendInLoop_state, hs]
      obtain ⟨r1, r2⟩ := ih (c.sendInLoop msg w) hst k2 hev2 (by omega)
      refine ⟨?_, r2⟩
      have hstep : c.step (.sendInLoop msg w) = c.sendInLoop msg w := rfl
      rw [hstep, r1, k1]
      simp [sentBytes, Event.sentBytes]
    | handleWrite w =>
      have hm : (Event.handleWrite w).sentBytes = [] := rfl
      rw [hm] at hfit
      simp only [List.length_nil, Nat.zero_add] at hfit
      have hr : c.outputBuffer_.Representable := by unfold Buffer.Representable; omega
      obtain ⟨k1, k2, k3⟩ := handleWrite_order c w hinv hr
      have hst : (c.handleWrite w).state_ = .kConnected := by rw [handleWrite_state, hs]
      obtain ⟨r1, r2⟩ := ih (c.handleWrite w) hst k2 hev2 (by omega)
      refine ⟨?_, r2⟩
      have hstep : c.step (.handleWrite w) = c.handleWrite w := rfl
      rw [hstep, r1, k1]
      simp [sentBytes, Event.sentBytes]
    | connectEstablished => exact absurd he (by simp [Event.IsSendOrWrite])
    | connectDestroyed => exact absurd he (by simp [Event.IsSendOrWrite])
    | send _ _ _ => exact absurd he (by simp [Event.IsSendOrWrite])
    | shutdown _ => exact absurd he (by simp [Event.IsSendOrWrite])
    | handleRead _ => exact absurd he (by simp [Event.IsSendOrWrite])
    | handleClose => exact absurd he (by simp [Event.IsSendOrWrite])
    | handleError => exact absurd he (by simp [Event.IsSendOrWrite])
    | runFunctor _ => exact absurd he (by simp [Event.IsSendOrWrite])

end TcpConnection

/-! ## TcpConnection: order of the bytes sent (C3) -/

theorem Buffer.init_length (n : Nat) (h : kCheapPrepend + n < sizeMod) :
    (Buffer.init n).buffer_.length = kCheapPrepend + n := by
  unfold Buffer.init
  simp only [List.length_replicate, sizeAdd_of_lt h]

theorem Buffer.init_indexInv (n : Nat) (h : kCheapPrepend + n < sizeMod) :
    (Buffer.init n).IndexInv := by
  refine ⟨Nat.le_refl _, ?_, ?_⟩
  · rw [Buffer.init_length n h]; exact Nat.le_add_right _ _
  · rw [Buffer.init_length n h]; exact Nat.le_add_right _ _

theorem Buffer.init_content (n : Nat) : (Buffer.init n).content = [] := by
  simp [Buffer.content, Buffer.init]

namespace TcpConnection

/-- C3. For a connection in state Connected whose output buffer satisfies the
index invariant, and any interleaving of `sendInLoop(m_1)`, `sendInLoop(m_2)`,
... calls with `handleWrite` events in which no direct write of `sendInLoop`
fails with `EPIPE`/`ECONNRESET` (every write accepts an arbitrary number of
the offered bytes or fails), the bytes accepted by the socket followed by the
readable bytes of the output buffer are what they were before, followed by
`m_1 ++ m_2 ++ ...` in call order; on a connection that has sent nothing yet
they are exactly `m_1 ++ m_2 ++ ...`.  The vector size plus the number of
bytes sent is assumed to fit a `size_t`. -/
theorem sendInLoop_handleWrite_order (c : TcpConnection) (evs : List Event)
    (hs : c.state_ = .kConnected) (hinv : c.outputBuffer_.IndexInv)
    (hev : ∀ e ∈ evs, e.IsSendOrWrite)
    (hfit : c.outputBuffer_.buffer_.length + (sentBytes evs).length < sizeMod) :
    (c.run evs).wire ++ (c.run evs).outputBuffer_.content
      = (c.wire ++ c.outputBuffer_.content) ++ sentBytes evs ∧
    (c.wire = [] → c.outputBuffer_.content = [] →
      (c.run evs).wire ++ (c.run evs).outputBuffer_.content = sentBytes evs) := by
  have h := (run_sendInLoop_handleWrite c evs hs hinv hev hfit).1
  refine ⟨h, fun h1 h2 => ?_⟩
  rw [h, h1, h2]; rfl

/-- Witness for C3: on a fresh connection, `[1,2,3]` is sent with one byte
accepted, `[4,5]` is buffered behind it, a write event drains three bytes,
and `[6]` is buffered. -/
theorem sendInLoop_handleWrite_order_witness :
    (((init 5).connectEstablished.run
        [.sendInLoop [1, 2, 3] (.accepts 1), .sendInLoop [4, 5] (.accepts 7),
          .handleWrite (.accepts 3), .sendInLoop [6] (.fails EWOULDBLOCK)]).wire ++
      ((init 5).connectEstablished.run
        [.sendInLoop [1, 2, 3] (.accepts 1), .sendInLoop [4, 5] (.accepts 7),
          .handleWrite (.accepts 3), .sendInLoop [6] (.fails EWOULDBLOCK)]).outputBuffer_.content)
      = [1, 2, 3, 4, 5, 6] :=
  (sendInLoop_handleWrite_order (init 5).connectEstablished
    [.sendInLoop [1, 2, 3] (.accepts 1), .sendInLoop [4, 5] (.accepts 7),
      .handleWrite (.accepts 3), .sendInLoop [6] (.fails EWOULDBLOCK)]
    rfl (Buffer.init_indexInv kInitialSize (by decide)) (by decide)
    (by rw [show (init 5).connectEstablished.outputBuffer_ = Buffer.init kInitialSize from rfl,
          Buffer.init_length kInitialSize (by decide)]; decide)).2 rfl
    (Buffer.init_content kInitialSize)

end TcpConnection

namespace TcpConnection

/-! ## TcpConnection: high-water mark (C4) -/

theorem sendInLoop_keeps_callbacks (c : TcpConnection) (msg : List Byte) (w : WriteOutcome) :
    (c.sendInLoop msg w).highWaterMark_ = c.highWaterMark_ ∧
    (c.sendInLoop msg w).highWaterMarkCallback_ = c.highWaterMarkCallback_ ∧
    (c.sendInLoop msg w).writeCompleteCallback_ = c.writeCompleteCallback_ := by
  unfold sendInLoop
  simp only []
  split_ifs <;> simp

/-- What a `sendInLoop` that reaches the body of its second `if` does. -/
theorem sendInLoop_buffers (c : TcpConnection) (msg : List Byte) (w : WriteOutcome)
    (hs : c.state_ ≠ .kDisconnected) (hinv : c.outputBuffer_.IndexInv)
    (hfit : c.outputBuffer_.buffer_.length + msg.length < sizeMod)
    (hf : c.sendFaultError msg w = false) (hrem : 0 < c.sendRemaining msg w) :
    (c.sendInLoop msg w).outputBuffer_.IndexInv ∧
    (c.sendInLoop msg w).outputBuffer_.buffer_.length
      ≤ c.outputBuffer_.buffer_.length + msg.length ∧
    (c.sendInLoop msg w).outputBuffer_.readableBytes
      = c.outputBuffer_.readableBytes + c.sendRemaining msg w ∧
    (c.sendInLoop msg w).channel_.isWriting = true ∧
    (c.sendInLoop msg w).pendingFunctors_
      = c.pendingFunctors_ ++
        (if (c.outputBuffer_.readableBytes < c.highWaterMark_ ∧
              c.highWaterMark_ ≤ c.outputBuffer_.readableBytes + c.sendRemaining msg w) ∧
            c.highWaterMarkCallback_ = true then
          [Functor.highWaterMarkCallback
            (c.outputBuffer_.readableBytes + c.sendRemaining msg w)] else []) := by
  have hr : c.outputBuffer_.Representable := by unfold Buffer.Representable; omega
  have h8 : kCheapPrepend ≤ c.outputBuffer_.buffer_.length := hinv.2.2
  have hw2 := hinv.2.1
  have hk : kCheapPrepend = 8 := rfl
  obtain ⟨s2, s3, _⟩ := send_split c msg w (by omega)
  have hle : c.sendRemaining msg w ≤ msg.length := by
    have := congrArg List.length s2
    rw [List.length_append, ← s3] at this
    omega
  have hold := Buffer.readableBytes_eq _ hinv hr
  have hsum : sizeAdd c.outputBuffer_.readableBytes (c.sendRemaining msg w)
      = c.outputBuffer_.readableBytes + c.sendRemaining msg w :=
    sizeAdd_of_lt (by rw [hold]; omega)
  rw [sendInLoop_outputBuffer c msg w hs, sendInLoop_channel c msg w hs,
    sendInLoop_pending c msg w hs, if_pos ⟨hf, hrem⟩, if_pos ⟨hf, hrem⟩, hsum]
  generalize (msg.drop (c.sendNwrote msg w).toNat).take (c.sendRemaining msg w) = post at *
  obtain ⟨k1, k2, k3, _, _, k6⟩ :=
    Buffer.append_spec c.outputBuffer_ post hinv hr (by omega) (by omega)
  refine ⟨k1, by omega, ?_, rfl, ?_⟩
  · rw [Buffer.readableBytes_eq _ k1 k6, ← Buffer.content_length _ k1, k2, List.length_append,
      Buffer.content_length _ hinv, hold, s3]
  · rw [if_neg (by omega), List.append_nil]
    congr 1
    by_cases hcb : c.highWaterMarkCallback_ = true
    · by_cases h1 : c.outputBuffer_.readableBytes < c.highWaterMark_
      · by_cases h2 : c.highWaterMark_ ≤ c.outputBuffer_.readableBytes + c.sendRemaining msg w
        · rw [if_pos ⟨⟨hf, hrem⟩, h2, h1, hcb⟩, if_pos ⟨⟨h1, h2⟩, hcb⟩]
        · rw [if_neg (fun h => h2 h.2.1), if_neg (fun h => h2 h.1.2)]
      · rw [if_neg (fun h => h1 h.2.2.1), if_neg (fun h => h1 h.1.1)]
    · rw [if_neg (fun h => hcb h.2.2.2), if_neg (fun h => hcb h.2)]


theorem sendDirect_of_isWriting (c : TcpConnection) (h : c.channel_.isWriting = true) :
    c.sendDirect = false := by
  unfold sendDirect; simp [h]

theorem sendFaultError_of_not_direct (c : TcpConnection) (msg : List Byte) (w : WriteOutcome)
    (h : c.sendDirect = false) : c.sendFaultError msg w = false := by
  unfold sendFaultError; simp [h]

theorem sendRemaining_of_not_direct (c : TcpConnection) (msg : List Byte) (w : WriteOutcome)
    (h : c.sendDirect = false) : c.sendRemaining msg w = msg.length := by
  unfold sendRemaining; simp [h]

/-- The remainder of a direct write that accepted nothing is the whole message. -/
theorem sendRemaining_of_nothing (c : TcpConnection) (msg : List Byte) (w : WriteOutcome)
    (hlen : msg.length < sizeMod) (hw : w = .accepts 0 ∨ w = .fails EWOULDBLOCK) :
    c.sendRemaining msg w = msg.length ∧ c.sendFaultError msg w = false := by
  rcases hw with h | h
  · subst h
    refine ⟨?_, sendFaultError_of_notFault _ _ _ trivial⟩
    unfold sendRemaining
    rw [sysWrite_accepts]
    simp only [Nat.zero_min, Int.toNat_natCast]
    rw [sizeSub_of_le (Nat.zero_le _) hlen]
    split_ifs <;> rfl
  · subst h
    refine ⟨?_, sendFaultError_of_notFault _ _ _ (by decide)⟩
    unfold sendRemaining
    simp [sysWrite]

/-- One `sendInLoop` of a non-empty message that puts nothing on the socket
(write-interest is already on, or the direct write accepts nothing). -/
theorem sendInLoop_nothing_accepted (c : TcpConnection) (msg : List Byte) (w : WriteOutcome)
    (R : Nat) (Q : List Functor) (M : Nat)
    (hs : c.state_ = .kConnected) (hinv : c.outputBuffer_.IndexInv)
    (hR : c.outputBuffer_.readableBytes = R) (hQ : c.pendingFunctors_ = Q)
    (hM : c.highWaterMark_ = M) (hcb : c.highWaterMarkCallback_ = true)
    (hfit : c.outputBuffer_.buffer_.length + msg.length < sizeMod)
    (hmsg : 0 < msg.length)
    (hno : c.channel_.isWriting = true ∨ w = .accepts 0 ∨ w = .fails EWOULDBLOCK) :
    (c.sendInLoop msg w).state_ = .kConnected ∧
    (c.sendInLoop msg w).outputBuffer_.IndexInv ∧
    (c.sendInLoop msg w).outputBuffer_.readableBytes = R + msg.length ∧
    (c.sendInLoop msg w).pendingFunctors_
      = Q ++ (if R < M ∧ M ≤ R + msg.length then
          [Functor.highWaterMarkCallback (R + msg.length)] else []) ∧
    (c.sendInLoop msg w).highWaterMark_ = M ∧
    (c.sendInLoop msg w).highWaterMarkCallback_ = true ∧
    (c.sendInLoop msg w).outputBuffer_.buffer_.length
      ≤ c.outputBuffer_.buffer_.length + msg.length ∧
    (c.sendInLoop msg w).channel_.isWriting = true := by
  have hrf : c.sendRemaining msg w = msg.length ∧ c.sendFaultError msg w = false := by
    rcases hno with h | h
    · have hd := sendDirect_of_isWriting c h
      exact ⟨sendRemaining_of_not_direct c msg w hd, sendFaultError_of_not_direct c msg w hd⟩
    · exact sendRemaining_of_nothing c msg w (by omega) h
  obtain ⟨e1, f1⟩ := hrf
  obtain ⟨i1, l1, r1, wr1, q1⟩ := sendInLoop_buffers c msg w (by rw [hs]; decide) hinv
    hfit f1 (by omega)
  obtain ⟨hm1, hcb1, _⟩ := sendInLoop_keeps_callbacks c msg w
  rw [hR, e1] at r1
  rw [hR, e1, hM, hQ, hcb] at q1
  refine ⟨by rw [sendInLoop_state, hs], i1, r1, ?_, by rw [hm1, hM], by rw [hcb1, hcb], l1, wr1⟩
  rw [q1]
  simp only [and_true]

/-- C4. (1) A `sendInLoop` call on a connection with a high-water-mark
callback set that buffers a remainder of `remaining > 0` bytes while the output
buffer holds `oldReadable` bytes leaves `oldReadable + remaining` readable
bytes, and adds to the loop's queue exactly one high-water-mark callback, with
argument `oldReadable + remaining`, if
`oldReadable < highWaterMark <= oldReadable + remaining`, and nothing
otherwise.  (2) With mark 1024 and a peer that accepts nothing, sends of 512,
600 and 200 bytes queue the callback on the second send only, with value
1112. -/
theorem sendInLoop_highWaterMark :
    (∀ (c : TcpConnection) (msg : List Byte) (w : WriteOutcome),
      c.state_ ≠ .kDisconnected → c.highWaterMarkCallback_ = true →
      c.outputBuffer_.IndexInv →
      c.outputBuffer_.buffer_.length + msg.length < sizeMod →
      c.sendFaultError msg w = false → 0 < c.sendRemaining msg w →
      (c.sendInLoop msg w).outputBuffer_.readableBytes
        = c.outputBuffer_.readableBytes + c.sendRemaining msg w ∧
      (c.sendInLoop msg w).pendingFunctors_
        = c.pendingFunctors_ ++
          (if c.outputBuffer_.readableBytes < c.highWaterMark_ ∧
              c.highWaterMark_ ≤ c.outputBuffer_.readableBytes + c.sendRemaining msg w then
            [Functor.highWaterMarkCallback
              (c.outputBuffer_.readableBytes + c.sendRemaining msg w)] else [])) ∧
    (∀ (sockfd : Int) (m1 m2 m3 : List Byte) (w1 w2 w3 : WriteOutcome),
      m1.length = 512 → m2.length = 600 → m3.length = 200 →
      (w1 = .accepts 0 ∨ w1 = .fails EWOULDBLOCK) →
      ((((init sockfd).setHighWaterMarkCallback 1024).connectEstablished.sendInLoop m1
          w1).pendingFunctors_ = [] ∧
        ((((init sockfd).setHighWaterMarkCallback 1024).connectEstablished.sendInLoop m1
          w1).sendInLoop m2 w2).pendingFunctors_ = [Functor.highWaterMarkCallback 1112] ∧
        (((((init sockfd).setHighWaterMarkCallback 1024).connectEstablished.sendInLoop m1
          w1).sendInLoop m2 w2).sendInLoop m3 w3).pendingFunctors_
            = [Functor.highWaterMarkCallback 1112])) := by
  constructor
  · intro c msg w hs hcb hinv hfit hf hrem
    obtain ⟨_, _, k3, _, k5⟩ := sendInLoop_buffers c msg w hs hinv hfit hf hrem
    refine ⟨k3, ?_⟩
    rw [k5]
    simp only [hcb, and_true]
  · intro sockfd m1 m2 m3 w1 w2 w3 h1 h2 h3 hw1
    generalize hc0 : ((init sockfd).setHighWaterMarkCallback 1024).connectEstablished = c0
    have hb0 : c0.outputBuffer_ = Buffer.init kInitialSize := by rw [← hc0]; rfl
    have hi0 : c0.outputBuffer_.IndexInv := by
      rw [hb0]; exact Buffer.init_indexInv _ (by decide)
    have hl0 : c0.outputBuffer_.buffer_.length = 1032 := by
      rw [hb0, Buffer.init_length _ (by decide)]; rfl
    have hsm : sizeMod = 18446744073709551616 := by decide
    obtain ⟨a1, a2, a3, a4, a5, a6, a7, a8⟩ :=
      sendInLoop_nothing_accepted c0 m1 w1 0 [] 1024 (by rw [← hc0]; rfl) hi0
        (by rw [hb0]; decide) (by rw [← hc0]; rfl) (by rw [← hc0]; rfl) (by rw [← hc0]; rfl)
        (by omega) (by omega) (Or.inr hw1)
    obtain ⟨b1, b2, b3, b4, b5, b6, b7, b8⟩ :=
      sendInLoop_nothing_accepted (c0.sendInLoop m1 w1) m2 w2 _ _ 1024 a1 a2 a3 a4 a5 a6
        (by omega) (by omega) (Or.inl a8)
    obtain ⟨d1, d2, d3, d4, d5, d6, d7, d8⟩ :=
      sendInLoop_nothing_accepted ((c0.sendInLoop m1 w1).sendInLoop m2 w2) m3 w3 _ _ 1024
        b1 b2 b3 b4 b5 b6 (by omega) (by omega) (Or.inl b8)
    refine ⟨?_, ?_, ?_⟩
    · rw [a4, h1]; decide
    · rw [b4, h1, h2]; decide
    · rw [d4, h1, h2, h3]; decide

/-- Witness for C4: with mark 4, sending five bytes of which the socket
accepts one buffers four and queues the callback with value 4. -/
theorem sendInLoop_highWaterMark_witness :
    ((((init 5).setHighWaterMarkCallback 4).connectEstablished.sendInLoop [1, 2, 3, 4, 5]
        (.accepts 1)).outputBuffer_.readableBytes = 0 + 4) ∧
      (((init 5).setHighWaterMarkCallback 4).connectEstablished.sendInLoop [1, 2, 3, 4, 5]
        (.accepts 1)).pendingFunctors_ = [] ++ [Functor.highWaterMarkCallback (0 + 4)] :=
  sendInLoop_highWaterMark.1 ((init 5).setHighWaterMarkCallback 4).connectEstablished
    [1, 2, 3, 4, 5] (.accepts 1) (by decide) rfl (Buffer.init_indexInv kInitialSize (by decide))
    (by rw [show ((init 5).setHighWaterMarkCallback 4).connectEstablished.outputBuffer_
          = Buffer.init kInitialSize from rfl, Buffer.init_length kInitialSize (by decide)]
        decide)
    (by decide) (by decide)

end TcpConnection

namespace TcpConnection

/-! ## TcpConnection: connection callbacks (C5) -/

theorem shutdownInLoop_view (c : TcpConnection) :
    (c.shutdownInLoop).state_ = c.state_ ∧ (c.shutdownInLoop).channel_ = c.channel_ ∧
    (c.shutdownInLoop).pendingFunctors_ = c.pendingFunctors_ ∧
    (c.shutdownInLoop).outputBuffer_ = c.outputBuffer_ ∧
    (c.shutdownInLoop).log
      = c.log ++ (if c.channel_.isWriting = false then
          [Action.shutdownWrite c.outputBuffer_.readableBytes] else []) := by
  unfold shutdownInLoop
  split_ifs <;> simp_all

theorem handleWrite_channel_reading (c : TcpConnection) (w : WriteOutcome) :
    (c.handleWrite w).channel_.reading = c.channel_.reading := by
  unfold handleWrite shutdownInLoop
  simp only []
  split_ifs <;> rfl

/-- The only action `handleWrite` can perform is a half-close, and it makes it
with an empty output buffer. -/
theorem handleWrite_log (c : TcpConnection) (w : WriteOutcome) :
    (c.handleWrite w).log = c.log ∨ (c.handleWrite w).log = c.log ++ [Action.shutdownWrite 0] := by
  unfold handleWrite shutdownInLoop
  simp only []
  split_ifs with h1 h2 h3 h4 h5 h6
  all_goals simp_all

theorem quietStep_refl (c : TcpConnection) : c.QuietStep c :=
  ⟨Or.inl rfl, rfl, [], by simp, by simp⟩

theorem handleWrite_quiet (c : TcpConnection) (w : WriteOutcome) :
    c.QuietStep (c.handleWrite w) := by
  refine ⟨Or.inl (handleWrite_state c w), handleWrite_channel_reading c w, ?_⟩
  rcases handleWrite_log c w with h | h
  · exact ⟨[], by simp [h], by simp⟩
  · exact ⟨[_], h, by simp [Action.IsQuiet]⟩

theorem sendInLoop_quiet (c : TcpConnection) (msg : List Byte) (w : WriteOutcome) :
    c.QuietStep (c.sendInLoop msg w) := by
  refine ⟨Or.inl (sendInLoop_state c msg w), ?_, [], by simp [sendInLoop_log], by simp⟩
  by_cases hs : c.state_ = .kDisconnected
  · unfold sendInLoop; rw [if_pos hs]
  · rw [sendInLoop_channel c msg w hs]; split_ifs <;> rfl

theorem shutdownInLoop_quiet (c : TcpConnection) : c.QuietStep c.shutdownInLoop := by
  obtain ⟨v1, v2, _, _, v5⟩ := shutdownInLoop_view c
  refine ⟨Or.inl v1, by rw [v2], _, v5, ?_⟩
  intro a ha
  split_ifs at ha
  · simp at ha; subst ha; trivial
  · simp at ha

theorem send_quiet (c : TcpConnection) (buf : List Byte) (inLoop : Bool) (w : WriteOutcome) :
    c.QuietStep (c.send buf inLoop w) := by
  unfold send
  split_ifs
  · exact sendInLoop_quiet c buf w
  · exact quietStep_refl c
  · exact quietStep_refl c

theorem shutdown_quiet (c : TcpConnection) (inLoop : Bool) :
    c.QuietStep (c.shutdown inLoop) := by
  unfold shutdown
  split_ifs with hs hl
  · obtain ⟨q1, q2, q3⟩ := shutdownInLoop_quiet { c with state_ := .kDisconnecting }
    refine ⟨Or.inr ⟨hs, ?_⟩, q2, q3⟩
    rcases q1 with h | h
    · exact h
    · exact h.2
  · exact ⟨Or.inr ⟨hs, rfl⟩, rfl, [], by simp, by simp⟩
  · exact quietStep_refl c

theorem runFunctor_quiet (c : TcpConnection) (w : WriteOutcome) :
    c.QuietStep (c.runFunctor w) := by
  unfold runFunctor
  cases hp : c.pendingFunctors_ with
  | nil => exact quietStep_refl c
  | cons f rest =>
    cases f with
    | writeCompleteCallback => exact ⟨Or.inl rfl, rfl, [_], rfl, by simp [Action.IsQuiet]⟩
    | highWaterMarkCallback n => exact ⟨Or.inl rfl, rfl, [_], rfl, by simp [Action.IsQuiet]⟩
    | sendInLoop msg => exact sendInLoop_quiet { c with pendingFunctors_ := rest } msg w
    | shutdownInLoop => exact shutdownInLoop_quiet { c with pendingFunctors_ := rest }

/-- An event other than a lifecycle call, a read or a close is a quiet step. -/
theorem step_quiet (c : TcpConnection) (e : Event) (ht : e.IsTraffic) (hq : ¬ e.IsReadOrClose) :
    c.QuietStep (c.step e) := by
  cases e with
  | connectEstablished => exact absurd ht (by simp [Event.IsTraffic])
  | connectDestroyed => exact absurd ht (by simp [Event.IsTraffic])
  | handleRead r => exact absurd trivial hq
  | handleClose => exact absurd trivial hq
  | handleError => exact quietStep_refl c
  | handleWrite w => exact handleWrite_quiet c w
  | sendInLoop msg w => exact sendInLoop_quiet c msg w
  | send buf inLoop w => exact send_quiet c buf inLoop w
  | shutdown inLoop => exact shutdown_quiet c inLoop
  | runFunctor w => exact runFunctor_quiet c w

end TcpConnection

namespace TcpConnection

theorem handleClose_view (c : TcpConnection) :
    c.handleClose.state_ = .kDisconnected ∧ c.handleClose.channel_.reading = false ∧
    c.handleClose.channel_.writing = false ∧
    c.handleClose.log
      = c.log ++ [Action.connectionCallback .kDisconnected, Action.closeCallback] ∧
    c.handleClose.pendingFunctors_ = c.pendingFunctors_ ∧
    c.handleClose.outputBuffer_ = c.outputBuffer_ := by
  unfold handleClose
  simp [act, Channel.disableAll]

theorem handleRead_view (c : TcpConnection) (r : ReadOutcome) :
    ((c.handleRead r).state_ = c.state_ ∧ (c.handleRead r).channel_ = c.channel_ ∧
      ((c.handleRead r).log = c.log ∨ (c.handleRead r).log = c.log ++ [Action.messageCallback]))
    ∨
    ((c.handleRead r).state_ = .kDisconnected ∧ (c.handleRead r).channel_.reading = false ∧
      (c.handleRead r).channel_.writing = false ∧
      (c.handleRead r).log
        = c.log ++ [Action.connectionCallback .kDisconnected, Action.closeCallback]) := by
  unfold handleRead
  simp only []
  split_ifs
  · exact Or.inl ⟨rfl, rfl, Or.inr rfl⟩
  · obtain ⟨v1, v2, v3, v4, _⟩ :=
      handleClose_view { c with inputBuffer_ := (c.inputBuffer_.readFd r).2.2 }
    exact Or.inr ⟨v1, v2, v3, v4⟩
  · exact Or.inl ⟨rfl, rfl, Or.inl rfl⟩

theorem handleRead_rest (c : TcpConnection) (r : ReadOutcome) :
    (c.handleRead r).pendingFunctors_ = c.pendingFunctors_ ∧
    (c.handleRead r).outputBuffer_ = c.outputBuffer_ := by
  unfold handleRead handleClose handleError
  simp only []
  split_ifs <;> exact ⟨rfl, rfl⟩

theorem connectEstablished_view (c : TcpConnection) :
    c.connectEstablished.state_ = .kConnected ∧ c.connectEstablished.channel_.reading = true ∧
    c.connectEstablished.channel_.writing = c.channel_.writing ∧
    c.connectEstablished.log = c.log ++ [Action.connectionCallback .kConnected] ∧
    c.connectEstablished.pendingFunctors_ = c.pendingFunctors_ ∧
    c.connectEstablished.outputBuffer_ = c.outputBuffer_ := by
  unfold connectEstablished
  simp [act, Channel.enableReading, Channel.tie]

theorem connectDestroyed_log (c : TcpConnection) :
    c.connectDestroyed.log
      = c.log ++ (if c.state_ = .kConnected then [Action.connectionCallback .kDisconnected]
          else []) ++ [Action.channelRemove] := by
  unfold connectDestroyed
  simp only []
  split_ifs <;> simp [act]

theorem count_of_quiet (extra : List Action) (s : StateE) (h : ∀ a ∈ extra, a.IsQuiet) :
    extra.count (Action.connectionCallback s) = 0 := by
  rw [List.count_eq_zero]
  intro hm
  exact h _ hm

theorem quietStep_connectionCallbacks (c c2 : TcpConnection) (h : c.QuietStep c2) (s : StateE) :
    c2.connectionCallbacks s = c.connectionCallbacks s := by
  obtain ⟨_, _, extra, h1, h2⟩ := h
  unfold connectionCallbacks
  rw [h1, List.count_append, count_of_quiet extra s h2, Nat.add_zero]

/-- The invariant behind C5: one Connected callback so far, and either the
connection is closed, without read-interest and with one Disconnected
callback, or it is open with none. -/
theorem run_connectionCallbacks (c : TcpConnection) (evs : List Event)
    (ht : ∀ e ∈ evs, e.IsTraffic) (hd : c.DispatchedWhileReading evs)
    (hup : c.connectionCallbacks .kConnected = 1)
    (hinv : (c.state_ = .kDisconnected ∧ c.channel_.reading = false ∧
        c.connectionCallbacks .kDisconnected = 1) ∨
      ((c.state_ = .kConnected ∨ c.state_ = .kDisconnecting) ∧
        c.connectionCallbacks .kDisconnected = 0)) :
    (c.run evs).connectionCallbacks .kConnected = 1 ∧
    (((c.run evs).state_ = .kDisconnected ∧ (c.run evs).channel_.reading = false ∧
        (c.run evs).connectionCallbacks .kDisconnected = 1) ∨
      (((c.run evs).state_ = .kConnected ∨ (c.run evs).state_ = .kDisconnecting) ∧
        (c.run evs).connectionCallbacks .kDisconnected = 0)) := by
  induction evs generalizing c with
  | nil => exact ⟨hup, hinv⟩
  | cons e evs ih =>
    have hte := ht e (List.mem_cons_self _ _)
    have ht2 : ∀ e2 ∈ evs, e2.IsTraffic := fun e2 h2 => ht e2 (List.mem_cons_of_mem _ h2)
    obtain ⟨hd1, hd2⟩ := hd
    have hrun : c.run (e :: evs) = (c.step e).run evs := rfl
    rw [hrun]
    by_cases hq : e.IsReadOrClose
    · have hrd := hd1 hq
      have hopen : (c.state_ = .kConnected ∨ c.state_ = .kDisconnecting) ∧
          c.connectionCallbacks .kDisconnected = 0 := by
        rcases hinv with h | h
        · rw [Channel.isReading, h.2.1] at hrd; exact absurd hrd (by decide)
        · exact h
      have hclosed : ∀ c2 : TcpConnection, c2.state_ = .kDisconnected →
          c2.channel_.reading = false →
          c2.log = c.log ++ [Action.connectionCallback .kDisconnected, Action.closeCallback] →
          c2.connectionCallbacks .kConnected = 1 ∧
          ((c2.state_ = .kDisconnected ∧ c2.channel_.reading = false ∧
              c2.connectionCallbacks .kDisconnected = 1) ∨
            ((c2.state_ = .kConnected ∨ c2.state_ = .kDisconnecting) ∧
              c2.connectionCallbacks .kDisconnected = 0)) := by
        intro c2 h1 h2 h3
        have hu : c2.connectionCallbacks .kConnected = 1 := by
          unfold connectionCallbacks at hup ⊢
          rw [h3, List.count_append, hup]; decide
        have hdn : c2.connectionCallbacks .kDisconnected = 1 := by
          have := hopen.2
          unfold connectionCallbacks at this ⊢
          rw [h3, List.count_append, this]; decide
        exact ⟨hu, Or.inl ⟨h1, h2, hdn⟩⟩
      cases e with
      | handleClose =>
        obtain ⟨v1, v2, _, v4, _⟩ := handleClose_view c
        obtain ⟨r1, r2⟩ := hclosed c.handleClose v1 v2 v4
        exact ih c.handleClose ht2 hd2 r1 r2
      | handleRead r =>
        rcases handleRead_view c r with ⟨v1, v2, v3⟩ | ⟨v1, v2, _, v4⟩
        · have hcnt : ∀ s, (c.handleRead r).connectionCallbacks s = c.connectionCallbacks s := by
            intro s
            unfold connectionCallbacks
            rcases v3 with h | h
            · rw [h]
            · rw [h, List.count_append]; simp
          refine ih (c.handleRead r) ht2 hd2 (by rw [hcnt]; exact hup) (Or.inr ?_)
          rw [hcnt, v1]; exact hopen
        · obtain ⟨r1, r2⟩ := hclosed (c.handleRead r) v1 v2 v4
          exact ih (c.handleRead r) ht2 hd2 r1 r2
      | connectEstablished => exact absurd hq (by simp [Event.IsReadOrClose])
      | connectDestroyed => exact absurd hq (by simp [Event.IsReadOrClose])
      | send _ _ _ => exact absurd hq (by simp [Event.IsReadOrClose])
      | sendInLoop _ _ => exact absurd hq (by simp [Event.IsReadOrClose])
      | shutdown _ => exact absurd hq (by simp [Event.IsReadOrClose])
      | handleWrite _ => exact absurd hq (by simp [Event.IsReadOrClose])
      | handleError => exact absurd hq (by simp [Event.IsReadOrClose])
      | runFunctor _ => exact absurd hq (by simp [Event.IsReadOrClose])
    · have hqs := step_quiet c e hte hq
      have hcnt := quietStep_connectionCallbacks c (c.step e) hqs
      obtain ⟨q1, q2, _⟩ := hqs
      refine ih (c.step e) ht2 hd2 (by rw [hcnt]; exact hup) ?_
      rw [hcnt, q2]
      rcases hinv with ⟨h1, h2, h3⟩ | ⟨h1, h2⟩
      · rcases q1 with q | q
        · exact Or.inl ⟨by rw [q]; exact h1, h2, h3⟩
        · rw [h1] at q; exact absurd q.1 (by decide)
      · rcases q1 with q | q
        · exact Or.inr ⟨by rw [q]; exact h1, h2⟩
        · exact Or.inr ⟨Or.inr q.2, h2⟩

end TcpConnection

namespace TcpConnection

/-- C5 (amended). On a connection that has made no callback yet,
`connectEstablished` followed by any sequence of send, sendInLoop, shutdown,
handleWrite, handleRead, handleClose, handleError and queued-task events in
which handleRead and handleClose are dispatched only while the channel has
read-interest, and which does not leave the connection in state Disconnecting,
followed by `connectDestroyed`, invokes the connection callback exactly once
with the connection Disconnected and exactly once with it Connected. -/
theorem connectDestroyed_connectionCallbacks (c : TcpConnection) (evs : List Event)
    (hlog : c.log = [])
    (ht : ∀ e ∈ evs, e.IsTraffic)
    (hd : c.connectEstablished.DispatchedWhileReading evs)
    (hfin : (c.connectEstablished.run evs).state_ ≠ .kDisconnecting) :
    (c.connectEstablished.run evs).connectDestroyed.connectionCallbacks .kDisconnected = 1 ∧
    (c.connectEstablished.run evs).connectDestroyed.connectionCallbacks .kConnected = 1 := by
  obtain ⟨v1, _, _, v4, _⟩ := connectEstablished_view c
  rw [hlog] at v4
  have hup : c.connectEstablished.connectionCallbacks .kConnected = 1 := by
    unfold connectionCallbacks; rw [v4]; decide
  have hdn : c.connectEstablished.connectionCallbacks .kDisconnected = 0 := by
    unfold connectionCallbacks; rw [v4]; decide
  obtain ⟨r1, r2⟩ := run_connectionCallbacks c.connectEstablished evs ht hd hup
    (Or.inr ⟨Or.inl v1, hdn⟩)
  generalize c.connectEstablished.run evs = c2 at *
  unfold connectionCallbacks at r1 r2 ⊢
  rw [connectDestroyed_log]
  simp only [List.count_append]
  rcases r2 with ⟨h1, _, h3⟩ | ⟨h1, h3⟩
  · rw [if_neg (by rw [h1]; decide), r1, h3]; decide
  · have hc : c2.state_ = .kConnected := by
      rcases h1 with h | h
      · exact h
      · exact absurd h hfin
    rw [if_pos hc, r1, h3]; decide

/-- Witness for C5: a message arrives, the reply is sent, the peer closes, and
the server then destroys the connection. -/
theorem connectDestroyed_connectionCallbacks_witness :
    ((init 5).connectEstablished.run
        [.handleRead (.delivers [1] 0), .send [1] true (.accepts 1),
          .handleClose]).connectDestroyed.connectionCallbacks .kDisconnected = 1 ∧
      ((init 5).connectEstablished.run
        [.handleRead (.delivers [1] 0), .send [1] true (.accepts 1),
          .handleClose]).connectDestroyed.connectionCallbacks .kConnected = 1 :=
  connectDestroyed_connectionCallbacks (init 5)
    [.handleRead (.delivers [1] 0), .send [1] true (.accepts 1), .handleClose]
    rfl (by decide)
    ⟨fun _ => rfl, fun _ => by decide, fun _ => by decide, trivial⟩
    (by decide)

/-- C5 as stated fails.  After `shutdown()` the connection is Disconnecting,
and a `connectDestroyed` scheduled by the server's destructor then makes no
Disconnected callback at all; and a close callback followed, in the same
dispatch, by a read callback that reads end of file makes it twice. -/
theorem connectDestroyed_connectionCallbacks_fails :
    ((init 5).connectEstablished.run
        [.shutdown true]).connectDestroyed.connectionCallbacks .kDisconnected = 0 ∧
      ((init 5).connectEstablished.run
        [.handleClose, .handleRead (.delivers [] 0)]).connectDestroyed.connectionCallbacks
          .kDisconnected = 2 := by
  constructor
  · decide
  · decide

end TcpConnection

/-! ## TcpConnection: no message after the Disconnected callback (C7) -/

/-- In a log without a Disconnected callback, or extended by actions that are not
message callbacks, no message callback follows a Disconnected callback. -/
theorem noMessageAfter_append (l ex : List Action)
    (hl : ∀ l1 l2, l = l1 ++ Action.connectionCallback .kDisconnected :: l2 →
      Action.messageCallback ∉ l2)
    (hex : Action.messageCallback ∉ ex ∨ Action.connectionCallback .kDisconnected ∉ l ++ ex) :
    ∀ l1 l2, l ++ ex = l1 ++ Action.connectionCallback .kDisconnected :: l2 →
      Action.messageCallback ∉ l2 := by
  intro l1 l2 h
  rcases hex with hex | hex
  · rcases List.append_eq_append_iff.mp h with ⟨a, h1, h2⟩ | ⟨c, h1, h2⟩
    · intro hm
      apply hex
      rw [h2]
      exact List.mem_append_right _ (List.mem_cons_of_mem _ hm)
    · cases c with
      | nil =>
        simp only [List.append_nil] at h1
        simp only [List.nil_append] at h2
        intro hm
        apply hex
        rw [← h2]
        exact List.mem_cons_of_mem _ hm
      | cons x c =>
        simp only [List.cons_append, List.cons.injEq] at h2
        obtain ⟨hx, h2⟩ := h2
        subst hx
        rw [h2]
        intro hm
        rcases List.mem_append.mp hm with hm | hm
        · exact hl l1 c h1 hm
        · exact hex hm
  · exfalso
    apply hex
    rw [h]
    exact List.mem_append_right _ (List.mem_cons_self _ _)

namespace TcpConnection

theorem connectDestroyed_view (c : TcpConnection) :
    (c.connectDestroyed.channel_.reading
      = if c.state_ = .kConnected then false else c.channel_.reading) ∧
    (c.connectDestroyed.state_
      = if c.state_ = .kConnected then .kDisconnected else c.state_) ∧
    c.connectDestroyed.pendingFunctors_ = c.pendingFunctors_ ∧
    c.connectDestroyed.outputBuffer_ = c.outputBuffer_ := by
  unfold connectDestroyed
  simp only []
  split_ifs <;> simp [act, Channel.disableAll]

/-- The invariant behind C7. -/
theorem run_noMessageAfter (c : TcpConnection) (evs : List Event)
    (hne : ∀ e ∈ evs, e ≠ Event.connectEstablished) (hr : c.ReadWhileReading evs)
    (h1 : Action.connectionCallback .kDisconnected ∈ c.log → c.channel_.reading = false)
    (h2 : ∀ l1 l2, c.log = l1 ++ Action.connectionCallback .kDisconnected :: l2 →
      Action.messageCallback ∉ l2) :
    ∀ l1 l2, (c.run evs).log = l1 ++ Action.connectionCallback .kDisconnected :: l2 →
      Action.messageCallback ∉ l2 := by
  induction evs generalizing c with
  | nil => exact h2
  | cons e evs ih =>
    have hne1 := hne e (List.mem_cons_self _ _)
    have hne2 : ∀ e2 ∈ evs, e2 ≠ Event.connectEstablished :=
      fun e2 hm => hne e2 (List.mem_cons_of_mem _ hm)
    obtain ⟨hr1, hr2⟩ := hr
    have hrun : c.run (e :: evs) = (c.step e).run evs := rfl
    rw [hrun]
    have hclosed : ∀ c2 : TcpConnection, c2.channel_.reading = false →
        c2.log = c.log ++ [Action.connectionCallback .kDisconnected, Action.closeCallback] →
        (Action.connectionCallback .kDisconnected ∈ c2.log → c2.channel_.reading = false) ∧
        (∀ l1 l2, c2.log = l1 ++ Action.connectionCallback .kDisconnected :: l2 →
          Action.messageCallback ∉ l2) := by
      intro c2 k1 k2
      refine ⟨fun _ => k1, ?_⟩
      rw [k2]
      exact noMessageAfter_append _ _ h2 (Or.inl (by simp))
    have hquiet : ∀ c2 : TcpConnection, c.QuietStep c2 →
        (Action.connectionCallback .kDisconnected ∈ c2.log → c2.channel_.reading = false) ∧
        (∀ l1 l2, c2.log = l1 ++ Action.connectionCallback .kDisconnected :: l2 →
          Action.messageCallback ∉ l2) := by
      intro c2 ⟨_, q2, extra, q3, q4⟩
      rw [q3, q2]
      refine ⟨fun hm => ?_, noMessageAfter_append _ _ h2 (Or.inl (fun hm => q4 _ hm))⟩
      rcases List.mem_append.mp hm with hm | hm
      · exact h1 hm
      · exact absurd (q4 _ hm) (by simp [Action.IsQuiet])
    cases e with
    | connectEstablished => exact absurd rfl hne1
    | handleClose =>
      obtain ⟨_, v2, _, v4, _⟩ := handleClose_view c
      obtain ⟨k1, k2⟩ := hclosed c.handleClose v2 v4
      exact ih c.handleClose hne2 hr2 k1 k2
    | handleRead r =>
      have hrd : c.channel_.reading = true := hr1 ⟨r, rfl⟩
      have hnd : Action.connectionCallback .kDisconnected ∉ c.log := by
        intro hm
        rw [h1 hm] at hrd
        exact absurd hrd (by decide)
      rcases handleRead_view c r with ⟨_, v2, v3⟩ | ⟨_, v2, _, v4⟩
      · refine ih (c.handleRead r) hne2 hr2 ?_ ?_
        · intro hm
          exfalso
          rcases v3 with h | h
          · rw [h] at hm; exact hnd hm
          · rw [h] at hm
            rcases List.mem_append.mp hm with hm | hm
            · exact hnd hm
            · simp at hm
        · rcases v3 with h | h
          · rw [h]; exact h2
          · show ∀ l1 l2, (c.handleRead r).log = _ → _
            rw [h]
            refine noMessageAfter_append _ _ h2 (Or.inr ?_)
            intro hm
            rcases List.mem_append.mp hm with hm | hm
            · exact hnd hm
            · simp at hm
      · obtain ⟨k1, k2⟩ := hclosed (c.handleRead r) v2 v4
        exact ih (c.handleRead r) hne2 hr2 k1 k2
    | connectDestroyed =>
      obtain ⟨v1, _⟩ := connectDestroyed_view c
      have v2 := connectDestroyed_log c
      refine ih c.connectDestroyed hne2 hr2 ?_ ?_
      · intro hm
        rw [v1]
        rw [v2] at hm
        split_ifs with hs
        · rfl
        · rw [if_neg hs] at hm
          simp only [List.append_nil, List.mem_append, List.mem_singleton] at hm
          rcases hm with hm | hm
          · exact h1 hm
          · exact absurd hm (by simp)
      · show ∀ l1 l2, c.connectDestroyed.log = _ → _
        rw [v2, List.append_assoc]
        refine noMessageAfter_append _ _ h2 (Or.inl ?_)
        split_ifs <;> simp
    | handleError => exact ih _ hne2 hr2 (hquiet _ (quietStep_refl c)).1 (hquiet _ (quietStep_refl c)).2
    | handleWrite w =>
      exact ih _ hne2 hr2 (hquiet _ (handleWrite_quiet c w)).1 (hquiet _ (handleWrite_quiet c w)).2
    | sendInLoop msg w =>
      exact ih _ hne2 hr2 (hquiet _ (sendInLoop_quiet c msg w)).1
        (hquiet _ (sendInLoop_quiet c msg w)).2
    | send buf inLoop w =>
      exact ih _ hne2 hr2 (hquiet _ (send_quiet c buf inLoop w)).1
        (hquiet _ (send_quiet c buf inLoop w)).2
    | shutdown inLoop =>
      exact ih _ hne2 hr2 (hquiet _ (shutdown_quiet c inLoop)).1
        (hquiet _ (shutdown_quiet c inLoop)).2
    | runFunctor w =>
      exact ih _ hne2 hr2 (hquiet _ (runFunctor_quiet c w)).1 (hquiet _ (runFunctor_quiet c w)).2

/-- C7. On a connection that has made no callback yet, in every event trace
that begins with `connectEstablished`, continues with any events other than
`connectEstablished` (send, sendInLoop, shutdown, handleRead, handleWrite,
handleClose, handleError, queued tasks, connectDestroyed) and dispatches
handleRead only while the channel has read-interest registered, no message
callback is invoked after a connection callback made with the connection in
state Disconnected. -/
theorem messageCallback_not_after_disconnected (c : TcpConnection) (evs : List Event)
    (hlog : c.log = [])
    (hne : ∀ e ∈ evs, e ≠ Event.connectEstablished)
    (hr : c.connectEstablished.ReadWhileReading evs) :
    ∀ l1 l2,
      (c.connectEstablished.run evs).log = l1 ++ Action.connectionCallback .kDisconnected :: l2 →
      Action.messageCallback ∉ l2 := by
  obtain ⟨_, _, _, v4, _⟩ := connectEstablished_view c
  rw [hlog] at v4
  refine run_noMessageAfter c.connectEstablished evs hne hr ?_ ?_
  · intro hm
    rw [v4] at hm
    simp at hm
  · intro l1 l2 h
    rw [v4] at h
    have : Action.connectionCallback .kDisconnected ∈ [] ++ [Action.connectionCallback .kConnected] := by
      rw [h]; exact List.mem_append_right _ (List.mem_cons_self _ _)
    simp at this

/-- Witness for C7: a message is read, the peer closes, a stale write event
and the destruction follow; the only message callback precedes the
Disconnected callback. -/
theorem messageCallback_not_after_disconnected_witness :
    ((init 5).connectEstablished.run
        [.handleRead (.delivers [1] 0), .handleClose, .handleWrite (.accepts 1),
          .connectDestroyed]).log
      = [Action.connectionCallback .kConnected, Action.messageCallback] ++
          Action.connectionCallback .kDisconnected ::
            [Action.closeCallback, Action.channelRemove] ∧
    Action.messageCallback ∉ [Action.closeCallback, Action.channelRemove] :=
  ⟨by decide,
   messageCallback_not_after_disconnected (init 5)
    [.handleRead (.delivers [1] 0), .handleClose, .handleWrite (.accepts 1), .connectDestroyed]
    rfl (by decide)
    ⟨fun _ => rfl, fun _ => by decide, fun h => by
      obtain ⟨r, hr⟩ := h
      exact absurd hr (by simp), fun h => by
      obtain ⟨r, hr⟩ := h
      exact absurd hr (by simp), trivial⟩
    [Action.connectionCallback .kConnected, Action.messageCallback]
    [Action.closeCallback, Action.channelRemove] (by decide)⟩

end TcpConnection

namespace TcpConnection

/-! ## TcpConnection: the half-close invariant (lemmas for C6) -/

theorem sendInLoop_pending_mem (c : TcpConnection) (msg : List Byte) (w : WriteOutcome) :
    Functor.shutdownInLoop ∈ (c.sendInLoop msg w).pendingFunctors_ →
      Functor.shutdownInLoop ∈ c.pendingFunctors_ := by
  by_cases hs : c.state_ = .kDisconnected
  · unfold sendInLoop; rw [if_pos hs]; exact id
  · rw [sendInLoop_pending c msg w hs]
    intro hm
    simp only [List.mem_append] at hm
    rcases hm with (hm | hm) | hm
    · exact hm
    · split_ifs at hm <;> simp at hm
    · split_ifs at hm <;> simp at hm

theorem sendInLoop_halfCloseInv (c : TcpConnection) (msg : List Byte) (w : WriteOutcome)
    (h : c.HalfCloseInv) : (c.sendInLoop msg w).HalfCloseInv := by
  obtain ⟨k1, k2, k3⟩ := h
  refine ⟨?_, ?_, ?_⟩
  · rw [sendInLoop_state]
    intro hs
    rw [sendInLoop_outputBuffer c msg w hs, sendInLoop_channel c msg w hs]
    split_ifs
    · intro _; rfl
    · exact k1 hs
  · rw [sendInLoop_state]
    exact fun hm => k2 (sendInLoop_pending_mem c msg w hm)
  · rw [sendInLoop_log]; exact k3

theorem shutdownInLoop_halfCloseInv (c : TcpConnection) (h : c.HalfCloseInv)
    (hs : c.state_ ≠ .kDisconnected) : c.shutdownInLoop.HalfCloseInv := by
  obtain ⟨k1, k2, k3⟩ := h
  obtain ⟨v1, v2, v3, v4, v5⟩ := shutdownInLoop_view c
  unfold HalfCloseInv
  rw [v1, v2, v3, v4, v5]
  refine ⟨k1, k2, ?_⟩
  intro n hm
  rcases List.mem_append.mp hm with hm | hm
  · exact k3 n hm
  · split_ifs at hm with hw
    · simp only [List.mem_singleton, Action.shutdownWrite.injEq] at hm
      rw [hm]
      by_contra hne
      rw [k1 hs hne] at hw
      exact absurd hw (by decide)
    · simp at hm

theorem handleWrite_channel (c : TcpConnection) (w : WriteOutcome) :
    (c.handleWrite w).channel_ = c.channel_ ∨
    ((c.handleWrite w).outputBuffer_.readableBytes = 0 ∧
      (c.handleWrite w).channel_ = c.channel_.disableWriting) := by
  unfold handleWrite shutdownInLoop
  simp only []
  split_ifs <;> simp_all

theorem handleWrite_pending_mem (c : TcpConnection) (w : WriteOutcome) :
    Functor.shutdownInLoop ∈ (c.handleWrite w).pendingFunctors_ →
      Functor.shutdownInLoop ∈ c.pendingFunctors_ := by
  unfold handleWrite shutdownInLoop
  simp only []
  split_ifs <;> simp_all

theorem handleWrite_halfCloseInv (c : TcpConnection) (w : WriteOutcome)
    (h : c.HalfCloseInv) : (c.handleWrite w).HalfCloseInv := by
  obtain ⟨k1, k2, k3⟩ := h
  refine ⟨?_, ?_, ?_⟩
  · rw [handleWrite_state]
    intro hs hr
    by_cases hw : c.channel_.isWriting = true
    · rcases handleWrite_channel c w with h | h
      · rw [h]; exact hw
      · exact absurd h.1 hr
    · have he : c.handleWrite w = c := by
        unfold handleWrite; rw [if_neg hw]
      rw [he] at hr ⊢
      exact k1 hs hr
  · rw [handleWrite_state]
    exact fun hm => k2 (handleWrite_pending_mem c w hm)
  · intro n hm
    rcases handleWrite_log c w with h | h
    · rw [h] at hm; exact k3 n hm
    · rw [h] at hm
      rcases List.mem_append.mp hm with hm | hm
      · exact k3 n hm
      · simp only [List.mem_singleton, Action.shutdownWrite.injEq] at hm
        exact hm

theorem send_halfCloseInv (c : TcpConnection) (buf : List Byte) (inLoop : Bool)
    (w : WriteOutcome) (h : c.HalfCloseInv) : (c.send buf inLoop w).HalfCloseInv := by
  unfold send
  split_ifs
  · exact sendInLoop_halfCloseInv c buf w h
  · obtain ⟨k1, k2, k3⟩ := h
    refine ⟨k1, ?_, k3⟩
    intro hm
    simp only [queueInLoop_pending, List.mem_append, List.mem_singleton] at hm
    rcases hm with hm | hm
    · exact k2 hm
    · exact absurd hm (by simp)
  · exact h

theorem shutdown_halfCloseInv (c : TcpConnection) (inLoop : Bool) (h : c.HalfCloseInv) :
    (c.shutdown inLoop).HalfCloseInv := by
  unfold shutdown
  obtain ⟨k1, k2, k3⟩ := h
  split_ifs with hs hl
  · refine shutdownInLoop_halfCloseInv _ ⟨?_, fun _ => rfl, k3⟩ (by simp)
    intro _
    exact k1 (by rw [hs]; decide)
  · refine ⟨?_, fun _ => rfl, k3⟩
    intro _
    exact k1 (by rw [hs]; decide)
  · exact ⟨k1, k2, k3⟩

theorem runFunctor_halfCloseInv (c : TcpConnection) (w : WriteOutcome) (h : c.HalfCloseInv) :
    (c.runFunctor w).HalfCloseInv := by
  unfold runFunctor
  obtain ⟨k1, k2, k3⟩ := h
  cases hp : c.pendingFunctors_ with
  | nil => exact ⟨k1, k2, k3⟩
  | cons f rest =>
    rw [hp] at k2
    have hrest : ({ c with pendingFunctors_ := rest } : TcpConnection).HalfCloseInv :=
      ⟨k1, fun hm => k2 (List.mem_cons_of_mem _ hm), k3⟩
    cases f with
    | writeCompleteCallback =>
      refine ⟨k1, fun hm => k2 (List.mem_cons_of_mem _ hm), ?_⟩
      intro n hm
      simp only [act_log, List.mem_append, List.mem_singleton] at hm
      rcases hm with hm | hm
      · exact k3 n hm
      · exact absurd hm (by simp)
    | highWaterMarkCallback m =>
      refine ⟨k1, fun hm => k2 (List.mem_cons_of_mem _ hm), ?_⟩
      intro n hm
      simp only [act_log, List.mem_append, List.mem_singleton] at hm
      rcases hm with hm | hm
      · exact k3 n hm
      · exact absurd hm (by simp)
    | sendInLoop msg => exact sendInLoop_halfCloseInv _ msg w hrest
    | shutdownInLoop =>
      have hst : c.state_ = .kDisconnecting := k2 (List.mem_cons_self _ _)
      exact shutdownInLoop_halfCloseInv _ hrest (by show c.state_ ≠ _; rw [hst]; decide)

theorem connectDestroyed_halfCloseInv (c : TcpConnection) (h : c.HalfCloseInv) :
    c.connectDestroyed.HalfCloseInv := by
  obtain ⟨k1, k2, k3⟩ := h
  obtain ⟨_, v2, v3, v4⟩ := connectDestroyed_view c
  have v5 := connectDestroyed_log c
  have hch : c.state_ ≠ .kConnected → c.connectDestroyed.channel_ = c.channel_ := by
    intro hs
    unfold connectDestroyed
    rw [if_neg hs]; rfl
  refine ⟨?_, ?_, ?_⟩
  · rw [v2, v4]
    by_cases hs : c.state_ = .kConnected
    · rw [if_pos hs]; intro hx; exact absurd rfl hx
    · rw [if_neg hs, hch hs]; exact k1
  · rw [v2, v3]
    intro hm
    have hd := k2 hm
    rw [if_neg (by rw [hd]; decide)]
    exact hd
  · intro n hm
    rw [v5] at hm
    simp only [List.mem_append, List.mem_singleton] at hm
    rcases hm with (hm | hm) | hm
    · exact k3 n hm
    · split_ifs at hm <;> simp at hm
    · exact absurd hm (by simp)

theorem run_halfCloseInv (c : TcpConnection) (evs : List Event)
    (hev : ∀ e ∈ evs, e.IsWriteSide) (h : c.HalfCloseInv) : (c.run evs).HalfCloseInv := by
  induction evs generalizing c with
  | nil => exact h
  | cons e evs ih =>
    have he := hev e (List.mem_cons_self _ _)
    have hev2 : ∀ e2 ∈ evs, e2.IsWriteSide := fun e2 hm => hev e2 (List.mem_cons_of_mem _ hm)
    have hrun : c.run (e :: evs) = (c.step e).run evs := rfl
    rw [hrun]
    apply ih _ hev2
    cases e with
    | connectEstablished => exact absurd he (by simp [Event.IsWriteSide])
    | handleRead r => exact absurd he (by simp [Event.IsWriteSide])
    | handleClose => exact absurd he (by simp [Event.IsWriteSide])
    | connectDestroyed => exact connectDestroyed_halfCloseInv c h
    | send buf inLoop w => exact send_halfCloseInv c buf inLoop w h
    | sendInLoop msg w => exact sendInLoop_halfCloseInv c msg w h
    | shutdown inLoop => exact shutdown_halfCloseInv c inLoop h
    | handleWrite w => exact handleWrite_halfCloseInv c w h
    | handleError => exact h
    | runFunctor w => exact runFunctor_halfCloseInv c w h

end TcpConnection

/-! ## TcpServer: connection names (C8) -/

theorem digitValue_digitChar (d : Nat) (h : d < 10) : digitValue (Nat.digitChar d) = d := by
  interval_cases d <;> rfl

theorem decimalValue_toDigitsCore : ∀ (fuel n : Nat) (ds : List Char), n < fuel →
    decimalValue (Nat.toDigitsCore 10 fuel n ds) = n * 10 ^ ds.length + decimalValue ds := by
  intro fuel
  induction fuel with
  | zero => intro n ds h; omega
  | succ fuel ih =>
    intro n ds h
    unfold Nat.toDigitsCore
    simp only []
    have hd : digitValue (Nat.digitChar (n % 10)) = n % 10 :=
      digitValue_digitChar _ (Nat.mod_lt _ (by decide))
    by_cases h0 : n / 10 = 0
    · rw [if_pos h0]
      have : n % 10 = n := Nat.mod_eq_of_lt (by omega)
      rw [this] at hd
      simp only [decimalValue, hd, this]
    · rw [if_neg h0, ih (n / 10) _ (by omega)]
      simp only [decimalValue, hd, List.length_cons, pow_succ]
      have hn : n = 10 * (n / 10) + n % 10 := (Nat.div_add_mod n 10).symm
      generalize 10 ^ ds.length = p
      generalize decimalValue ds = v
      nth_rewrite 3 [hn]
      ring

theorem decimalValue_toDigits (n : Nat) : decimalValue (Nat.toDigits 10 n) = n := by
  unfold Nat.toDigits
  rw [decimalValue_toDigitsCore (n + 1) n [] (Nat.lt_succ_self n)]
  simp [decimalValue]

theorem toDigits_injective (n m : Nat) (h : Nat.toDigits 10 n = Nat.toDigits 10 m) : n = m := by
  rw [← decimalValue_toDigits n, ← decimalValue_toDigits m, h]

theorem specConnName_injective (serverName ipPort : List Char) (i j : Nat)
    (h : specConnName serverName ipPort i = specConnName serverName ipPort j) : i = j := by
  unfold specConnName at h
  exact toDigits_injective i j (List.append_cancel_left (List.append_cancel_left h))

theorem toDigits_length_le (n : Nat) (h : n < 10 ^ 10) : (Nat.toDigits 10 n).length ≤ 10 :=
  Nat.toDigitsCore_length 10 (by decide) (n + 1) n 10 h (by decide)

theorem cStr_of_no_nul (s : List Char) (h : '\x00' ∉ s) : cStr s = s := by
  unfold cStr
  rw [List.takeWhile_eq_self_iff]
  intro ch hm
  simp only [ne_eq, decide_not, Bool.not_eq_true', decide_eq_false_iff_not]
  intro he
  exact h (he ▸ hm)

theorem wrapInt32_of_range (x : Int) (h1 : -2 ^ 31 ≤ x) (h2 : x < 2 ^ 31) : wrapInt32 x = x := by
  unfold wrapInt32; omega

theorem wrapInt32_range (x : Int) : -2 ^ 31 ≤ wrapInt32 x ∧ wrapInt32 x < 2 ^ 31 := by
  unfold wrapInt32; omega

theorem wrapInt32_add (x y : Int) : wrapInt32 (wrapInt32 x + y) = wrapInt32 (x + y) := by
  unfold wrapInt32; omega

namespace TcpServer

theorem newConnection_fields (s : TcpServer) (fd : Int) :
    (s.newConnection fd).ipPort_ = s.ipPort_ ∧ (s.newConnection fd).name_ = s.name_ ∧
    (s.newConnection fd).nextConnId_ = wrapInt32 (s.nextConnId_ + 1) ∧
    (s.newConnection fd).connections_.map Prod.fst
      = (s.connections_.filter (fun e => e.1 ≠ s.connName)).map Prod.fst ++ [s.connName] := by
  unfold newConnection mapAssign
  simp

theorem newConnections_fields (fds : List Int) : ∀ (s : TcpServer),
    -2 ^ 31 ≤ s.nextConnId_ → s.nextConnId_ < 2 ^ 31 →
    (s.newConnections fds).ipPort_ = s.ipPort_ ∧ (s.newConnections fds).name_ = s.name_ ∧
    (s.newConnections fds).nextConnId_ = wrapInt32 (s.nextConnId_ + fds.length) := by
  induction fds with
  | nil =>
    intro s h1 h2
    refine ⟨rfl, rfl, ?_⟩
    show s.nextConnId_ = _
    simp only [List.length_nil, Nat.cast_zero, Int.add_zero]
    exact (wrapInt32_of_range _ h1 h2).symm
  | cons fd fds ih =>
    intro s h1 h2
    obtain ⟨n1, n2, n3, _⟩ := newConnection_fields s fd
    obtain ⟨r1, r2⟩ := wrapInt32_range (s.nextConnId_ + 1)
    obtain ⟨k1, k2, k3⟩ := ih (s.newConnection fd) (by rw [n3]; exact r1) (by rw [n3]; exact r2)
    have hrun : s.newConnections (fd :: fds) = (s.newConnection fd).newConnections fds := rfl
    rw [hrun, k1, k2, k3, n1, n2, n3]
    refine ⟨rfl, rfl, ?_⟩
    simp only [List.length_cons, Nat.cast_add, Nat.cast_one]
    unfold wrapInt32; omega

theorem newConnections_append (s : TcpServer) (fds : List Int) (fd : Int) :
    s.newConnections (fds ++ [fd]) = (s.newConnections fds).newConnection fd := by
  unfold newConnections
  rw [List.foldl_append]; rfl

/-- The name `newConnection` builds while the counter is a positive `int`
and the listen address is short enough for `buf`. -/
theorem connName_eq_spec (s : TcpServer) (k : Nat) (hid : s.nextConnId_ = (k : Int))
    (hk : k < 2 ^ 31) (hip : s.ipPort_.length ≤ 1000) (hnul : '\x00' ∉ s.ipPort_) :
    s.connName = specConnName s.name_ s.ipPort_ k := by
  unfold connName connNameSuffix specConnName formatInt
  rw [hid, cStr_of_no_nul _ hnul, if_neg (by omega), Int.toNat_natCast]
  have hl := toDigits_length_le k (by omega)
  rw [List.take_of_length_le]
  simp only [List.length_append, List.length_cons, List.length_nil, kNameBufSize]
  omega

/-- The keys of the connection table after the first calls on a new server. -/
theorem newConnections_keys (ipPort nameArg : List Char) (fds : List Int)
    (hip : ipPort.length ≤ 1000) (hnul : '\x00' ∉ ipPort) (hk : fds.length < 2 ^ 31) :
    ((init ipPort nameArg).newConnections fds).connections_.map Prod.fst
      = (List.range fds.length).map (fun i => specConnName nameArg ipPort (i + 1)) := by
  induction fds using List.reverseRecOn with
  | nil => rfl
  | append_singleton fds fd ih =>
    simp only [List.length_append, List.length_singleton] at hk
    have ih2 := ih (by omega)
    obtain ⟨k1, k2, k3⟩ := newConnections_fields fds (init ipPort nameArg)
      (by show -2 ^ 31 ≤ (1 : Int); omega) (by show (1 : Int) < 2 ^ 31; omega)
    have hid : ((init ipPort nameArg).newConnections fds).nextConnId_
        = ((fds.length + 1 : Nat) : Int) := by
      rw [k3]
      show wrapInt32 (1 + (fds.length : Int)) = _
      rw [wrapInt32_of_range _ (by omega) (by omega)]
      push_cast; omega
    have hname := connName_eq_spec _ (fds.length + 1) hid (by omega)
      (by rw [k1]; exact hip) (by rw [k1]; exact hnul)
    rw [k1, k2] at hname
    have k1i : (init ipPort nameArg).ipPort_ = ipPort := rfl
    have k2i : (init ipPort nameArg).name_ = nameArg := rfl
    rw [k1i, k2i] at hname
    obtain ⟨_, _, _, n4⟩ := newConnection_fields ((init ipPort nameArg).newConnections fds) fd
    rw [newConnections_append, n4, hname]
    have hf : (((init ipPort nameArg).newConnections fds).connections_.filter
        (fun e => e.1 ≠ specConnName nameArg ipPort (fds.length + 1)))
          = ((init ipPort nameArg).newConnections fds).connections_ := by
      rw [List.filter_eq_self]
      intro e he
      have hm : e.1 ∈ ((init ipPort nameArg).newConnections fds).connections_.map Prod.fst :=
        List.mem_map_of_mem _ he
      rw [ih2, List.mem_map] at hm
      obtain ⟨i, hi, hie⟩ := hm
      rw [List.mem_range] at hi
      simp only [ne_eq, decide_not, Bool.not_eq_true', decide_eq_false_iff_not]
      intro heq
      rw [← hie] at heq
      have := specConnName_injective _ _ _ _ heq
      omega
    rw [hf, ih2, List.length_append, List.length_singleton, List.range_succ, List.map_append]
    rfl

/-- C8 (amended). On a new server whose listen address prints without NUL in at
most 1000 characters, for the first `2^31 - 1` newConnection calls: the
`k`-th call (counted from 1) names its connection
`serverName + "-" + ipPort + "#" + decimal(k)`, these names are the keys of
the connection table in insertion order, no two of them are equal, and as
long as fewer than `2^31 - 1` calls have been made the counter `nextConnId_`
is one more than the number of calls (so each call increases it by one). -/
theorem newConnection_names (ipPort nameArg : List Char) (fds : List Int)
    (hip : ipPort.length ≤ 1000) (hnul : '\x00' ∉ ipPort) (hk : fds.length < 2 ^ 31) :
    ((init ipPort nameArg).newConnections fds).connections_.map Prod.fst
      = (List.range fds.length).map (fun i => specConnName nameArg ipPort (i + 1)) ∧
    (((init ipPort nameArg).newConnections fds).connections_.map Prod.fst).Nodup ∧
    (fds.length < 2 ^ 31 - 1 →
      ((init ipPort nameArg).newConnections fds).nextConnId_ = (fds.length : Int) + 1 ∧
      ((init ipPort nameArg).newConnections fds).connName
        = specConnName nameArg ipPort (fds.length + 1)) := by
  have hkeys := newConnections_keys ipPort nameArg fds hip hnul hk
  refine ⟨hkeys, ?_, ?_⟩
  · rw [hkeys]
    refine List.Nodup.map_on ?_ (List.nodup_range _)
    intro i _ j _ h
    have := specConnName_injective _ _ _ _ h
    omega
  · intro hk2
    obtain ⟨k1, k2, k3⟩ := newConnections_fields fds (init ipPort nameArg)
      (by show -2 ^ 31 ≤ (1 : Int); omega) (by show (1 : Int) < 2 ^ 31; omega)
    have hid : ((init ipPort nameArg).newConnections fds).nextConnId_
        = ((fds.length + 1 : Nat) : Int) := by
      rw [k3]
      show wrapInt32 (1 + (fds.length : Int)) = _
      rw [wrapInt32_of_range _ (by omega) (by omega)]
      push_cast; omega
    refine ⟨by rw [hid]; push_cast; rfl, ?_⟩
    have hname := connName_eq_spec _ (fds.length + 1) hid (by omega)
      (by rw [k1]; exact hip) (by rw [k1]; exact hnul)
    rw [k1, k2] at hname
    exact hname

/-- Witness for C8: three connections accepted by the example server. -/
theorem newConnection_names_witness :
    ((init "127.0.0.1:8000".toList "EchoServer-01".toList).newConnections
        [5, 6, 7]).connections_.map Prod.fst
      = ["EchoServer-01-127.0.0.1:8000#1".toList, "EchoServer-01-127.0.0.1:8000#2".toList,
          "EchoServer-01-127.0.0.1:8000#3".toList] :=
  (newConnection_names "127.0.0.1:8000".toList "EchoServer-01".toList [5, 6, 7]
    (by decide) (by decide) (by decide)).1

/-- C8 as stated fails: `nextConnId_` is an `int`.  After `2^31 - 1` calls
the counter has wrapped to `-2^31` instead of increasing, and the call number
`2^32 + 1` generates the same name as the first call. -/
theorem newConnection_names_repeat :
    ((init "127.0.0.1:8000".toList "EchoServer-01".toList).newConnections
        (List.replicate (2 ^ 31 - 1) 7)).nextConnId_ = -2147483648 ∧
    ((init "127.0.0.1:8000".toList "EchoServer-01".toList).newConnections
        (List.replicate (2 ^ 32) 7)).connName
      = (init "127.0.0.1:8000".toList "EchoServer-01".toList).connName := by
  constructor
  · rw [(newConnections_fields _ _ (by decide) (by decide)).2.2, List.length_replicate]
    decide
  · obtain ⟨k1, k2, k3⟩ := newConnections_fields (List.replicate (2 ^ 32) 7)
      (init "127.0.0.1:8000".toList "EchoServer-01".toList) (by decide) (by decide)
    unfold connName connNameSuffix
    rw [k1, k2, k3, List.length_replicate]
    have : wrapInt32 ((init "127.0.0.1:8000".toList "EchoServer-01".toList).nextConnId_
        + ((2 ^ 32 : Nat) : Int))
        = (init "127.0.0.1:8000".toList "EchoServer-01".toList).nextConnId_ := by decide
    rw [this]

end TcpServer

/-! ## EPollPoller: updateChannel (C9) -/

theorem mapSet_self {β : Type} (f : Int → β) (k : Int) (v : β) : mapSet f k v k = v := by
  unfold mapSet; simp

theorem mapSet_of_eq {β : Type} (f : Int → β) (k : Int) (v : β) (h : f k = v) :
    mapSet f k v = f := by
  funext x
  unfold mapSet
  split_ifs with hx
  · rw [hx, h]
  · rfl

theorem storeChannel_self (mem : Nat → Channel) (p : Nat) (ch : Channel) :
    storeChannel mem p ch p = ch := by
  unfold storeChannel; simp

namespace EPollPoller

/-- A successful ADD or MOD leaves the channel's event mask and address
registered for its fd and changes nothing else. -/
theorem update_some (s s1 : EPollPoller) (op : EpollOp) (channel : Nat)
    (hop : op ≠ .EPOLL_CTL_DEL) (h : s.update op channel = some s1) :
    s1 = { s with registered := (mapSet s.registered (s.channelAt channel).fd_
      (some { reading := (s.channelAt channel).reading,
              writing := (s.channelAt channel).writing, ptr := channel })) } := by
  unfold update epollCtl logFatal at h
  by_cases hr : (s.registered (s.channelAt channel).fd_).isSome = true
  · cases op with
    | EPOLL_CTL_DEL => exact absurd rfl hop
    | EPOLL_CTL_ADD => simp [hr] at h
    | EPOLL_CTL_MOD =>
      simp only [hr, if_true, Option.some.injEq] at h
      exact h.symm
  · cases op with
    | EPOLL_CTL_DEL => exact absurd rfl hop
    | EPOLL_CTL_ADD =>
      simp only [Bool.not_eq_true] at hr
      simp only [hr, Bool.false_eq_true, if_false, Option.some.injEq] at h
      exact h.symm
    | EPOLL_CTL_MOD => simp [hr] at h

/-- On a channel that is neither new nor deleted, has a non-empty interest
mask, and is registered with exactly that mask, `updateChannel` changes
nothing. -/
theorem updateChannel_of_registered (s : EPollPoller) (channel : Nat)
    (h1 : (s.channelAt channel).index_ ≠ kNew) (h2 : (s.channelAt channel).index_ ≠ kDeleted)
    (h3 : (s.channelAt channel).isNoneEvent = false)
    (h4 : s.registered (s.channelAt channel).fd_
      = some { reading := (s.channelAt channel).reading,
               writing := (s.channelAt channel).writing, ptr := channel }) :
    s.updateChannel channel = some s := by
  unfold updateChannel
  simp only []
  rw [if_neg (by intro h; rcases h with h | h; exact h1 h; exact h2 h), h3]
  simp only [Bool.false_eq_true, if_false]
  unfold update epollCtl logFatal
  simp only [h4, Option.isSome_some, if_true]
  rw [mapSet_of_eq _ _ _ h4]

/-- After a successful `updateChannel` on a channel with a non-empty interest
mask, the channel is neither new nor deleted and is registered with its
mask. -/
theorem updateChannel_post (s s1 : EPollPoller) (channel : Nat)
    (h3 : (s.channelAt channel).isNoneEvent = false)
    (h : s.updateChannel channel = some s1) :
    (s1.channelAt channel).index_ ≠ kNew ∧ (s1.channelAt channel).index_ ≠ kDeleted ∧
    (s1.channelAt channel).isNoneEvent = false ∧
    s1.registered (s1.channelAt channel).fd_
      = some { reading := (s1.channelAt channel).reading,
               writing := (s1.channelAt channel).writing, ptr := channel } := by
  unfold updateChannel at h
  simp only [] at h
  by_cases hidx : (s.channelAt channel).index_ = kNew ∨ (s.channelAt channel).index_ = kDeleted
  · rw [if_pos hidx] at h
    have hs := update_some _ _ _ _ (by decide) h
    rw [hs]
    split_ifs
    all_goals
      simp only [setIndex, storeChannel_self, mapSet_self]
      refine ⟨by decide, by decide, ?_, trivial⟩
      simpa [Channel.isNoneEvent] using h3
  · rw [if_neg hidx, h3] at h
    simp only [Bool.false_eq_true, if_false] at h
    have hs := update_some _ _ _ _ (by decide) h
    rw [hs]
    simp only [mapSet_self]
    exact ⟨fun hx => hidx (Or.inl hx), fun hx => hidx (Or.inr hx), h3, trivial⟩

/-- C9 (amended). For every poller state and every channel whose interest mask is
not empty (index new, added or deleted), calling `updateChannel` twice in a
row is the same as calling it once: the same channel indices, the same
fd-to-channel map and the same kernel registrations (and the same fatal exit
when `epoll_ctl` fails). -/
theorem updateChannel_idempotent (s : EPollPoller) (channel : Nat)
    (h : (s.channelAt channel).isNoneEvent = false) :
    (s.updateChannel channel).bind (fun s1 => s1.updateChannel channel)
      = s.updateChannel channel := by
  cases hu : s.updateChannel channel with
  | none => rfl
  | some s1 =>
    obtain ⟨p1, p2, p3, p4⟩ := updateChannel_post s s1 channel h hu
    exact updateChannel_of_registered s1 channel p1 p2 p3 p4

/-- Witness for C9: a new channel with read-interest on fd 3. -/
theorem updateChannel_idempotent_witness :
    ((init (fun _ => (Channel.init 3).enableReading)).updateChannel 0).bind
        (fun s1 => s1.updateChannel 0)
      = (init (fun _ => (Channel.init 3).enableReading)).updateChannel 0 :=
  updateChannel_idempotent (init (fun _ => (Channel.init 3).enableReading)) 0 rfl

/-- C9 as stated fails for a channel whose interest mask is empty, whatever
its index.  New: the first call registers it and makes it added, the second
unregisters it and makes it deleted.  Added (registered for reading, interest
since cleared): the first call unregisters it and makes it deleted, the second
registers it again.  Deleted: the first call registers it, the second
unregisters it.  Each line shows (index, map entry of fd 3, fd 3 registered)
after one call and after two. -/
theorem updateChannel_not_idempotent_of_none :
    (((init (fun _ => Channel.init 3)).updateChannel 0).map (fun t => t.observe 0 3)
        = some (kAdded, some 0, true) ∧
      (((init (fun _ => Channel.init 3)).updateChannel 0).bind
        (fun s1 => s1.updateChannel 0)).map (fun t => t.observe 0 3)
        = some (kDeleted, some 0, false)) ∧
    ((({ channels_ := fun fd => if fd = 3 then some 0 else none
         registered := fun fd => if fd = 3 then some ⟨true, false, 0⟩ else none
         channelAt := fun _ => { Channel.init 3 with index_ := kAdded } } :
          EPollPoller).updateChannel 0).map (fun t => t.observe 0 3)
        = some (kDeleted, some 0, false) ∧
      ((({ channels_ := fun fd => if fd = 3 then some 0 else none
           registered := fun fd => if fd = 3 then some ⟨true, false, 0⟩ else none
           channelAt := fun _ => { Channel.init 3 with index_ := kAdded } } :
          EPollPoller).updateChannel 0).bind
        (fun s1 => s1.updateChannel 0)).map (fun t => t.observe 0 3)
        = some (kAdded, some 0, true)) ∧
    ((({ channels_ := fun fd => if fd = 3 then some 0 else none
         registered := fun _ => none
         channelAt := fun _ => { Channel.init 3 with index_ := kDeleted } } :
          EPollPoller).updateChannel 0).map (fun t => t.observe 0 3)
        = some (kAdded, some 0, true) ∧
      ((({ channels_ := fun fd => if fd = 3 then some 0 else none
           registered := fun _ => none
           channelAt := fun _ => { Channel.init 3 with index_ := kDeleted } } :
          EPollPoller).updateChannel 0).bind
        (fun s1 => s1.updateChannel 0)).map (fun t => t.observe 0 3)
        = some (kDeleted, some 0, false)) := by
  refine ⟨⟨?_, ?_⟩, ⟨?_, ?_⟩, ⟨?_, ?_⟩⟩ <;> decide

end EPollPoller

namespace EventLoop

/-! ## EventLoop: doPendingFunctors (C10) -/

theorem queueInLoop_fields (l : EventLoop) (tid : Nat) (cb : LoopTask) :
    (l.queueInLoop tid cb).pendingFunctors_ = l.pendingFunctors_ ++ [cb] ∧
    (l.queueInLoop tid cb).executed = l.executed ∧
    (l.queueInLoop tid cb).callingPendingFunctors_ = l.callingPendingFunctors_ ∧
    (l.queueInLoop tid cb).threadId_ = l.threadId_ := by
  unfold queueInLoop wakeup
  simp only []
  split_ifs <;> exact ⟨rfl, rfl, rfl, rfl⟩

theorem foldl_queueInLoop_fields (ts : List LoopTask) : ∀ (l : EventLoop),
    (ts.foldl (fun acc cb => acc.queueInLoop acc.threadId_ cb) l).pendingFunctors_
      = l.pendingFunctors_ ++ ts ∧
    (ts.foldl (fun acc cb => acc.queueInLoop acc.threadId_ cb) l).executed = l.executed ∧
    (ts.foldl (fun acc cb => acc.queueInLoop acc.threadId_ cb) l).callingPendingFunctors_
      = l.callingPendingFunctors_ ∧
    (ts.foldl (fun acc cb => acc.queueInLoop acc.threadId_ cb) l).threadId_ = l.threadId_ := by
  induction ts with
  | nil => intro l; simp
  | cons t ts ih =>
    intro l
    obtain ⟨q1, q2, q3, q4⟩ := queueInLoop_fields l l.threadId_ t
    obtain ⟨k1, k2, k3, k4⟩ := ih (l.queueInLoop l.threadId_ t)
    simp only [List.foldl_cons]
    rw [k1, k2, k3, k4, q1, q2, q3, q4]
    simp

theorem runTask_fields (l : EventLoop) (t : LoopTask) :
    (l.runTask t).pendingFunctors_ = l.pendingFunctors_ ++ t.enqueues ∧
    (l.runTask t).executed = l.executed ++ [(t.id, l.callingPendingFunctors_)] ∧
    (l.runTask t).callingPendingFunctors_ = l.callingPendingFunctors_ ∧
    (l.runTask t).threadId_ = l.threadId_ := by
  unfold runTask
  simp only []
  obtain ⟨k1, k2, k3, k4⟩ := foldl_queueInLoop_fields t.enqueues
    { l with executed := l.executed ++ [(t.id, l.callingPendingFunctors_)] }
  exact ⟨k1, k2, k3, k4⟩

theorem foldl_runTask_fields (ts : List LoopTask) : ∀ (l : EventLoop),
    (ts.foldl runTask l).pendingFunctors_ = l.pendingFunctors_ ++ ts.flatMap LoopTask.enqueues ∧
    (ts.foldl runTask l).executed
      = l.executed ++ ts.map (fun t => (t.id, l.callingPendingFunctors_)) ∧
    (ts.foldl runTask l).callingPendingFunctors_ = l.callingPendingFunctors_ ∧
    (ts.foldl runTask l).threadId_ = l.threadId_ := by
  induction ts with
  | nil => intro l; simp
  | cons t ts ih =>
    intro l
    obtain ⟨q1, q2, q3, q4⟩ := runTask_fields l t
    obtain ⟨k1, k2, k3, k4⟩ := ih (l.runTask t)
    simp only [List.foldl_cons]
    rw [k1, k2, k3, k4, q1, q2, q3, q4]
    simp [List.flatMap_cons]

/-- C10. `doPendingFunctors` runs each task of the pending list it finds
exactly once, in insertion order, with `callingPendingFunctors_` true while
each runs and false afterwards; the tasks those tasks hand to `queueInLoop`
are not run in this pass: they are the pending list afterwards, in enqueue
order. -/
theorem doPendingFunctors_runs_in_order (l : EventLoop) :
    l.doPendingFunctors.executed
      = l.executed ++ l.pendingFunctors_.map (fun t => (t.id, true)) ∧
    l.doPendingFunctors.callingPendingFunctors_ = false ∧
    l.doPendingFunctors.pendingFunctors_ = l.pendingFunctors_.flatMap LoopTask.enqueues := by
  unfold doPendingFunctors
  simp only []
  obtain ⟨k1, k2, _, _⟩ := foldl_runTask_fields l.pendingFunctors_
    { l with callingPendingFunctors_ := true, pendingFunctors_ := [] }
  refine ⟨k2, trivial, ?_⟩
  rw [k1]
  simp

end EventLoop

namespace EventLoop

/-- C11. For every `queueInLoop(task)` call, on whatever thread: the task is
appended at the end of the pending-task list; `wakeup()` is called exactly
once if the caller is not on the loop's owner thread or the loop is executing
pending tasks (`callingPendingFunctors_` is true), and not at all when the
caller is on the owner thread and the loop is not executing pending tasks;
nothing else changes. -/
theorem queueInLoop_appends_and_wakes (l : EventLoop) (callerTid : Nat) (task : LoopTask) :
    (l.queueInLoop callerTid task).pendingFunctors_ = l.pendingFunctors_ ++ [task] ∧
    (l.queueInLoop callerTid task).wakeups
      = l.wakeups +
        (if callerTid ≠ l.threadId_ ∨ l.callingPendingFunctors_ = true then 1 else 0) ∧
    (l.queueInLoop callerTid task).executed = l.executed ∧
    (l.queueInLoop callerTid task).callingPendingFunctors_ = l.callingPendingFunctors_ ∧
    (l.queueInLoop callerTid task).threadId_ = l.threadId_ := by
  obtain ⟨k1, k2, k3, k4⟩ := queueInLoop_fields l callerTid task
  refine ⟨k1, ?_, k2, k3, k4⟩
  unfold queueInLoop wakeup isInLoopThread
  simp only []
  by_cases ht : callerTid = l.threadId_
  · by_cases hc : l.callingPendingFunctors_ = true
    · simp [ht, hc]
    · simp [ht, hc]
  · have ht2 : ¬ l.threadId_ = callerTid := fun h => ht h.symm
    simp [ht, ht2]

end EventLoop

theorem mapSet_ne {β : Type} (f : Int → β) (k x : Int) (v : β) (h : x ≠ k) :
    mapSet f k v x = f x := by
  unfold mapSet; rw [if_neg h]

theorem storeChannel_ne (mem : Nat → Channel) (p x : Nat) (ch : Channel) (h : x ≠ p) :
    storeChannel mem p ch x = mem x := by
  unfold storeChannel; rw [if_neg h]

namespace EPollPoller

/-- A DEL never stops the poller: afterwards the fd is not registered and
nothing else has changed. -/
theorem update_del (s : EPollPoller) (channel : Nat) :
    s.update .EPOLL_CTL_DEL channel
      = some { s with registered := mapSet s.registered (s.channelAt channel).fd_ none } := by
  unfold update epollCtl
  simp only []
  by_cases hr : (s.registered (s.channelAt channel).fd_).isSome = true
  · simp [hr]
  · simp only [Bool.not_eq_true] at hr
    simp only [hr, Bool.false_eq_true, if_false, if_true]
    have hn : s.registered (s.channelAt channel).fd_ = none := by
      cases h : s.registered (s.channelAt channel).fd_ with
      | none => rfl
      | some e => rw [h] at hr; simp at hr
    rw [mapSet_of_eq _ _ _ hn]

end EPollPoller

namespace TracedPoller

theorem traced_update_del (t : TracedPoller) (channel : Nat) :
    t.update .EPOLL_CTL_DEL channel
      = some { poller := { t.poller with
                registered := mapSet t.poller.registered (t.poller.channelAt channel).fd_ none }
               ctlCalls := t.ctlCalls ++
                [(EpollOp.EPOLL_CTL_DEL, (t.poller.channelAt channel).fd_)] } := by
  unfold update
  rw [EPollPoller.update_del]
  rfl

/-- C12. For every poller state and every channel, `removeChannel` completes
and erases the channel's fd from the fd-to-channel map, issues exactly one
`EPOLL_CTL_DEL` (for that fd) if the channel's index is added at the time of
the call and no `epoll_ctl` at all otherwise, and leaves the channel's index
equal to new; every other channel object (its index included) and every map
entry of another fd are unchanged, and so is the kernel's interest list
except that the channel's fd is not in it when the index was added. -/
theorem removeChannel_effect (t : TracedPoller) (channel : Nat) :
    ∃ t2, t.removeChannel channel = some t2 ∧
      t2.poller.channels_ (t.poller.channelAt channel).fd_ = none ∧
      t2.ctlCalls = t.ctlCalls ++
        (if (t.poller.channelAt channel).index_ = kAdded then
          [(EpollOp.EPOLL_CTL_DEL, (t.poller.channelAt channel).fd_)] else []) ∧
      (t2.poller.channelAt channel).index_ = kNew ∧
      (∀ q, q ≠ channel → t2.poller.channelAt q = t.poller.channelAt q) ∧
      (∀ fd, fd ≠ (t.poller.channelAt channel).fd_ →
        t2.poller.channels_ fd = t.poller.channels_ fd) ∧
      (∀ fd, fd ≠ (t.poller.channelAt channel).fd_ →
        t2.poller.registered fd = t.poller.registered fd) ∧
      t2.poller.registered (t.poller.channelAt channel).fd_
        = (if (t.poller.channelAt channel).index_ = kAdded then none
           else t.poller.registered (t.poller.channelAt channel).fd_) := by
  unfold removeChannel
  simp only []
  by_cases hidx : (t.poller.channelAt channel).index_ = kAdded
  · rw [if_pos hidx, traced_update_del]
    refine ⟨_, rfl, ?_, ?_, ?_, ?_, ?_, ?_, ?_⟩
    · simp [setIndex, EPollPoller.setIndex, mapSet_self]
    · simp [setIndex, hidx]
    · simp [setIndex, EPollPoller.setIndex, storeChannel_self]
    · intro q hq
      simp [setIndex, EPollPoller.setIndex, storeChannel_ne _ _ _ _ hq]
    · intro fd hfd
      simp [setIndex, EPollPoller.setIndex, mapSet_ne _ _ _ _ hfd]
    · intro fd hfd
      simp [setIndex, EPollPoller.setIndex, mapSet_ne _ _ _ _ hfd]
    · simp [setIndex, EPollPoller.setIndex, mapSet_self, hidx]
  · rw [if_neg hidx]
    refine ⟨_, rfl, ?_, ?_, ?_, ?_, ?_, ?_, ?_⟩
    · simp [setIndex, EPollPoller.setIndex, mapSet_self]
    · simp [setIndex, hidx]
    · simp [setIndex, EPollPoller.setIndex, storeChannel_self]
    · intro q hq
      simp [setIndex, EPollPoller.setIndex, storeChannel_ne _ _ _ _ hq]
    · intro fd hfd
      simp [setIndex, EPollPoller.setIndex, mapSet_ne _ _ _ _ hfd]
    · intro fd hfd
      simp [setIndex, EPollPoller.setIndex]
    · simp [setIndex, EPollPoller.setIndex, hidx]

/-- The recorded embedding of `removeChannel` does to the poller what
`EPollPoller.removeChannel` does. -/
theorem removeChannel_poller (t : TracedPoller) (channel : Nat) :
    (t.removeChannel channel).map (fun t2 => t2.poller) = t.poller.removeChannel channel := by
  unfold removeChannel EPollPoller.removeChannel
  simp only []
  by_cases hidx : (t.poller.channelAt channel).index_ = kAdded
  · rw [if_pos hidx, if_pos hidx, traced_update_del, EPollPoller.update_del]
    rfl
  · rw [if_neg hidx, if_neg hidx]
    rfl

end TracedPoller

namespace EPollPoller

theorem update_add (s : EPollPoller) (channel : Nat)
    (h : s.registered (s.channelAt channel).fd_ = none) :
    s.update .EPOLL_CTL_ADD channel
      = some { s with registered := (mapSet s.registered (s.channelAt channel).fd_
          (some { reading := (s.channelAt channel).reading,
                  writing := (s.channelAt channel).writing, ptr := channel })) } := by
  unfold update epollCtl
  simp [h]

theorem update_mod (s : EPollPoller) (channel : Nat) (e : EpollEntry)
    (h : s.registered (s.channelAt channel).fd_ = some e) :
    s.update .EPOLL_CTL_MOD channel
      = some { s with registered := (mapSet s.registered (s.channelAt channel).fd_
          (some { reading := (s.channelAt channel).reading,
                  writing := (s.channelAt channel).writing, ptr := channel })) } := by
  unfold update epollCtl
  simp [h]

end EPollPoller

namespace TracedPoller

/-- What `updateChannel` does with a channel whose index is new or deleted
and whose fd the kernel does not hold, whatever its interest mask. -/
theorem updateChannel_new_or_deleted (t : TracedPoller) (channel : Nat)
    (hidx : (t.poller.channelAt channel).index_ = kNew ∨
      (t.poller.channelAt channel).index_ = kDeleted)
    (hreg : t.poller.registered (t.poller.channelAt channel).fd_ = none) :
    ∃ t2, t.updateChannel channel = some t2 ∧
      t2.ctlCalls = t.ctlCalls ++ [(EpollOp.EPOLL_CTL_ADD, (t.poller.channelAt channel).fd_)] ∧
      (t2.poller.channelAt channel).index_ = kAdded ∧
      t2.poller.registered (t.poller.channelAt channel).fd_
        = some { reading := (t.poller.channelAt channel).reading,
                 writing := (t.poller.channelAt channel).writing, ptr := channel } ∧
      t2.poller.channels_
        = (if (t.poller.channelAt channel).index_ = kNew then
            mapSet t.poller.channels_ (t.poller.channelAt channel).fd_ (some channel)
           else t.poller.channels_) := by
  unfold updateChannel
  simp only []
  rw [if_pos hidx]
  by_cases hn : (t.poller.channelAt channel).index_ = kNew
  · simp only [hn, if_true]
    unfold update setIndex
    rw [EPollPoller.update_add _ _ (by simpa [EPollPoller.setIndex, storeChannel_self] using hreg)]
    refine ⟨_, rfl, ?_, ?_, ?_, ?_⟩
    · simp [EPollPoller.setIndex, storeChannel_self]
    · simp [EPollPoller.setIndex, storeChannel_self]
    · simp [EPollPoller.setIndex, storeChannel_self, mapSet_self]
    · simp [EPollPoller.setIndex]
  · simp only [hn, if_false]
    unfold update setIndex
    rw [EPollPoller.update_add _ _ (by simpa [EPollPoller.setIndex, storeChannel_self] using hreg)]
    refine ⟨_, rfl, ?_, ?_, ?_, ?_⟩
    · simp [EPollPoller.setIndex, storeChannel_self]
    · simp [EPollPoller.setIndex, storeChannel_self]
    · simp [EPollPoller.setIndex, storeChannel_self, mapSet_self]
    · simp [EPollPoller.setIndex]

/-- What `updateChannel` does with a channel that is neither new nor deleted
and has a non-empty interest mask, when the kernel holds its fd. -/
theorem updateChannel_modify (t : TracedPoller) (channel : Nat) (e : EpollEntry)
    (h1 : (t.poller.channelAt channel).index_ ≠ kNew)
    (h2 : (t.poller.channelAt channel).index_ ≠ kDeleted)
    (hmask : (t.poller.channelAt channel).isNoneEvent = false)
    (hreg : t.poller.registered (t.poller.channelAt channel).fd_ = some e) :
    ∃ t2, t.updateChannel channel = some t2 ∧
      t2.ctlCalls = t.ctlCalls ++ [(EpollOp.EPOLL_CTL_MOD, (t.poller.channelAt channel).fd_)] ∧
      t2.poller.channelAt = t.poller.channelAt ∧
      t2.poller.channels_ = t.poller.channels_ ∧
      t2.poller.registered (t.poller.channelAt channel).fd_
        = some { reading := (t.poller.channelAt channel).reading,
                 writing := (t.poller.channelAt channel).writing, ptr := channel } := by
  unfold updateChannel
  simp only []
  rw [if_neg (by intro h; rcases h with h | h; exact h1 h; exact h2 h), hmask]
  simp only [Bool.false_eq_true, if_false]
  unfold update
  rw [EPollPoller.update_mod _ _ e hreg]
  exact ⟨_, rfl, rfl, rfl, rfl, by simp [mapSet_self]⟩

/-- What `updateChannel` does with a channel that is neither new nor deleted
and has an empty interest mask. -/
theorem updateChannel_delete (t : TracedPoller) (channel : Nat)
    (h1 : (t.poller.channelAt channel).index_ ≠ kNew)
    (h2 : (t.poller.channelAt channel).index_ ≠ kDeleted)
    (hmask : (t.poller.channelAt channel).isNoneEvent = true) :
    ∃ t2, t.updateChannel channel = some t2 ∧
      t2.ctlCalls = t.ctlCalls ++ [(EpollOp.EPOLL_CTL_DEL, (t.poller.channelAt channel).fd_)] ∧
      (t2.poller.channelAt channel).index_ = kDeleted ∧
      t2.poller.channels_ = t.poller.channels_ ∧
      t2.poller.registered (t.poller.channelAt channel).fd_ = none := by
  unfold updateChannel
  simp only []
  rw [if_neg (by intro h; rcases h with h | h; exact h1 h; exact h2 h), hmask]
  simp only [if_true]
  rw [traced_update_del]
  refine ⟨_, rfl, rfl, ?_, rfl, ?_⟩
  · simp [setIndex, EPollPoller.setIndex, storeChannel_self]
  · simp [setIndex, EPollPoller.setIndex, mapSet_self]

/-- The recorded embedding of `updateChannel` does to the poller what
`EPollPoller.updateChannel` does. -/
theorem updateChannel_poller (t : TracedPoller) (channel : Nat) :
    (t.updateChannel channel).map (fun t2 => t2.poller) = t.poller.updateChannel channel := by
  unfold updateChannel EPollPoller.updateChannel update
  simp only []
  split_ifs <;> simp [setIndex, Option.map_map, Function.comp_def]

/-- C13 (amended). With a channel whose index is new or deleted, whose
interest mask is empty and whose fd the kernel does not hold, `updateChannel`
is not a no-op: it issues `EPOLL_CTL_ADD` for the fd, which registers the
channel with an empty event mask, and sets the index to added; a new channel
is entered in the fd-to-channel map, for a deleted channel the map is
unchanged. -/
theorem updateChannel_registers_empty_interest (t : TracedPoller) (channel : Nat)
    (hidx : (t.poller.channelAt channel).index_ = kNew ∨
      (t.poller.channelAt channel).index_ = kDeleted)
    (hmask : (t.poller.channelAt channel).isNoneEvent = true)
    (hreg : t.poller.registered (t.poller.channelAt channel).fd_ = none) :
    ∃ t2, t.updateChannel channel = some t2 ∧
      t2.ctlCalls = t.ctlCalls ++ [(EpollOp.EPOLL_CTL_ADD, (t.poller.channelAt channel).fd_)] ∧
      (t2.poller.channelAt channel).index_ = kAdded ∧
      t2.poller.registered (t.poller.channelAt channel).fd_
        = some { reading := false, writing := false, ptr := channel } ∧
      t2.poller.channels_
        = (if (t.poller.channelAt channel).index_ = kNew then
            mapSet t.poller.channels_ (t.poller.channelAt channel).fd_ (some channel)
           else t.poller.channels_) := by
  obtain ⟨t2, k1, k2, k3, k4, k5⟩ := updateChannel_new_or_deleted t channel hidx hreg
  refine ⟨t2, k1, k2, k3, ?_, k5⟩
  rw [k4]
  simp only [Channel.isNoneEvent, Bool.and_eq_true, Bool.not_eq_true'] at hmask
  rw [hmask.1, hmask.2]

/-- Witness for C13: a channel on fd 3 that was never enabled. -/
theorem updateChannel_registers_empty_interest_witness :
    ∃ t2, ({ poller := EPollPoller.init (fun _ => Channel.init 3), ctlCalls := [] } :
        TracedPoller).updateChannel 0 = some t2 ∧
      t2.ctlCalls = [] ++ [(EpollOp.EPOLL_CTL_ADD, 3)] ∧
      (t2.poller.channelAt 0).index_ = kAdded ∧
      t2.poller.registered 3 = some { reading := false, writing := false, ptr := 0 } ∧
      t2.poller.channels_
        = (if (Channel.init 3).index_ = kNew then
            mapSet (fun _ => none) 3 (some 0) else fun _ => none) :=
  updateChannel_registers_empty_interest
    { poller := EPollPoller.init (fun _ => Channel.init 3), ctlCalls := [] } 0
    (Or.inl rfl) rfl rfl

/-- C13 as stated fails: `updateChannel` on a new channel with an empty
interest mask issues `EPOLL_CTL_ADD`, makes the index added and enters the
channel in the map; on a deleted channel with an empty mask it issues
`EPOLL_CTL_ADD` and makes the index added.  Each line shows the calls issued
and (index, map entry of fd 3, fd 3 registered) afterwards. -/
theorem updateChannel_empty_interest_not_noop :
    (({ poller := EPollPoller.init (fun _ => Channel.init 3), ctlCalls := [] } :
        TracedPoller).updateChannel 0).map (fun t2 => (t2.ctlCalls, t2.poller.observe 0 3))
      = some ([(EpollOp.EPOLL_CTL_ADD, 3)], (kAdded, some 0, true)) ∧
    (({ poller :=
          { channels_ := fun fd => if fd = 3 then some 0 else none
            registered := fun _ => none
            channelAt := fun _ => { Channel.init 3 with index_ := kDeleted } }
        ctlCalls := [] } :
        TracedPoller).updateChannel 0).map (fun t2 => (t2.ctlCalls, t2.poller.observe 0 3))
      = some ([(EpollOp.EPOLL_CTL_ADD, 3)], (kAdded, some 0, true)) := by
  constructor <;> decide

/-- C14. With a channel whose interest mask is not empty, `updateChannel`
issues `EPOLL_CTL_ADD`, which registers it, and sets its index to added when
the index is new or deleted (and the kernel does not hold the fd yet), and
issues `EPOLL_CTL_MOD`, which stores the new mask, leaving the index added
and everything else as it is when the index is added (and the kernel holds
the fd).  With a channel whose index is added and whose mask is empty it
issues `EPOLL_CTL_DEL`, after which the fd is not registered, and sets the
index to deleted, keeping the fd-to-channel map as it is. -/
theorem updateChannel_add_mod_del (t : TracedPoller) (channel : Nat) :
    ((t.poller.channelAt channel).isNoneEvent = false →
      ((t.poller.channelAt channel).index_ = kNew ∨
        (t.poller.channelAt channel).index_ = kDeleted) →
      t.poller.registered (t.poller.channelAt channel).fd_ = none →
      ∃ t2, t.updateChannel channel = some t2 ∧
        t2.ctlCalls
          = t.ctlCalls ++ [(EpollOp.EPOLL_CTL_ADD, (t.poller.channelAt channel).fd_)] ∧
        (t2.poller.channelAt channel).index_ = kAdded ∧
        t2.poller.registered (t.poller.channelAt channel).fd_
          = some { reading := (t.poller.channelAt channel).reading,
                   writing := (t.poller.channelAt channel).writing, ptr := channel }) ∧
    ((t.poller.channelAt channel).isNoneEvent = false →
      (t.poller.channelAt channel).index_ = kAdded →
      (t.poller.registered (t.poller.channelAt channel).fd_).isSome = true →
      ∃ t2, t.updateChannel channel = some t2 ∧
        t2.ctlCalls
          = t.ctlCalls ++ [(EpollOp.EPOLL_CTL_MOD, (t.poller.channelAt channel).fd_)] ∧
        (t2.poller.channelAt channel).index_ = kAdded ∧
        t2.poller.channelAt = t.poller.channelAt ∧
        t2.poller.channels_ = t.poller.channels_ ∧
        t2.poller.registered (t.poller.channelAt channel).fd_
          = some { reading := (t.poller.channelAt channel).reading,
                   writing := (t.poller.channelAt channel).writing, ptr := channel }) ∧
    ((t.poller.channelAt channel).isNoneEvent = true →
      (t.poller.channelAt channel).index_ = kAdded →
      ∃ t2, t.updateChannel channel = some t2 ∧
        t2.ctlCalls
          = t.ctlCalls ++ [(EpollOp.EPOLL_CTL_DEL, (t.poller.channelAt channel).fd_)] ∧
        (t2.poller.channelAt channel).index_ = kDeleted ∧
        t2.poller.channels_ = t.poller.channels_ ∧
        t2.poller.registered (t.poller.channelAt channel).fd_ = none) := by
  refine ⟨?_, ?_, ?_⟩
  · intro _ hidx hreg
    obtain ⟨t2, k1, k2, k3, k4, _⟩ := updateChannel_new_or_deleted t channel hidx hreg
    exact ⟨t2, k1, k2, k3, k4⟩
  · intro hmask hidx hreg
    obtain ⟨e, he⟩ := Option.isSome_iff_exists.mp hreg
    obtain ⟨t2, k1, k2, k3, k4, k5⟩ := updateChannel_modify t channel e
      (by rw [hidx]; decide) (by rw [hidx]; decide) hmask he
    exact ⟨t2, k1, k2, by rw [k3]; exact hidx, k3, k4, k5⟩
  · intro hmask hidx
    exact updateChannel_delete t channel (by rw [hidx]; decide) (by rw [hidx]; decide) hmask

/-- Witness for C14: a new channel on fd 3 with read-interest is registered. -/
theorem updateChannel_add_mod_del_witness :
    ∃ t2, ({ poller := EPollPoller.init (fun _ => (Channel.init 3).enableReading),
             ctlCalls := [] } : TracedPoller).updateChannel 0 = some t2 ∧
      t2.ctlCalls = [] ++ [(EpollOp.EPOLL_CTL_ADD, 3)] ∧
      (t2.poller.channelAt 0).index_ = kAdded ∧
      t2.poller.registered 3 = some { reading := true, writing := false, ptr := 0 } :=
  (updateChannel_add_mod_del
    { poller := EPollPoller.init (fun _ => (Channel.init 3).enableReading), ctlCalls := [] }
    0).1 rfl (Or.inl rfl) rfl

end TracedPoller

namespace EPollPoller

/-- Frame lemma for the consistency invariant: a step that touches only the
channel `p`, the map entry and the kernel entry of its fd, and leaves them in
one of the three matching configurations, keeps the poller consistent. -/
theorem consistent_of_local (s s2 : EPollPoller) (p : Nat) (h : s.Consistent)
    (hfd : ∀ q, (s2.channelAt q).fd_ = (s.channelAt q).fd_)
    (hidx : ∀ q, q ≠ p → (s2.channelAt q).index_ = (s.channelAt q).index_)
    (hreg : ∀ fd, fd ≠ (s.channelAt p).fd_ → s2.registered fd = s.registered fd)
    (hmap : ∀ fd, fd ≠ (s.channelAt p).fd_ → s2.channels_ fd = s.channels_ fd)
    (hloc :
      ((s2.channelAt p).index_ = kNew ∧ s2.registered (s.channelAt p).fd_ = none ∧
        s2.channels_ (s.channelAt p).fd_ = none) ∨
      ((s2.channelAt p).index_ = kAdded ∧
        (∃ e, s2.registered (s.channelAt p).fd_ = some e ∧ e.ptr = p) ∧
        s2.channels_ (s.channelAt p).fd_ = some p) ∨
      ((s2.channelAt p).index_ = kDeleted ∧ s2.registered (s.channelAt p).fd_ = none ∧
        s2.channels_ (s.channelAt p).fd_ = some p)) :
    s2.Consistent := by
  obtain ⟨c1, c2, c3, c4, c5, c6⟩ := h
  have hne : ∀ q, q ≠ p → (s.channelAt q).fd_ ≠ (s.channelAt p).fd_ :=
    fun q hq hx => hq (c1 q p hx)
  refine ⟨?_, ?_, ?_, ?_, ?_, ?_⟩
  · intro a b hab
    rw [hfd a, hfd b] at hab
    exact c1 a b hab
  · intro fd e he
    by_cases hf : fd = (s.channelAt p).fd_
    · subst hf
      rcases hloc with ⟨_, l2, _⟩ | ⟨l1, ⟨e2, l2, l3⟩, _⟩ | ⟨_, l2, _⟩
      · rw [l2] at he; exact absurd he (by simp)
      · rw [l2] at he
        simp only [Option.some.injEq] at he
        subst he
        rw [l3, hfd p]
        exact ⟨rfl, l1⟩
      · rw [l2] at he; exact absurd he (by simp)
    · rw [hreg fd hf] at he
      obtain ⟨k1, k2⟩ := c2 fd e he
      have hq : e.ptr ≠ p := by
        intro hx
        rw [hx] at k1
        exact hf k1.symm
      rw [hfd, hidx _ hq]
      exact ⟨k1, k2⟩
  · intro q hq
    rw [hfd q]
    by_cases hqp : q = p
    · subst hqp
      rcases hloc with ⟨l1, _, _⟩ | ⟨_, l2, _⟩ | ⟨l1, _, _⟩
      · rw [l1] at hq; exact absurd hq (by decide)
      · exact l2
      · rw [l1] at hq; exact absurd hq (by decide)
    · rw [hidx q hqp] at hq
      rw [hreg _ (hne q hqp)]
      exact c3 q hq
  · intro q hq
    rw [hfd q]
    by_cases hqp : q = p
    · subst hqp
      rcases hloc with ⟨_, _, l3⟩ | ⟨l1, _, _⟩ | ⟨l1, _, _⟩
      · exact l3
      · rw [l1] at hq; exact absurd hq (by decide)
      · rw [l1] at hq; exact absurd hq (by decide)
    · rw [hidx q hqp] at hq
      rw [hmap _ (hne q hqp)]
      exact c4 q hq
  · intro q hq
    rw [hfd q]
    by_cases hqp : q = p
    · subst hqp
      rcases hloc with ⟨l1, _, _⟩ | ⟨_, _, l3⟩ | ⟨_, _, l3⟩
      · exact absurd l1 hq
      · exact l3
      · exact l3
    · rw [hidx q hqp] at hq
      rw [hmap _ (hne q hqp)]
      exact c5 q hq
  · intro q
    by_cases hqp : q = p
    · subst hqp
      rcases hloc with ⟨l1, _, _⟩ | ⟨l1, _, _⟩ | ⟨l1, _, _⟩
      · exact Or.inl l1
      · exact Or.inr (Or.inl l1)
      · exact Or.inr (Or.inr l1)
    · rw [hidx q hqp]
      exact c6 q

/-- In a consistent poller the kernel holds the fd of a channel only if the
channel's index is added. -/
theorem registered_none_of_not_added (s : EPollPoller) (p : Nat) (h : s.Consistent)
    (hidx : (s.channelAt p).index_ ≠ kAdded) : s.registered (s.channelAt p).fd_ = none := by
  obtain ⟨c1, c2, _⟩ := h
  cases hr : s.registered (s.channelAt p).fd_ with
  | none => rfl
  | some e =>
    obtain ⟨k1, k2⟩ := c2 _ e hr
    have := c1 _ _ k1
    rw [this] at k2
    exact absurd k2 hidx

theorem updateChannel_eq_add (s : EPollPoller) (p : Nat)
    (hidx : (s.channelAt p).index_ = kNew ∨ (s.channelAt p).index_ = kDeleted)
    (hreg : s.registered (s.channelAt p).fd_ = none) :
    s.updateChannel p = some
      { channels_ := (if (s.channelAt p).index_ = kNew then
          mapSet s.channels_ (s.channelAt p).fd_ (some p) else s.channels_)
        registered := mapSet s.registered (s.channelAt p).fd_
          (some { reading := (s.channelAt p).reading, writing := (s.channelAt p).writing,
                  ptr := p })
        channelAt := storeChannel s.channelAt p { s.channelAt p with index_ := kAdded } } := by
  unfold updateChannel
  simp only []
  rw [if_pos hidx]
  by_cases hn : (s.channelAt p).index_ = kNew
  · simp only [hn, if_true]
    rw [update_add _ _ (by simpa [setIndex, storeChannel_self] using hreg)]
    simp [setIndex, storeChannel_self]
  · simp only [hn, if_false]
    rw [update_add _ _ (by simpa [setIndex, storeChannel_self] using hreg)]
    simp [setIndex, storeChannel_self]

theorem updateChannel_eq_del (s : EPollPoller) (p : Nat)
    (hidx : (s.channelAt p).index_ = kAdded) (hmask : (s.channelAt p).isNoneEvent = true) :
    s.updateChannel p = some
      { channels_ := s.channels_
        registered := mapSet s.registered (s.channelAt p).fd_ none
        channelAt := storeChannel s.channelAt p { s.channelAt p with index_ := kDeleted } } := by
  unfold updateChannel
  simp only []
  rw [if_neg (by rw [hidx]; decide), hmask]
  simp only [if_true]
  rw [update_del]
  rfl

theorem updateChannel_eq_mod (s : EPollPoller) (p : Nat) (e : EpollEntry)
    (hidx : (s.channelAt p).index_ = kAdded) (hmask : (s.channelAt p).isNoneEvent = false)
    (hreg : s.registered (s.channelAt p).fd_ = some e) :
    s.updateChannel p = some
      { channels_ := s.channels_
        registered := mapSet s.registered (s.channelAt p).fd_
          (some { reading := (s.channelAt p).reading, writing := (s.channelAt p).writing,
                  ptr := p })
        channelAt := s.channelAt } := by
  unfold updateChannel
  simp only []
  rw [if_neg (by rw [hidx]; decide), hmask]
  simp only [Bool.false_eq_true, if_false]
  rw [update_mod _ _ e hreg]

theorem removeChannel_eq (s : EPollPoller) (p : Nat) :
    s.removeChannel p = some
      { channels_ := mapSet s.channels_ (s.channelAt p).fd_ none
        registered := (if (s.channelAt p).index_ = kAdded then
          mapSet s.registered (s.channelAt p).fd_ none else s.registered)
        channelAt := storeChannel s.channelAt p { s.channelAt p with index_ := kNew } } := by
  unfold removeChannel
  simp only []
  by_cases hidx : (s.channelAt p).index_ = kAdded
  · rw [if_pos hidx, if_pos hidx, update_del]
    rfl
  · rw [if_neg hidx, if_neg hidx]
    rfl

/-- On a consistent poller `updateChannel` is never fatal and keeps the
poller consistent. -/
theorem updateChannel_consistent (s : EPollPoller) (p : Nat) (h : s.Consistent) :
    ∃ s2, s.updateChannel p = some s2 ∧ s2.Consistent := by
  have h6 := h.2.2.2.2.2 p
  have h3 := h.2.2.1 p
  have h5 := h.2.2.2.2.1 p
  rcases h6 with hn | ha | hd
  · have hreg := registered_none_of_not_added s p h (by rw [hn]; decide)
    refine ⟨_, updateChannel_eq_add s p (Or.inl hn) hreg, ?_⟩
    refine consistent_of_local s _ p h ?_ ?_ ?_ ?_ (Or.inr (Or.inl ?_))
    · intro q
      by_cases hq : q = p
      · subst hq; simp [storeChannel_self]
      · simp [storeChannel_ne _ _ _ _ hq]
    · intro q hq
      simp [storeChannel_ne _ _ _ _ hq]
    · intro fd hfd
      simp [mapSet_ne _ _ _ _ hfd]
    · intro fd hfd
      simp [hn, mapSet_ne _ _ _ _ hfd]
    · refine ⟨by simp [storeChannel_self], ⟨_, mapSet_self _ _ _, rfl⟩, ?_⟩
      simp [hn, mapSet_self]
  · obtain ⟨e, he, _⟩ := h3 ha
    by_cases hmask : (s.channelAt p).isNoneEvent = true
    · refine ⟨_, updateChannel_eq_del s p ha hmask, ?_⟩
      refine consistent_of_local s _ p h ?_ ?_ ?_ ?_ (Or.inr (Or.inr ?_))
      · intro q
        by_cases hq : q = p
        · subst hq; simp [storeChannel_self]
        · simp [storeChannel_ne _ _ _ _ hq]
      · intro q hq
        simp [storeChannel_ne _ _ _ _ hq]
      · intro fd hfd
        simp [mapSet_ne _ _ _ _ hfd]
      · intro fd _
        rfl
      · refine ⟨by simp [storeChannel_self], by simp [mapSet_self], ?_⟩
        exact h5 (by rw [ha]; decide)
    · simp only [Bool.not_eq_true] at hmask
      refine ⟨_, updateChannel_eq_mod s p e ha hmask he, ?_⟩
      refine consistent_of_local s _ p h (fun _ => rfl) (fun _ _ => rfl) ?_ (fun _ _ => rfl)
        (Or.inr (Or.inl ?_))
      · intro fd hfd
        simp [mapSet_ne _ _ _ _ hfd]
      · exact ⟨ha, ⟨_, mapSet_self _ _ _, rfl⟩, h5 (by rw [ha]; decide)⟩
  · have hreg := registered_none_of_not_added s p h (by rw [hd]; decide)
    refine ⟨_, updateChannel_eq_add s p (Or.inr hd) hreg, ?_⟩
    refine consistent_of_local s _ p h ?_ ?_ ?_ ?_ (Or.inr (Or.inl ?_))
    · intro q
      by_cases hq : q = p
      · subst hq; simp [storeChannel_self]
      · simp [storeChannel_ne _ _ _ _ hq]
    · intro q hq
      simp [storeChannel_ne _ _ _ _ hq]
    · intro fd hfd
      simp [mapSet_ne _ _ _ _ hfd]
    · intro fd _
      rw [hd]
      simp [kDeleted, kNew]
    · refine ⟨by simp [storeChannel_self], ⟨_, mapSet_self _ _ _, rfl⟩, ?_⟩
      rw [hd]
      simp only [kDeleted, kNew]
      exact h5 (by rw [hd]; decide)

/-- Every `removeChannel` completes, and on a consistent poller it keeps the
poller consistent. -/
theorem removeChannel_consistent (s : EPollPoller) (p : Nat) (h : s.Consistent) :
    ∃ s2, s.removeChannel p = some s2 ∧ s2.Consistent := by
  refine ⟨_, removeChannel_eq s p, ?_⟩
  refine consistent_of_local s _ p h ?_ ?_ ?_ ?_ (Or.inl ?_)
  · intro q
    by_cases hq : q = p
    · subst hq; simp [storeChannel_self]
    · simp [storeChannel_ne _ _ _ _ hq]
  · intro q hq
    simp [storeChannel_ne _ _ _ _ hq]
  · intro fd hfd
    split_ifs
    · simp [mapSet_ne _ _ _ _ hfd]
    · rfl
  · intro fd hfd
    simp [mapSet_ne _ _ _ _ hfd]
  · refine ⟨by simp [storeChannel_self], ?_, by simp [mapSet_self]⟩
    by_cases ha : (s.channelAt p).index_ = kAdded
    · simp [ha, mapSet_self]
    · simp only [ha, if_false]
      exact registered_none_of_not_added s p h ha

theorem setInterest_consistent (s : EPollPoller) (p : Nat) (r w : Bool) (h : s.Consistent) :
    (s.setInterest p r w).Consistent := by
  have hfd : ∀ q, ((s.setInterest p r w).channelAt q).fd_ = (s.channelAt q).fd_ := by
    intro q
    unfold setInterest
    by_cases hq : q = p
    · subst hq; simp [storeChannel_self]
    · simp [storeChannel_ne _ _ _ _ hq]
  have hidx : ∀ q, ((s.setInterest p r w).channelAt q).index_ = (s.channelAt q).index_ := by
    intro q
    unfold setInterest
    by_cases hq : q = p
    · subst hq; simp [storeChannel_self]
    · simp [storeChannel_ne _ _ _ _ hq]
  obtain ⟨c1, c2, c3, c4, c5, c6⟩ := h
  refine ⟨?_, ?_, ?_, ?_, ?_, ?_⟩
  · intro a b hab
    rw [hfd, hfd] at hab
    exact c1 a b hab
  · intro fd e he
    rw [hfd, hidx]
    exact c2 fd e he
  · intro q hq
    rw [hidx] at hq
    rw [hfd]
    exact c3 q hq
  · intro q hq
    rw [hidx] at hq
    rw [hfd]
    exact c4 q hq
  · intro q hq
    rw [hidx] at hq
    rw [hfd]
    exact c5 q hq
  · intro q
    rw [hidx]
    exact c6 q

theorem applyOps_consistent (ops : List PollerOp) : ∀ (s : EPollPoller), s.Consistent →
    ∃ s2, s.applyOps ops = some s2 ∧ s2.Consistent := by
  induction ops with
  | nil => intro s h; exact ⟨s, rfl, h⟩
  | cons op ops ih =>
    intro s h
    have hstep : ∃ s1, s.applyOp op = some s1 ∧ s1.Consistent := by
      cases op with
      | updateChannel p r w =>
        exact updateChannel_consistent _ p (setInterest_consistent s p r w h)
      | removeChannel p => exact removeChannel_consistent s p h
    obtain ⟨s1, k1, k2⟩ := hstep
    obtain ⟨s2, r1, r2⟩ := ih s1 k2
    refine ⟨s2, ?_, r2⟩
    show (s.applyOp op).bind _ = _
    rw [k1]
    exact r1

theorem init_consistent (mem : Nat → Channel)
    (hfd : ∀ p q, (mem p).fd_ = (mem q).fd_ → p = q) (hnew : ∀ p, (mem p).index_ = kNew) :
    (init mem).Consistent := by
  refine ⟨hfd, ?_, ?_, ?_, ?_, ?_⟩
  · intro fd e he
    exact absurd he (by simp [init])
  · intro p hp
    have : (mem p).index_ = kAdded := hp
    rw [hnew p] at this
    exact absurd this (by decide)
  · intro p _
    rfl
  · intro p hp
    exact absurd (hnew p) hp
  · intro p
    exact Or.inl (hnew p)

/-- C15. From an empty poller over channels with pairwise distinct fds (all
of index new, empty map, nothing registered), every sequence of
`updateChannel` calls (each after the owner has set the channel's interest
mask) and `removeChannel` calls completes, and in the state it reaches every
channel that is registered with the kernel has index added and the
fd-to-channel map maps its fd to that very channel, while a channel of index
new has no entry in the map. -/
theorem registered_channels_are_added (mem : Nat → Channel) (ops : List PollerOp)
    (hfd : ∀ p q, (mem p).fd_ = (mem q).fd_ → p = q) (hnew : ∀ p, (mem p).index_ = kNew) :
    ∃ s, (init mem).applyOps ops = some s ∧
      (∀ p, s.IsRegistered p →
        (s.channelAt p).index_ = kAdded ∧ s.channels_ (s.channelAt p).fd_ = some p) ∧
      (∀ p, (s.channelAt p).index_ = kNew → s.channels_ (s.channelAt p).fd_ = none) := by
  obtain ⟨s, k1, c1, c2, c3, c4, c5, c6⟩ :=
    applyOps_consistent ops (init mem) (init_consistent mem hfd hnew)
  refine ⟨s, k1, ?_, c4⟩
  intro p ⟨e, he, hp⟩
  obtain ⟨_, r2⟩ := c2 _ e he
  rw [hp] at r2
  exact ⟨r2, c5 p (by rw [r2]; decide)⟩

/-- Witness for C15: channels 0 and 1 on fds 0 and 1 are registered, channel 0
is disabled and channel 1 removed. -/
theorem registered_channels_are_added_witness :
    ∃ s, (init (fun p => Channel.init (p : Int))).applyOps
        [.updateChannel 0 true false, .updateChannel 1 true true,
          .updateChannel 0 false false, .removeChannel 1] = some s ∧
      (∀ p, s.IsRegistered p →
        (s.channelAt p).index_ = kAdded ∧ s.channels_ (s.channelAt p).fd_ = some p) ∧
      (∀ p, (s.channelAt p).index_ = kNew → s.channels_ (s.channelAt p).fd_ = none) :=
  registered_channels_are_added (fun p => Channel.init (p : Int))
    [.updateChannel 0 true false, .updateChannel 1 true true,
      .updateChannel 0 false false, .removeChannel 1]
    (fun _ _ h => Int.ofNat.inj h)
    (fun _ => rfl)

end EPollPoller

namespace TcpConnection

/-- The fields of the connection after a `handleWrite` whose write accepted
at least one byte, split by whether the buffer is empty afterwards. -/
theorem handleWrite_accepted (c : TcpConnection) (w : WriteOutcome)
    (hw : c.channel_.isWriting = true)
    (hn : 0 < (sysWrite w (c.outputBuffer_.peekString c.outputBuffer_.readableBytes)).1) :
    ((c.outputBuffer_.retrieve
        (sysWrite w (c.outputBuffer_.peekString c.outputBuffer_.readableBytes)).1.toNat
      ).readableBytes = 0 →
      (c.handleWrite w).channel_ = c.channel_.disableWriting ∧
      (c.handleWrite w).pendingFunctors_
        = c.pendingFunctors_ ++
          (if c.writeCompleteCallback_ = true then [Functor.writeCompleteCallback] else []) ∧
      (c.handleWrite w).log
        = c.log ++ (if c.state_ = .kDisconnecting then [Action.shutdownWrite 0] else [])) ∧
    ((c.outputBuffer_.retrieve
        (sysWrite w (c.outputBuffer_.peekString c.outputBuffer_.readableBytes)).1.toNat
      ).readableBytes ≠ 0 →
      (c.handleWrite w).channel_ = c.channel_ ∧
      (c.handleWrite w).pendingFunctors_ = c.pendingFunctors_ ∧
      (c.handleWrite w).log = c.log) := by
  unfold handleWrite shutdownInLoop
  simp only [hw, hn, if_true]
  constructor
  · intro h0
    simp only [h0, if_true]
    by_cases hwc : c.writeCompleteCallback_ = true
    · by_cases hs : c.state_ = .kDisconnecting
      · simp [hwc, hs, Channel.disableWriting, Channel.isWriting, act, queueInLoop, h0]
      · simp [hwc, hs, Channel.disableWriting, Channel.isWriting, act, queueInLoop]
    · by_cases hs : c.state_ = .kDisconnecting
      · simp [hwc, hs, Channel.disableWriting, Channel.isWriting, act, queueInLoop, h0]
      · simp [hwc, hs, Channel.disableWriting, Channel.isWriting, act, queueInLoop]
  · intro h0
    simp only [h0, if_false]
    simp

theorem handleWrite_not_writing (c : TcpConnection) (w : WriteOutcome)
    (hw : c.channel_.isWriting = false) : c.handleWrite w = c := by
  unfold handleWrite
  rw [hw]
  simp

/-- C16: `handleWrite` on a connection with write-interest whose write
accepts `n = min k (readable bytes) > 0` bytes puts the first `n` readable
bytes on the wire and removes them from the output buffer. If that empties the
buffer, write-interest is disabled, the write-complete callback is queued once
exactly when it is set, and `shutdownWrite` is logged exactly when the state is
Disconnecting. If bytes remain, the channel (write-interest included), the
queue and the log are unchanged. Without write-interest `handleWrite` returns
the connection unchanged, whatever the write outcome. -/
theorem handleWrite_effect (c : TcpConnection) (k : Nat) (w : WriteOutcome)
    (hinv : c.outputBuffer_.IndexInv) (hr : c.outputBuffer_.Representable) :
    (c.channel_.isWriting = true → 0 < min k c.outputBuffer_.content.length →
      (c.handleWrite (.accepts k)).wire
          = c.wire ++ c.outputBuffer_.content.take (min k c.outputBuffer_.content.length) ∧
      (c.handleWrite (.accepts k)).outputBuffer_.content
          = c.outputBuffer_.content.drop (min k c.outputBuffer_.content.length) ∧
      (c.handleWrite (.accepts k)).outputBuffer_.readableBytes
          = c.outputBuffer_.readableBytes - min k c.outputBuffer_.content.length ∧
      (c.handleWrite (.accepts k)).state_ = c.state_ ∧
      ((c.handleWrite (.accepts k)).outputBuffer_.readableBytes = 0 →
        (c.handleWrite (.accepts k)).channel_ = c.channel_.disableWriting ∧
        (c.handleWrite (.accepts k)).channel_.isWriting = false ∧
        (c.handleWrite (.accepts k)).pendingFunctors_
          = c.pendingFunctors_ ++
            (if c.writeCompleteCallback_ = true then [Functor.writeCompleteCallback] else []) ∧
        (c.handleWrite (.accepts k)).log
          = c.log ++
            (if c.state_ = .kDisconnecting then [Action.shutdownWrite 0] else [])) ∧
      ((c.handleWrite (.accepts k)).outputBuffer_.readableBytes ≠ 0 →
        (c.handleWrite (.accepts k)).channel_ = c.channel_ ∧
        (c.handleWrite (.accepts k)).channel_.isWriting = true ∧
        (c.handleWrite (.accepts k)).pendingFunctors_ = c.pendingFunctors_ ∧
        (c.handleWrite (.accepts k)).log = c.log)) ∧
    (c.channel_.isWriting = false → c.handleWrite w = c) := by
  refine ⟨fun hw hn => ?_, handleWrite_not_writing c w⟩
  have hpk := Buffer.peekString_readableBytes _ hinv hr
  have hsys : sysWrite (.accepts k)
      (c.outputBuffer_.peekString c.outputBuffer_.readableBytes)
      = (((min k c.outputBuffer_.content.length : Nat) : Int), 0,
          c.outputBuffer_.content.take k) := by
    rw [hpk, sysWrite_accepts]
  have hpos : 0 < (sysWrite (.accepts k)
      (c.outputBuffer_.peekString c.outputBuffer_.readableBytes)).1 := by
    rw [hsys]
    show (0 : Int) < ((min k c.outputBuffer_.content.length : Nat) : Int)
    exact_mod_cast hn
  have hob : (c.handleWrite (.accepts k)).outputBuffer_
      = c.outputBuffer_.retrieve (min k c.outputBuffer_.content.length) := by
    rw [handleWrite_outputBuffer, if_pos ⟨hw, hpos⟩, hsys]
    simp only [Int.toNat_natCast]
  obtain ⟨hinv2, hcont2, hbuf2, -⟩ :=
    Buffer.retrieve_spec c.outputBuffer_ (min k c.outputBuffer_.content.length) hinv hr
  have hr2 : (c.outputBuffer_.retrieve (min k c.outputBuffer_.content.length)).Representable := by
    unfold Buffer.Representable at hr ⊢
    rw [hbuf2]
    exact hr
  have hrd2 : (c.outputBuffer_.retrieve (min k c.outputBuffer_.content.length)).readableBytes
      = c.outputBuffer_.readableBytes - min k c.outputBuffer_.content.length := by
    rw [Buffer.readableBytes_eq _ hinv2 hr2, ← Buffer.content_length _ hinv2, hcont2,
      List.length_drop, Buffer.content_length _ hinv, Buffer.readableBytes_eq _ hinv hr]
  obtain ⟨hA, hB⟩ := handleWrite_accepted c (.accepts k) hw hpos
  rw [hsys] at hA hB
  simp only [Int.toNat_natCast] at hA hB
  refine ⟨?_, ?_, ?_, handleWrite_state c _, ?_, ?_⟩
  · rw [handleWrite_wire, if_pos hw, hsys]
    congr 1
    by_cases hk : k ≤ c.outputBuffer_.content.length
    · rw [Nat.min_eq_left hk]
    · rw [Nat.min_eq_right (by omega), List.take_of_length_le (by omega), List.take_length]
  · rw [hob, hcont2]
  · rw [hob, hrd2]
  · intro h0
    rw [hob] at h0
    obtain ⟨h1, h2, h3⟩ := hA h0
    refine ⟨h1, ?_, h2, h3⟩
    rw [h1]
    simp [Channel.disableWriting, Channel.isWriting]
  · intro h0
    rw [hob] at h0
    obtain ⟨h1, h2, h3⟩ := hB h0
    refine ⟨h1, ?_, h2, h3⟩
    rw [h1]
    exact hw

/-- Witness for C16: after `[1,2,3]` was sent with one byte accepted, the
buffer holds `[2,3]` with write-interest; a write event that accepts up to five
bytes puts both on the wire, empties the buffer and disables write-interest. -/
theorem handleWrite_effect_witness :
    (((init 5).connectEstablished.sendInLoop [1, 2, 3] (.accepts 1)).handleWrite
        (.accepts 5)).wire = [1, 2, 3] ∧
    (((init 5).connectEstablished.sendInLoop [1, 2, 3] (.accepts 1)).handleWrite
        (.accepts 5)).outputBuffer_.content = [] ∧
    (((init 5).connectEstablished.sendInLoop [1, 2, 3] (.accepts 1)).handleWrite
        (.accepts 5)).channel_.isWriting = false :=
  have h := (handleWrite_effect ((init 5).connectEstablished.sendInLoop [1, 2, 3] (.accepts 1))
    5 (.fails EWOULDBLOCK) (by decide) (by unfold Buffer.Representable; decide)).1
    (by decide) (by decide)
  ⟨h.1, h.2.1, (h.2.2.2.2.1 (by decide)).2.1⟩

end TcpConnection

namespace Buffer

/-! ## Buffer: readFd (C17) -/

/-- Storing `src` at the write index and advancing the index by its length
appends `src` to the readable content, when `src` fits the writable tail. -/
theorem content_fill (b : Buffer) (src : List Byte) (h : IndexInv b)
    (hs : b.writerIndex_ + src.length ≤ b.buffer_.length) :
    IndexInv { b with buffer_ := stdCopy src b.buffer_ b.writerIndex_,
                      writerIndex_ := b.writerIndex_ + src.length } ∧
    content { b with buffer_ := stdCopy src b.buffer_ b.writerIndex_,
                     writerIndex_ := b.writerIndex_ + src.length } = b.content ++ src := by
  obtain ⟨h1, h2, h3⟩ := h
  refine ⟨⟨?_, ?_, ?_⟩, ?_⟩
  · show b.readerIndex_ ≤ b.writerIndex_ + src.length
    omega
  · show b.writerIndex_ + src.length ≤ (stdCopy src b.buffer_ b.writerIndex_).length
    rw [stdCopy_length]
    exact hs
  · show kCheapPrepend ≤ (stdCopy src b.buffer_ b.writerIndex_).length
    rw [stdCopy_length]
    exact h3
  · apply List.ext_getElem?
    intro i
    rw [content_getElem?, List.getElem?_append, content_length b ⟨h1, h2, h3⟩, content_getElem?]
    show (if i < b.writerIndex_ + src.length - b.readerIndex_ then
      (stdCopy src b.buffer_ b.writerIndex_)[b.readerIndex_ + i]? else none) = _
    rw [stdCopy_getElem?]
    by_cases hi : i < b.writerIndex_ - b.readerIndex_
    · rw [if_pos (by omega), if_neg (by omega), if_pos hi, if_pos hi]
    · rw [if_neg hi]
      by_cases hi2 : i < b.writerIndex_ + src.length - b.readerIndex_
      · rw [if_pos hi2, if_pos (by omega)]
        congr 1
        omega
      · rw [if_neg hi2]
        symm
        apply List.getElem?_eq_none
        omega

theorem readFd_delivers_fits (b : Buffer) (D : List Byte) (errno : Nat)
    (hpos : 0 < D.length) (hcap : D.length ≤ b.readFdCapacity)
    (hw : D.length ≤ b.writableBytes) :
    b.readFd (.delivers D errno)
      = ((D.length : Int), none,
          { b with buffer_ := stdCopy D b.buffer_ b.writerIndex_,
                   writerIndex_ := sizeAdd b.writerIndex_ D.length }) := by
  unfold readFd
  simp only [List.take_of_length_le hcap, List.take_of_length_le hw]
  rw [if_neg (by omega), if_pos hw]

theorem readFd_delivers_spills (b : Buffer) (D : List Byte) (errno : Nat)
    (hcap : D.length ≤ b.readFdCapacity)
    (hw : b.writableBytes < D.length) :
    b.readFd (.delivers D errno)
      = ((D.length : Int), none,
          Buffer.append
            { b with buffer_ := stdCopy (D.take b.writableBytes) b.buffer_ b.writerIndex_,
                     writerIndex_ :=
                       (stdCopy (D.take b.writableBytes) b.buffer_ b.writerIndex_).length }
            ((D.drop b.writableBytes).take (sizeSub D.length b.writableBytes))) := by
  unfold readFd
  simp only [List.take_of_length_le hcap]
  rw [if_neg (by omega), if_neg (by omega)]

/-- C17: for a Buffer that satisfies the index invariant (and whose size
leaves room for the 65536-byte stack area below `2^64`), `readFd` offers two
segments, the writable tail and then the 65536-byte stack area, when
`writableBytes < 65536`, and the writable tail alone otherwise. When the read
delivers `n > 0` bytes `D` within the offered capacity, `readFd` returns `n`,
stores nothing in `savedErrno`, and the readable content becomes the old
content followed by `D`. When the read returns 0 or fails, the buffer is
unchanged and `errno` is stored in `savedErrno`. -/
theorem readFd_effect (b : Buffer) (hinv : IndexInv b)
    (hfit : b.buffer_.length + kExtraBufSize < sizeMod) :
    b.writableBytes = b.buffer_.length - b.writerIndex_ ∧
    (b.writableBytes < 65536 → b.readFdIovcnt = 2 ∧
      b.readFdCapacity = b.writableBytes + 65536) ∧
    (65536 ≤ b.writableBytes → b.readFdIovcnt = 1 ∧ b.readFdCapacity = b.writableBytes) ∧
    (∀ (D : List Byte) (errno : Nat), 0 < D.length → D.length ≤ b.readFdCapacity →
      (b.readFd (.delivers D errno)).1 = (D.length : Int) ∧
      (b.readFd (.delivers D errno)).2.1 = none ∧
      (b.readFd (.delivers D errno)).2.2.content = b.content ++ D ∧
      IndexInv (b.readFd (.delivers D errno)).2.2) ∧
    (∀ errno : Nat, b.readFd (.delivers [] errno) = (0, some errno, b)) ∧
    (∀ errno : Nat, b.readFd (.fails errno) = (-1, some errno, b)) := by
  have hr : Representable b := by
    unfold Representable
    omega
  have hwb := writableBytes_eq b hinv hr
  have hk : kExtraBufSize = 65536 := rfl
  refine ⟨hwb, fun hlt => ?_, fun hge => ?_, fun D errno hpos hcap => ?_, fun errno => ?_,
    fun errno => rfl⟩
  · unfold readFdCapacity readFdIovcnt
    rw [hk, if_pos hlt]
    exact ⟨rfl, rfl⟩
  · unfold readFdCapacity readFdIovcnt
    rw [hk, if_neg (by omega)]
    exact ⟨rfl, rfl⟩
  · obtain ⟨h1, h2, h3⟩ := hinv
    by_cases hw : D.length ≤ b.writableBytes
    · rw [readFd_delivers_fits b D errno hpos hcap hw]
      have hs : b.writerIndex_ + D.length ≤ b.buffer_.length := by omega
      rw [sizeAdd_of_lt (by omega)]
      obtain ⟨k1, k2⟩ := content_fill b D ⟨h1, h2, h3⟩ hs
      exact ⟨rfl, rfl, k2, k1⟩
    · have hw2 : b.writableBytes < D.length := by omega
      have hcap2 : D.length ≤ b.writableBytes + kExtraBufSize := by
        unfold readFdCapacity at hcap
        split_ifs at hcap
        · exact hcap
        · omega
      rw [readFd_delivers_spills b D errno hcap hw2]
      have hlen : (D.take b.writableBytes).length = b.writableBytes := by
        rw [List.length_take]
        omega
      have hs : b.writerIndex_ + (D.take b.writableBytes).length ≤ b.buffer_.length := by
        rw [hlen]
        omega
      obtain ⟨k1, k2⟩ := content_fill b (D.take b.writableBytes) ⟨h1, h2, h3⟩ hs
      have hwi : (stdCopy (D.take b.writableBytes) b.buffer_ b.writerIndex_).length
          = b.writerIndex_ + (D.take b.writableBytes).length := by
        rw [stdCopy_length, hlen]
        omega
      rw [hwi]
      have hsub : sizeSub D.length b.writableBytes = D.length - b.writableBytes :=
        sizeSub_of_le (by omega) (by omega)
      have hdrop : (D.drop b.writableBytes).take (sizeSub D.length b.writableBytes)
          = D.drop b.writableBytes := by
        rw [hsub]
        apply List.take_of_length_le
        rw [List.length_drop]
      rw [hdrop]
      have hdl : (D.drop b.writableBytes).length = D.length - b.writableBytes :=
        List.length_drop _ _
      have hrep1 : Representable
          { b with buffer_ := stdCopy (D.take b.writableBytes) b.buffer_ b.writerIndex_,
                   writerIndex_ := b.writerIndex_ + (D.take b.writableBytes).length } := by
        show (stdCopy (D.take b.writableBytes) b.buffer_ b.writerIndex_).length < sizeMod
        rw [stdCopy_length]
        exact hr
      obtain ⟨a1, a2, -⟩ := append_spec _ (D.drop b.writableBytes) k1 hrep1
        (by show b.writerIndex_ + (D.take b.writableBytes).length
              + (D.drop b.writableBytes).length < sizeMod
            rw [hlen, hdl]
            omega)
        (by rw [hdl]
            have h8 : kCheapPrepend = 8 := rfl
            omega)
      refine ⟨rfl, rfl, ?_, a1⟩
      show (Buffer.append _ _).content = _
      rw [a2, k2, List.append_assoc, List.take_append_drop]
  · unfold readFd
    simp [stdCopy]

/-- Witness for C17: a ten-byte buffer holding `[1]` has one writable byte; a
read that delivers `[2,3,4]` fills it and spills two bytes into the stack area,
and the readable content afterwards is `[1,2,3,4]`. -/
theorem readFd_effect_witness :
    (((Buffer.init 2).append [1]).readFd (.delivers [2, 3, 4] 0)).1 = 3 ∧
    (((Buffer.init 2).append [1]).readFd (.delivers [2, 3, 4] 0)).2.1 = none ∧
    (((Buffer.init 2).append [1]).readFd (.delivers [2, 3, 4] 0)).2.2.content
      = [1, 2, 3, 4] :=
  have h := (readFd_effect ((Buffer.init 2).append [1]) (by decide) (by decide)).2.2.2.1
    [2, 3, 4] 0 (by decide) (by decide)
  ⟨h.1, h.2.1, h.2.2.1⟩

end Buffer

namespace Buffer

/-! ## Buffer: ensureWritableBytes (C18) -/

/-- The branch `ensureWritableBytes` takes, and what that branch does to the
indices and the size of the vector. -/
theorem ensureWritableBytes_branch (b : Buffer) (len : Nat) (h : IndexInv b)
    (hr : Representable b) (hfit : b.writerIndex_ + len < sizeMod)
    (hfit8 : len + kCheapPrepend < sizeMod) :
    (len ≤ b.writableBytes → b.ensureWritableBytes len = b) ∧
    (b.writableBytes < len → len + kCheapPrepend ≤ b.writableBytes + b.prependableBytes →
      (b.ensureWritableBytes len).readerIndex_ = kCheapPrepend ∧
      (b.ensureWritableBytes len).writerIndex_ = kCheapPrepend + b.readableBytes ∧
      (b.ensureWritableBytes len).buffer_.length = b.buffer_.length) ∧
    (b.writableBytes < len → b.writableBytes + b.prependableBytes < len + kCheapPrepend →
      (b.ensureWritableBytes len).readerIndex_ = b.readerIndex_ ∧
      (b.ensureWritableBytes len).writerIndex_ = b.writerIndex_ ∧
      (b.ensureWritableBytes len).buffer_.length = b.writerIndex_ + len) := by
  have hw := writableBytes_eq b h hr
  have hrd := readableBytes_eq b h hr
  obtain ⟨h1, h2, h3⟩ := h
  have h8 : kCheapPrepend = 8 := rfl
  have hp : b.prependableBytes = b.readerIndex_ := rfl
  unfold Representable at hr
  have e1 : sizeAdd b.writableBytes b.prependableBytes
      = b.writableBytes + b.prependableBytes := by
    apply sizeAdd_of_lt
    omega
  have e2 : sizeAdd len kCheapPrepend = len + kCheapPrepend := sizeAdd_of_lt hfit8
  refine ⟨fun hc => ?_, fun hc hg => ?_, fun hc hg => ?_⟩
  · unfold ensureWritableBytes
    rw [if_neg (by omega)]
  · unfold ensureWritableBytes makeSpace
    rw [if_pos hc, e1, e2, if_neg (by omega)]
    refine ⟨rfl, ?_, ?_⟩
    · show sizeAdd kCheapPrepend b.readableBytes = _
      apply sizeAdd_of_lt
      rw [hrd]
      omega
    · show (stdCopyWithin _ _ _ _).length = _
      rw [stdCopyWithin_length]
  · unfold ensureWritableBytes makeSpace
    rw [if_pos hc, e1, e2, if_pos hg]
    refine ⟨rfl, rfl, ?_⟩
    show (vectorResize b.buffer_ (sizeAdd b.writerIndex_ len)).length = _
    rw [sizeAdd_of_lt hfit]
    unfold vectorResize
    rw [hw] at hc
    rw [if_neg (by omega)]
    simp only [List.length_append, List.length_replicate]
    omega

/-- A call of `ensureWritableBytes` that returns gives the buffer that
`Buffer.ensureWritableBytes` describes. -/
theorem ensureWritableBytesChecked_some (b : Buffer) (len : Nat) (alloc : AllocOutcome)
    (b2 : Buffer) (h : b.ensureWritableBytesChecked len alloc = some b2) :
    b2 = b.ensureWritableBytes len := by
  unfold ensureWritableBytesChecked makeSpaceChecked vectorResizeChecked at h
  unfold ensureWritableBytes makeSpace
  split_ifs at h ⊢ <;> simp_all

/-- When `writerIndex + len` is at most `max_size()` and the allocator gives
the memory a resize needs, `ensureWritableBytes` returns. -/
theorem ensureWritableBytesChecked_returns (b : Buffer) (len : Nat) (alloc : AllocOutcome)
    (h : IndexInv b) (hr : Representable b)
    (hfit : b.writerIndex_ + len ≤ vectorMaxSize)
    (hmem : b.writableBytes < len →
      b.writableBytes + b.prependableBytes < len + kCheapPrepend → alloc = .succeeds) :
    b.ensureWritableBytesChecked len alloc = some (b.ensureWritableBytes len) := by
  have hw := writableBytes_eq b h hr
  have hp : b.prependableBytes = b.readerIndex_ := rfl
  have h8 : kCheapPrepend = 8 := rfl
  have hmax : vectorMaxSize = 2 ^ 63 - 1 := rfl
  have hmod : sizeMod = 2 ^ 64 := rfl
  obtain ⟨h1, h2, h3⟩ := h
  unfold Representable at hr
  unfold ensureWritableBytesChecked ensureWritableBytes
  by_cases hc : b.writableBytes < len
  · rw [if_pos hc, if_pos hc]
    have e1 : sizeAdd b.writableBytes b.prependableBytes
        = b.writableBytes + b.prependableBytes := sizeAdd_of_lt (by omega)
    have e2 : sizeAdd len kCheapPrepend = len + kCheapPrepend := sizeAdd_of_lt (by omega)
    have e3 : sizeAdd b.writerIndex_ len = b.writerIndex_ + len := sizeAdd_of_lt (by omega)
    unfold makeSpaceChecked makeSpace
    rw [e1, e2, e3]
    by_cases hg : b.writableBytes + b.prependableBytes < len + kCheapPrepend
    · rw [if_pos hg, if_pos hg]
      have ha := hmem hc hg
      unfold vectorResizeChecked
      rw [if_neg (by omega), if_neg (by rw [ha]; simp)]
    · rw [if_neg hg, if_neg hg]
  · rw [if_neg hc, if_neg hc]

/-- C18, for lengths that keep `writerIndex + len` within the vector's
`max_size()` (`2^63 - 1`): for a Buffer that satisfies the index invariant with
`readerIndex >= 8`, `ensureWritableBytes len` returns, provided the allocator
gives the memory when the vector has to be resized, and afterwards there are
at least `len` writable bytes, the readable bytes are the same, and
`readerIndex >= 8` and the invariant still hold. With enough room already the
buffer is unchanged; otherwise, when `writable + prependable >= len + 8`, the
readable bytes are moved so that `readerIndex = 8` and the size is unchanged;
otherwise the vector is resized to `writerIndex + len` and the indices are
unchanged. -/
theorem ensureWritableBytes_ensures (b : Buffer) (len : Nat) (alloc : AllocOutcome)
    (h : IndexInv b) (hr : Representable b) (h8 : kCheapPrepend ≤ b.readerIndex_)
    (hfit : b.writerIndex_ + len ≤ vectorMaxSize)
    (hmem : b.writableBytes < len →
      b.writableBytes + b.prependableBytes < len + kCheapPrepend → alloc = .succeeds) :
    ∃ b2 : Buffer, b.ensureWritableBytesChecked len alloc = some b2 ∧
      len ≤ b2.writableBytes ∧
      b2.content = b.content ∧
      kCheapPrepend ≤ b2.readerIndex_ ∧
      IndexInv b2 ∧
      (len ≤ b.writableBytes → b2 = b) ∧
      (b.writableBytes < len → len + kCheapPrepend ≤ b.writableBytes + b.prependableBytes →
        b2.readerIndex_ = kCheapPrepend ∧
        b2.writerIndex_ = kCheapPrepend + b.readableBytes ∧
        b2.buffer_.length = b.buffer_.length) ∧
      (b.writableBytes < len → b.writableBytes + b.prependableBytes < len + kCheapPrepend →
        b2.readerIndex_ = b.readerIndex_ ∧
        b2.writerIndex_ = b.writerIndex_ ∧
        b2.buffer_.length = b.writerIndex_ + len) := by
  have hmax : vectorMaxSize = 2 ^ 63 - 1 := rfl
  have hmod : sizeMod = 2 ^ 64 := rfl
  have hk : kCheapPrepend = 8 := rfl
  have hfit1 : b.writerIndex_ + len < sizeMod := by omega
  have hfit8 : len + kCheapPrepend < sizeMod := by
    have := h.1
    omega
  obtain ⟨k1, k2, k3, -, -, k6, k7⟩ := ensureWritableBytes_spec b len h hr hfit1 hfit8
  refine ⟨b.ensureWritableBytes len,
    ensureWritableBytesChecked_returns b len alloc h hr hfit hmem, ?_, k2, k6 h8, k1,
    ensureWritableBytes_branch b len h hr hfit1 hfit8⟩
  rw [writableBytes_eq _ k1 k7]
  omega

/-- Witness for C18: a sixteen-byte buffer that holds `[1,2,3,4,5]` has three
writable bytes; with the memory granted, `ensureWritableBytes 20` returns with
the vector resized to `13 + 20 = 33`, the readable bytes kept and twenty
writable bytes. -/
theorem ensureWritableBytes_ensures_witness :
    ∃ b2 : Buffer,
      ((Buffer.init 8).append [1, 2, 3, 4, 5]).ensureWritableBytesChecked 20 .succeeds
        = some b2 ∧
      20 ≤ b2.writableBytes ∧ b2.content = [1, 2, 3, 4, 5] ∧ b2.buffer_.length = 33 :=
  have h := ensureWritableBytes_ensures ((Buffer.init 8).append [1, 2, 3, 4, 5]) 20
    .succeeds (by decide) (by unfold Representable; decide) (by decide) (by decide)
    (fun _ _ => rfl)
  h.elim fun b2 hb2 =>
    ⟨b2, hb2.1, hb2.2.1, hb2.2.2.1, (hb2.2.2.2.2.2.2.2 (by decide) (by decide)).2.2⟩

/-- C18 as stated fails for "every len". On the default buffer
(`readerIndex = writerIndex = 8`, 1024 writable bytes): for `len = 2^64 - 1`
the sum `len + 8` wraps, `makeSpace` takes the compaction branch and the call
returns with 1024 writable bytes; for `len = 2^63` the resize to
`8 + 2^63` exceeds `max_size()`, so the call throws and the buffer keeps its
1024 writable bytes; and for `len = 2000` the call throws when the allocator
refuses the memory. On a nine-byte buffer that holds `[1]` the sum
`writerIndex + len` wraps for `len = 2^64 - 9`, so the vector is resized to 0
and the readable byte is lost. -/
theorem ensureWritableBytes_wraps_or_throws :
    ((Buffer.init kInitialSize).IndexInv ∧
      kCheapPrepend ≤ (Buffer.init kInitialSize).readerIndex_ ∧
      (Buffer.init kInitialSize).writableBytes = 1024 ∧
      ((Buffer.init kInitialSize).ensureWritableBytesChecked (sizeMod - 1) .succeeds).map
        Buffer.writableBytes = some 1024 ∧
      (Buffer.init kInitialSize).ensureWritableBytesChecked (2 ^ 63) .succeeds = none ∧
      (Buffer.init kInitialSize).ensureWritableBytesChecked 2000 .fails = none) ∧
    (((Buffer.init 1).append [1]).IndexInv ∧
      kCheapPrepend ≤ ((Buffer.init 1).append [1]).readerIndex_ ∧
      ((Buffer.init 1).append [1]).content = [1] ∧
      (((Buffer.init 1).append [1]).ensureWritableBytesChecked (sizeMod - 9) .succeeds).map
        Buffer.content = some [] ∧
      (((Buffer.init 1).append [1]).ensureWritableBytesChecked (sizeMod - 9) .succeeds).map
        (fun b2 => decide b2.IndexInv) = some false) := by
  decide

end Buffer

namespace TcpConnection

/-! ## TcpConnection: write-interest and the output buffer (C19) -/

theorem sendInLoop_pending_queuedSend (c : TcpConnection) (msg : List Byte) (w : WriteOutcome)
    (h : ∀ f ∈ c.pendingFunctors_, ¬ f.IsQueuedSend) :
    ∀ f ∈ (c.sendInLoop msg w).pendingFunctors_, ¬ f.IsQueuedSend := by
  by_cases hs : c.state_ = .kDisconnected
  · unfold sendInLoop
    rw [if_pos hs]
    exact h
  · rw [sendInLoop_pending c msg w hs]
    intro f hm
    simp only [List.mem_append] at hm
    rcases hm with (hm | hm) | hm
    · exact h f hm
    · split_ifs at hm
      · simp only [List.mem_singleton] at hm
        subst hm
        exact id
      · simp at hm
    · split_ifs at hm
      · simp only [List.mem_singleton] at hm
        subst hm
        exact id
      · simp at hm

theorem handleWrite_pending_queuedSend (c : TcpConnection) (w : WriteOutcome)
    (h : ∀ f ∈ c.pendingFunctors_, ¬ f.IsQueuedSend) :
    ∀ f ∈ (c.handleWrite w).pendingFunctors_, ¬ f.IsQueuedSend := by
  have key : (c.handleWrite w).pendingFunctors_ = c.pendingFunctors_ ∨
      (c.handleWrite w).pendingFunctors_
        = c.pendingFunctors_ ++ [Functor.writeCompleteCallback] := by
    unfold handleWrite shutdownInLoop
    simp only []
    split_ifs <;> simp_all
  intro f hm
  rcases key with k | k
  · rw [k] at hm
    exact h f hm
  · rw [k] at hm
    rcases List.mem_append.mp hm with hm | hm
    · exact h f hm
    · simp only [List.mem_singleton] at hm
      subst hm
      exact id

/-- The channel's write-interest and the output buffer are not touched by
`shutdown`; the queue gains at most a `shutdownInLoop`. -/
theorem shutdown_view (c : TcpConnection) (inLoop : Bool) :
    (c.shutdown inLoop).channel_ = c.channel_ ∧
    (c.shutdown inLoop).outputBuffer_ = c.outputBuffer_ ∧
    ((c.shutdown inLoop).pendingFunctors_ = c.pendingFunctors_ ∨
      (c.shutdown inLoop).pendingFunctors_ = c.pendingFunctors_ ++ [Functor.shutdownInLoop]) := by
  unfold shutdown shutdownInLoop
  simp only []
  split_ifs <;> simp [act, queueInLoop]

theorem sendInLoop_writeInterestInv (c : TcpConnection) (msg : List Byte) (w : WriteOutcome)
    (h : c.WriteInterestInv)
    (hfit : c.outputBuffer_.buffer_.length + msg.length < sizeMod) :
    (c.sendInLoop msg w).WriteInterestInv ∧
    (c.sendInLoop msg w).outputBuffer_.buffer_.length
      ≤ c.outputBuffer_.buffer_.length + msg.length := by
  obtain ⟨k1, k2, k3⟩ := h
  by_cases hs : c.state_ = .kDisconnected
  · have he : c.sendInLoop msg w = c := by
      unfold sendInLoop
      rw [if_pos hs]
    rw [he]
    exact ⟨⟨k1, k2, k3⟩, Nat.le_add_right _ _⟩
  · by_cases hc : c.sendFaultError msg w = false ∧ 0 < c.sendRemaining msg w
    · obtain ⟨b1, b2, b3, b4, -⟩ := sendInLoop_buffers c msg w hs k1 hfit hc.1 hc.2
      refine ⟨⟨b1, ?_, sendInLoop_pending_queuedSend c msg w k3⟩, b2⟩
      constructor
      · intro _
        rw [b3]
        omega
      · intro _
        exact b4
    · have e1 := sendInLoop_outputBuffer c msg w hs
      have e2 := sendInLoop_channel c msg w hs
      rw [if_neg hc] at e1 e2
      refine ⟨⟨?_, ?_, sendInLoop_pending_queuedSend c msg w k3⟩, ?_⟩
      · rw [e1]
        exact k1
      · rw [e1, e2]
        exact k2
      · rw [e1]
        exact Nat.le_add_right _ _

theorem handleWrite_writeInterestInv (c : TcpConnection) (w : WriteOutcome)
    (h : c.WriteInterestInv) (hr : c.outputBuffer_.Representable) :
    (c.handleWrite w).WriteInterestInv ∧
    (c.handleWrite w).outputBuffer_.buffer_.length = c.outputBuffer_.buffer_.length := by
  obtain ⟨k1, k2, k3⟩ := h
  obtain ⟨-, o2, o3⟩ := handleWrite_order c w k1 hr
  refine ⟨⟨o2, ?_, handleWrite_pending_queuedSend c w k3⟩, o3⟩
  by_cases hw : c.channel_.isWriting = true
  · by_cases hn : 0 < (sysWrite w (c.outputBuffer_.peekString c.outputBuffer_.readableBytes)).1
    · obtain ⟨hA, hB⟩ := handleWrite_accepted c w hw hn
      rw [handleWrite_outputBuffer, if_pos ⟨hw, hn⟩]
      by_cases h0 : (c.outputBuffer_.retrieve
          (sysWrite w (c.outputBuffer_.peekString c.outputBuffer_.readableBytes)).1.toNat
        ).readableBytes = 0
      · rw [(hA h0).1]
        constructor
        · intro hx
          simp [Channel.disableWriting, Channel.isWriting] at hx
        · intro hx
          exact absurd h0 hx
      · rw [(hB h0).1]
        exact ⟨fun _ => h0, fun _ => hw⟩
    · have hob : (c.handleWrite w).outputBuffer_ = c.outputBuffer_ := by
        rw [handleWrite_outputBuffer, if_neg (fun hx => hn hx.2)]
      rw [hob]
      rcases handleWrite_channel c w with hch | hch
      · rw [hch]
        exact k2
      · rw [hob] at hch
        exact absurd hch.1 (k2.mp hw)
  · have he : c.handleWrite w = c := by
      unfold handleWrite
      rw [if_neg hw]
    rw [he]
    exact k2

theorem shutdown_writeInterestInv (c : TcpConnection) (inLoop : Bool)
    (h : c.WriteInterestInv) :
    (c.shutdown inLoop).WriteInterestInv ∧
    (c.shutdown inLoop).outputBuffer_ = c.outputBuffer_ := by
  obtain ⟨k1, k2, k3⟩ := h
  obtain ⟨v1, v2, v3⟩ := shutdown_view c inLoop
  refine ⟨⟨?_, ?_, ?_⟩, v2⟩
  · rw [v2]
    exact k1
  · rw [v1, v2]
    exact k2
  · intro f hm
    rcases v3 with v | v
    · rw [v] at hm
      exact k3 f hm
    · rw [v] at hm
      rcases List.mem_append.mp hm with hm | hm
      · exact k3 f hm
      · simp only [List.mem_singleton] at hm
        subst hm
        exact id

theorem runFunctor_writeInterestInv (c : TcpConnection) (w : WriteOutcome)
    (h : c.WriteInterestInv) :
    (c.runFunctor w).WriteInterestInv ∧
    (c.runFunctor w).outputBuffer_ = c.outputBuffer_ := by
  obtain ⟨k1, k2, k3⟩ := h
  unfold runFunctor
  cases hp : c.pendingFunctors_ with
  | nil => exact ⟨⟨k1, k2, k3⟩, rfl⟩
  | cons f rest =>
    rw [hp] at k3
    have hrest : ∀ g ∈ rest, ¬ g.IsQueuedSend := fun g hg => k3 g (List.mem_cons_of_mem _ hg)
    cases f with
    | writeCompleteCallback => exact ⟨⟨k1, k2, hrest⟩, rfl⟩
    | highWaterMarkCallback n => exact ⟨⟨k1, k2, hrest⟩, rfl⟩
    | sendInLoop msg => exact absurd trivial (k3 _ (List.mem_cons_self _ _))
    | shutdownInLoop =>
      obtain ⟨-, v2, v3, v4, -⟩ :=
        shutdownInLoop_view ({ c with pendingFunctors_ := rest } : TcpConnection)
      refine ⟨⟨?_, ?_, ?_⟩, v4⟩
      · show (shutdownInLoop _).outputBuffer_.IndexInv
        rw [v4]
        exact k1
      · show (shutdownInLoop _).channel_.isWriting = true ↔
          (shutdownInLoop _).outputBuffer_.readableBytes ≠ 0
        rw [v2, v4]
        exact k2
      · show ∀ g ∈ (shutdownInLoop _).pendingFunctors_, ¬ g.IsQueuedSend
        rw [v3]
        exact hrest

/-- The invariant is kept by every sequence of `sendInLoop`, `handleWrite`,
`shutdown` and queued-task events whose messages fit under `2^64`. -/
theorem run_writeInterestInv (c : TcpConnection) (evs : List Event)
    (h : c.WriteInterestInv)
    (hev : ∀ e ∈ evs, e.IsSendWriteShutdown)
    (hfit : c.outputBuffer_.buffer_.length + (sentBytes evs).length < sizeMod) :
    (c.run evs).WriteInterestInv := by
  induction evs generalizing c with
  | nil => exact h
  | cons e evs ih =>
    have he := hev e (List.mem_cons_self _ _)
    have hev2 : ∀ e2 ∈ evs, e2.IsSendWriteShutdown :=
      fun e2 hm => hev e2 (List.mem_cons_of_mem _ hm)
    simp only [sentBytes, List.length_append] at hfit
    have hrun : c.run (e :: evs) = (c.step e).run evs := rfl
    rw [hrun]
    cases e with
    | connectEstablished => exact absurd he (by simp [Event.IsSendWriteShutdown])
    | connectDestroyed => exact absurd he (by simp [Event.IsSendWriteShutdown])
    | send buf inLoop w => exact absurd he (by simp [Event.IsSendWriteShutdown])
    | handleRead r => exact absurd he (by simp [Event.IsSendWriteShutdown])
    | handleClose => exact absurd he (by simp [Event.IsSendWriteShutdown])
    | handleError => exact absurd he (by simp [Event.IsSendWriteShutdown])
    | sendInLoop msg w =>
      have hm : (Event.sendInLoop msg w).sentBytes = msg := rfl
      rw [hm] at hfit
      obtain ⟨s1, s2⟩ := sendInLoop_writeInterestInv c msg w h (by omega)
      exact ih (c.sendInLoop msg w) s1 hev2 (by omega)
    | handleWrite w =>
      have hr : c.outputBuffer_.Representable := by
        unfold Buffer.Representable
        omega
      obtain ⟨s1, s2⟩ := handleWrite_writeInterestInv c w h hr
      exact ih (c.handleWrite w) s1 hev2 (by rw [s2]; omega)
    | shutdown inLoop =>
      obtain ⟨s1, s2⟩ := shutdown_writeInterestInv c inLoop h
      exact ih (c.shutdown inLoop) s1 hev2 (by rw [s2]; omega)
    | runFunctor w =>
      obtain ⟨s1, s2⟩ := runFunctor_writeInterestInv c w h
      exact ih (c.runFunctor w) s1 hev2 (by rw [s2]; omega)

/-- C19: take a connection whose output buffer satisfies the index invariant,
whose channel has write-interest exactly when the output buffer is non-empty
(as constructed: empty buffer, no write-interest) and whose queue holds no
`sendInLoop`. After `connectEstablished` and any sequence of `sendInLoop`
calls, `handleWrite` events with arbitrary write results, `shutdown` calls and
runs of queued tasks, with no `handleClose` or `connectDestroyed` among them
and with the sent bytes fitting under `2^64`, the channel has write-interest
if and only if the output buffer has at least one readable byte. -/
theorem writeInterest_iff_outputBuffer_nonempty (c : TcpConnection) (evs : List Event)
    (hinv : c.outputBuffer_.IndexInv)
    (h0 : c.channel_.isWriting = true ↔ c.outputBuffer_.readableBytes ≠ 0)
    (hq : ∀ f ∈ c.pendingFunctors_, ¬ f.IsQueuedSend)
    (hev : ∀ e ∈ evs, e.IsSendWriteShutdown)
    (hfit : c.outputBuffer_.buffer_.length + (sentBytes evs).length < sizeMod) :
    ((c.connectEstablished.run evs).channel_.isWriting = true ↔
      1 ≤ (c.connectEstablished.run evs).outputBuffer_.readableBytes) := by
  obtain ⟨-, -, v3, -, v5, v6⟩ := connectEstablished_view c
  have hstart : c.connectEstablished.WriteInterestInv := by
    refine ⟨?_, ?_, ?_⟩
    · rw [v6]
      exact hinv
    · rw [v6]
      unfold Channel.isWriting
      rw [v3]
      exact h0
    · rw [v5]
      exact hq
  have hfin := run_writeInterestInv c.connectEstablished evs hstart hev (by rw [v6]; exact hfit)
  rw [hfin.2.1]
  omega

/-- Witness for C19: on a fresh connection `[1,2,3]` is sent with one byte
accepted, `shutdown` is called on the loop thread, a write event drains the
buffer (which half-closes), and a queued task is run. -/
theorem writeInterest_iff_outputBuffer_nonempty_witness :
    (((init 5).setWriteCompleteCallback.connectEstablished.run
        [.sendInLoop [1, 2, 3] (.accepts 1), .shutdown true, .handleWrite (.accepts 5),
          .runFunctor (.accepts 0)]).channel_.isWriting = true ↔
      1 ≤ ((init 5).setWriteCompleteCallback.connectEstablished.run
        [.sendInLoop [1, 2, 3] (.accepts 1), .shutdown true, .handleWrite (.accepts 5),
          .runFunctor (.accepts 0)]).outputBuffer_.readableBytes) :=
  writeInterest_iff_outputBuffer_nonempty (init 5).setWriteCompleteCallback
    [.sendInLoop [1, 2, 3] (.accepts 1), .shutdown true, .handleWrite (.accepts 5),
      .runFunctor (.accepts 0)]
    (by decide) (by decide) (by decide) (by decide) (by decide)

end TcpConnection

namespace TcpConnection

/-! ## TcpConnection: the half-close (C6) -/

theorem halfClosed_of_log (c c2 : TcpConnection) (h : c2.log = c.log) :
    c2.HalfClosed ↔ c.HalfClosed := by
  unfold HalfClosed
  rw [h]

theorem halfClosed_append (c c2 : TcpConnection) (extra : List Action)
    (h : c2.log = c.log ++ extra) :
    c2.HalfClosed ↔ (c.HalfClosed ∨ ∃ a ∈ extra, a.IsShutdownWrite) := by
  unfold HalfClosed
  rw [h]
  constructor
  · rintro ⟨a, ha, hs⟩
    rcases List.mem_append.mp ha with ha | ha
    · exact Or.inl ⟨a, ha, hs⟩
    · exact Or.inr ⟨a, ha, hs⟩
  · rintro (⟨a, ha, hs⟩ | ⟨a, ha, hs⟩)
    · exact ⟨a, List.mem_append_left _ ha, hs⟩
    · exact ⟨a, List.mem_append_right _ ha, hs⟩

/-- The half-close that `handleWrite` can make: in state Disconnecting, with
the output buffer drained. -/
theorem handleWrite_halfClose (c : TcpConnection) (w : WriteOutcome) :
    (c.handleWrite w).log = c.log ∨
    ((c.handleWrite w).log = c.log ++ [Action.shutdownWrite 0] ∧
      c.state_ = .kDisconnecting ∧ (c.handleWrite w).outputBuffer_.readableBytes = 0) := by
  unfold handleWrite shutdownInLoop
  simp only []
  split_ifs with h1 h2 h3 h4 h5 h6
  all_goals simp_all [act, queueInLoop]

/-- What `shutdown` does: the wire, the output buffer and the channel are kept;
from Connected the state becomes Disconnecting, otherwise nothing happens; the
log gains at most a half-close, made without write-interest. -/
theorem shutdown_full (c : TcpConnection) (inLoop : Bool) :
    (c.shutdown inLoop).wire = c.wire ∧
    (c.state_ = .kConnected → (c.shutdown inLoop).state_ = .kDisconnecting) ∧
    (c.state_ ≠ .kConnected → c.shutdown inLoop = c) ∧
    ((c.shutdown inLoop).log = c.log ∨
      ((c.shutdown inLoop).log = c.log ++ [Action.shutdownWrite c.outputBuffer_.readableBytes] ∧
        c.channel_.isWriting = false)) := by
  unfold shutdown shutdownInLoop
  simp only []
  split_ifs <;> simp_all [act, queueInLoop]

/-- What the run of a queued task does when no `sendInLoop` is queued. -/
theorem runFunctor_noSend (c : TcpConnection) (w : WriteOutcome)
    (h : ∀ f ∈ c.pendingFunctors_, ¬ f.IsQueuedSend) :
    (c.runFunctor w).wire = c.wire ∧
    (c.runFunctor w).outputBuffer_ = c.outputBuffer_ ∧
    (c.runFunctor w).state_ = c.state_ ∧
    (∀ f ∈ (c.runFunctor w).pendingFunctors_, f ∈ c.pendingFunctors_) ∧
    ((∃ a, (c.runFunctor w).log = c.log ++ [a] ∧ ¬ a.IsShutdownWrite) ∨
      (c.runFunctor w).log = c.log ∨
      ((c.runFunctor w).log = c.log ++ [Action.shutdownWrite c.outputBuffer_.readableBytes] ∧
        c.channel_.isWriting = false ∧ Functor.shutdownInLoop ∈ c.pendingFunctors_)) := by
  unfold runFunctor
  cases hp : c.pendingFunctors_ with
  | nil => simp [hp]
  | cons f rest =>
    rw [hp] at h
    cases f with
    | writeCompleteCallback =>
      refine ⟨rfl, rfl, rfl, fun g hg => List.mem_cons_of_mem _ hg, Or.inl ⟨_, rfl, id⟩⟩
    | highWaterMarkCallback n =>
      refine ⟨rfl, rfl, rfl, fun g hg => List.mem_cons_of_mem _ hg, Or.inl ⟨_, rfl, id⟩⟩
    | sendInLoop msg => exact absurd trivial (h _ (List.mem_cons_self _ _))
    | shutdownInLoop =>
      unfold shutdownInLoop
      simp only []
      split_ifs <;> simp_all [act]

theorem sendInLoop_sendQueueInv (c : TcpConnection) (msg : List Byte) (w : WriteOutcome)
    (h : c.SendQueueInv) : (c.sendInLoop msg w).SendQueueInv := by
  obtain ⟨j1, j2, j3⟩ := h
  refine ⟨?_, ?_, ?_⟩
  · rw [sendInLoop_state]
    exact fun hs => sendInLoop_pending_queuedSend c msg w (j1 hs)
  · rw [sendInLoop_state, halfClosed_of_log c _ (sendInLoop_log c msg w)]
    exact j2
  · rw [sendInLoop_state]
    exact fun hm => j3 (sendInLoop_pending_mem c msg w hm)

theorem shutdownInLoop_sendQueueInv (c : TcpConnection) (h : c.SendQueueInv)
    (hs : c.state_ = .kDisconnecting) : c.shutdownInLoop.SendQueueInv := by
  obtain ⟨j1, j2, j3⟩ := h
  obtain ⟨v1, -, v3, -, -⟩ := shutdownInLoop_view c
  refine ⟨?_, ?_, ?_⟩
  · rw [v1, v3]
    exact j1
  · rw [v1]
    exact fun _ => hs
  · rw [v1]
    exact fun _ => hs

/-- One event that keeps the queue invariant: any event but
connectEstablished, a read or a close, where a `shutdown` is called only while
no `sendInLoop` is queued. -/
theorem step_sendQueueInv (c : TcpConnection) (e : Event) (he : e.IsWriteSide)
    (hsd : e.IsShutdown → ∀ f ∈ c.pendingFunctors_, ¬ f.IsQueuedSend)
    (h : c.SendQueueInv) : (c.step e).SendQueueInv := by
  obtain ⟨j1, j2, j3⟩ := h
  cases e with
  | connectEstablished => exact absurd he (by simp [Event.IsWriteSide])
  | handleRead r => exact absurd he (by simp [Event.IsWriteSide])
  | handleClose => exact absurd he (by simp [Event.IsWriteSide])
  | handleError => exact ⟨j1, j2, j3⟩
  | connectDestroyed =>
    obtain ⟨-, v2, v3, -⟩ := connectDestroyed_view c
    have v5 := connectDestroyed_log c
    show c.connectDestroyed.SendQueueInv
    have hst : c.connectDestroyed.state_ = .kDisconnecting → c.state_ = .kDisconnecting := by
      rw [v2]
      split_ifs with hc
      · intro hx
        exact absurd hx (by decide)
      · exact id
    have hst2 : c.state_ = .kDisconnecting → c.connectDestroyed.state_ = .kDisconnecting := by
      intro hx
      rw [v2, if_neg (by rw [hx]; decide)]
      exact hx
    refine ⟨?_, ?_, ?_⟩
    · rw [v3]
      exact fun hx => j1 (hst hx)
    · intro hh
      apply hst2
      apply j2
      rw [List.append_assoc] at v5
      rcases (halfClosed_append c _ _ v5).mp hh with hh | ⟨a, ha, hs⟩
      · exact hh
      · exfalso
        simp only [List.mem_append, List.mem_singleton] at ha
        rcases ha with ha | ha
        · split_ifs at ha
          · simp only [List.mem_singleton] at ha
            subst ha
            exact hs
          · simp at ha
        · subst ha
          exact hs
    · rw [v3]
      exact fun hm => hst2 (j3 hm)
  | sendInLoop msg w => exact sendInLoop_sendQueueInv c msg w ⟨j1, j2, j3⟩
  | send buf inLoop w =>
    show (c.send buf inLoop w).SendQueueInv
    unfold send
    split_ifs with hc hl
    · exact sendInLoop_sendQueueInv c buf w ⟨j1, j2, j3⟩
    · refine ⟨?_, ?_, ?_⟩
      · intro hx
        rw [queueInLoop_state, hc] at hx
        exact absurd hx (by decide)
      · rw [queueInLoop_state, halfClosed_of_log c _ (queueInLoop_log c _)]
        exact j2
      · rw [queueInLoop_state, queueInLoop_pending]
        intro hm
        rcases List.mem_append.mp hm with hm | hm
        · exact j3 hm
        · simp at hm
    · exact ⟨j1, j2, j3⟩
  | shutdown inLoop =>
    show (c.shutdown inLoop).SendQueueInv
    obtain ⟨-, s2, s3, s4⟩ := shutdown_full c inLoop
    obtain ⟨-, -, v3⟩ := shutdown_view c inLoop
    by_cases hc : c.state_ = .kConnected
    · have hno := hsd trivial
      have hst := s2 hc
      refine ⟨?_, fun _ => hst, fun _ => hst⟩
      intro _ f hf
      rcases v3 with v | v
      · rw [v] at hf
        exact hno f hf
      · rw [v] at hf
        rcases List.mem_append.mp hf with hf | hf
        · exact hno f hf
        · simp only [List.mem_singleton] at hf
          subst hf
          exact id
    · rw [s3 hc]
      exact ⟨j1, j2, j3⟩
  | handleWrite w =>
    show (c.handleWrite w).SendQueueInv
    refine ⟨?_, ?_, ?_⟩
    · rw [handleWrite_state]
      exact fun hs => handleWrite_pending_queuedSend c w (j1 hs)
    · rw [handleWrite_state]
      intro hh
      rcases handleWrite_halfClose c w with hl | ⟨-, hs, -⟩
      · exact j2 ((halfClosed_of_log c _ hl).mp hh)
      · exact hs
    · rw [handleWrite_state]
      exact fun hm => j3 (handleWrite_pending_mem c w hm)
  | runFunctor w =>
    show (c.runFunctor w).SendQueueInv
    unfold runFunctor
    cases hp : c.pendingFunctors_ with
    | nil => exact ⟨j1, j2, j3⟩
    | cons f rest =>
      rw [hp] at j1 j3
      have hrest : ({ c with pendingFunctors_ := rest } : TcpConnection).SendQueueInv :=
        ⟨fun hs g hg => j1 hs g (List.mem_cons_of_mem _ hg), j2,
          fun hm => j3 (List.mem_cons_of_mem _ hm)⟩
      cases f with
      | writeCompleteCallback =>
        refine ⟨hrest.1, ?_, hrest.2.2⟩
        intro hh
        rcases (halfClosed_append c _ [Action.writeCompleteCallback] rfl).mp hh with hh | hh
        · exact j2 hh
        · simp [Action.IsShutdownWrite] at hh
      | highWaterMarkCallback n =>
        refine ⟨hrest.1, ?_, hrest.2.2⟩
        intro hh
        rcases (halfClosed_append c _ [Action.highWaterMarkCallback n] rfl).mp hh with hh | hh
        · exact j2 hh
        · simp [Action.IsShutdownWrite] at hh
      | sendInLoop msg => exact sendInLoop_sendQueueInv _ msg w hrest
      | shutdownInLoop =>
        exact shutdownInLoop_sendQueueInv _ hrest (j3 (List.mem_cons_self _ _))

/-- The queue invariant is kept along every sequence of such events. -/
theorem run_sendQueueInv (c : TcpConnection) (evs : List Event)
    (hev : ∀ e ∈ evs, e.IsWriteSide) (hsd : c.ShutdownAfterQueuedSends evs)
    (h : c.SendQueueInv) : (c.run evs).SendQueueInv := by
  induction evs generalizing c with
  | nil => exact h
  | cons e evs ih =>
    have he := hev e (List.mem_cons_self _ _)
    have hev2 : ∀ e2 ∈ evs, e2.IsWriteSide := fun e2 hm => hev e2 (List.mem_cons_of_mem _ hm)
    have hrun : c.run (e :: evs) = (c.step e).run evs := rfl
    rw [hrun]
    exact ih (c.step e) hev2 hsd.2 (step_sendQueueInv c e he hsd.1 h)

theorem connectEstablished_wire (c : TcpConnection) :
    c.connectEstablished.wire = c.wire := by
  unfold connectEstablished
  simp [act]

/-- A write event on an empty output buffer leaves it empty. -/
theorem handleWrite_content_nil (c : TcpConnection) (w : WriteOutcome)
    (hinv : c.outputBuffer_.IndexInv) (hr : c.outputBuffer_.Representable)
    (h0 : c.outputBuffer_.content = []) : (c.handleWrite w).outputBuffer_.content = [] := by
  rw [handleWrite_outputBuffer]
  split_ifs
  · rw [(Buffer.retrieve_spec c.outputBuffer_ _ hinv hr).2.1, h0]
    simp
  · exact h0

/-- With every send made on the loop thread and no write failing with
`EPIPE`/`ECONNRESET`: once the half-close is made, the wire holds what was on
it and in the output buffer at the start, followed by the bytes passed to
`send` before `shutdown`, and the output buffer is empty. -/
theorem run_loopSend (c : TcpConnection) (evs : List Event)
    (h : c.LoopSendInv) (hev : ∀ e ∈ evs, e.IsLoopThreadSend)
    (hfit : c.outputBuffer_.buffer_.length +
      (if c.state_ = .kConnected then (sentBeforeShutdown evs).length else 0) < sizeMod) :
    (c.run evs).HalfClosed →
      (c.run evs).wire = c.wire ++ c.outputBuffer_.content ++
          (if c.state_ = .kConnected then sentBeforeShutdown evs else []) ∧
        (c.run evs).outputBuffer_.content = [] := by
  induction evs generalizing c with
  | nil =>
    intro hh
    obtain ⟨-, -, -, -, i5⟩ := h
    obtain ⟨hs, h0⟩ := i5 hh
    have hne : c.state_ ≠ .kConnected := by rw [hs]; decide
    show c.wire = _ ∧ c.outputBuffer_.content = []
    rw [if_neg hne, h0]
    simp
  | cons e evs ih =>
    have he := hev e (List.mem_cons_self _ _)
    have hev2 : ∀ e2 ∈ evs, e2.IsLoopThreadSend :=
      fun e2 hm => hev e2 (List.mem_cons_of_mem _ hm)
    have hrun : c.run (e :: evs) = (c.step e).run evs := rfl
    rw [hrun]
    obtain ⟨i1, i2, i3, i4, i5⟩ := h
    have hrep : c.outputBuffer_.Representable := by
      unfold Buffer.Representable
      omega
    cases e with
    | connectEstablished => exact absurd he (by simp [Event.IsLoopThreadSend])
    | connectDestroyed => exact absurd he (by simp [Event.IsLoopThreadSend])
    | sendInLoop msg w => exact absurd he (by simp [Event.IsLoopThreadSend])
    | handleRead r => exact absurd he (by simp [Event.IsLoopThreadSend])
    | handleClose => exact absurd he (by simp [Event.IsLoopThreadSend])
    | handleError =>
      have hsb : sentBeforeShutdown (Event.handleError :: evs) = sentBeforeShutdown evs := rfl
      rw [hsb] at hfit ⊢
      have hstep : c.step Event.handleError = c := rfl
      rw [hstep]
      exact ih c ⟨i1, i2, i3, i4, i5⟩ hev2 hfit
    | send buf inLoop w =>
      obtain ⟨hl, hw⟩ := he
      have hsb : sentBeforeShutdown (Event.send buf inLoop w :: evs)
          = buf ++ sentBeforeShutdown evs := rfl
      by_cases hc : c.state_ = .kConnected
      · have hstep : c.step (Event.send buf inLoop w) = c.sendInLoop buf w := by
          show c.send buf inLoop w = _
          unfold send
          rw [if_pos hc, hl]
          rfl
        rw [hstep]
        rw [if_pos hc, hsb, List.length_append] at hfit
        have hs : c.state_ ≠ .kDisconnected := by rw [hc]; decide
        obtain ⟨o1, o2, o3⟩ := sendInLoop_order c buf w hs i1 (by omega) hw
        have hst : (c.sendInLoop buf w).state_ = .kConnected := by rw [sendInLoop_state, hc]
        have hinv2 : (c.sendInLoop buf w).LoopSendInv := by
          refine ⟨o2, Or.inl hst, sendInLoop_pending_queuedSend c buf w i3,
            sendInLoop_halfCloseInv c buf w i4, ?_⟩
          intro hh
          have hh2 := (halfClosed_of_log c _ (sendInLoop_log c buf w)).mp hh
          have := (i5 hh2).1
          rw [hc] at this
          exact absurd this (by decide)
        intro hh
        obtain ⟨r1, r2⟩ := ih (c.sendInLoop buf w) hinv2 hev2
          (by rw [if_pos hst]; omega) hh
        refine ⟨?_, r2⟩
        rw [r1, if_pos hst, if_pos hc, hsb, o1]
        simp only [List.append_assoc]
      · have hstep : c.step (Event.send buf inLoop w) = c := by
          show c.send buf inLoop w = _
          unfold send
          rw [if_neg hc]
        rw [hstep]
        rw [if_neg hc] at hfit ⊢
        have := ih c ⟨i1, i2, i3, i4, i5⟩ hev2 (by rw [if_neg hc]; exact hfit)
        rw [if_neg hc] at this
        exact this
    | handleWrite w =>
      have hsb : sentBeforeShutdown (Event.handleWrite w :: evs) = sentBeforeShutdown evs := rfl
      rw [hsb] at hfit ⊢
      have hstep : c.step (Event.handleWrite w) = c.handleWrite w := rfl
      rw [hstep]
      obtain ⟨o1, o2, o3⟩ := handleWrite_order c w i1 hrep
      have hst := handleWrite_state c w
      have hrep2 : (c.handleWrite w).outputBuffer_.Representable := by
        unfold Buffer.Representable at hrep ⊢
        rw [o3]
        exact hrep
      have hinv2 : (c.handleWrite w).LoopSendInv := by
        refine ⟨o2, by rw [hst]; exact i2, handleWrite_pending_queuedSend c w i3,
          handleWrite_halfCloseInv c w i4, ?_⟩
        intro hh
        rw [hst]
        rcases handleWrite_halfClose c w with hl | ⟨-, hs, h0⟩
        · obtain ⟨k1, k2⟩ := i5 ((halfClosed_of_log c _ hl).mp hh)
          exact ⟨k1, handleWrite_content_nil c w i1 hrep k2⟩
        · exact ⟨hs, Buffer.content_eq_nil_of_readableBytes _ o2 hrep2 h0⟩
      intro hh
      obtain ⟨r1, r2⟩ := ih (c.handleWrite w) hinv2 hev2 (by rw [hst, o3]; exact hfit) hh
      refine ⟨?_, r2⟩
      rw [r1, hst, List.append_assoc, List.append_assoc, ← List.append_assoc (c.handleWrite w).wire,
        o1]
      simp only [List.append_assoc]
    | shutdown inLoop =>
      have hsb : sentBeforeShutdown (Event.shutdown inLoop :: evs) = [] := rfl
      have hstep : c.step (Event.shutdown inLoop) = c.shutdown inLoop := rfl
      rw [hstep]
      obtain ⟨s1, s2, s3, s4⟩ := shutdown_full c inLoop
      obtain ⟨v1, v2, v3⟩ := shutdown_view c inLoop
      by_cases hc : c.state_ = .kConnected
      · have hst := s2 hc
        have hne : (c.shutdown inLoop).state_ ≠ .kConnected := by rw [hst]; decide
        have hinv2 : (c.shutdown inLoop).LoopSendInv := by
          refine ⟨by rw [v2]; exact i1, Or.inr hst, ?_, shutdown_halfCloseInv c inLoop i4, ?_⟩
          · intro f hf
            rcases v3 with v | v
            · rw [v] at hf
              exact i3 f hf
            · rw [v] at hf
              rcases List.mem_append.mp hf with hf | hf
              · exact i3 f hf
              · simp only [List.mem_singleton] at hf
                subst hf
                exact id
          · intro hh
            refine ⟨hst, ?_⟩
            rw [v2]
            rcases s4 with hl | ⟨-, hnw⟩
            · have := (i5 ((halfClosed_of_log c _ hl).mp hh)).1
              rw [hc] at this
              exact absurd this (by decide)
            · apply Buffer.content_eq_nil_of_readableBytes _ i1 hrep
              by_contra hne0
              have := i4.1 (by rw [hc]; decide) hne0
              rw [hnw] at this
              exact absurd this (by decide)
        intro hh
        obtain ⟨r1, r2⟩ := ih (c.shutdown inLoop) hinv2 hev2
          (by rw [if_neg hne, v2]; unfold Buffer.Representable at hrep; omega) hh
        refine ⟨?_, r2⟩
        rw [r1, if_neg hne, if_pos hc, hsb, s1, v2]
      · rw [s3 hc]
        rw [if_neg hc] at hfit ⊢
        have := ih c ⟨i1, i2, i3, i4, i5⟩ hev2 (by rw [if_neg hc]; exact hfit)
        rw [if_neg hc] at this
        exact this
    | runFunctor w =>
      have hsb : sentBeforeShutdown (Event.runFunctor w :: evs) = sentBeforeShutdown evs := rfl
      rw [hsb] at hfit ⊢
      have hstep : c.step (Event.runFunctor w) = c.runFunctor w := rfl
      rw [hstep]
      obtain ⟨q1, q2, q3, q4, q5⟩ := runFunctor_noSend c w i3
      have hinv2 : (c.runFunctor w).LoopSendInv := by
        refine ⟨by rw [q2]; exact i1, by rw [q3]; exact i2, fun f hf => i3 f (q4 f hf),
          runFunctor_halfCloseInv c w i4, ?_⟩
        intro hh
        rw [q3, q2]
        rcases q5 with ⟨a, hl, ha⟩ | hl | ⟨-, hnw, hm⟩
        · rcases (halfClosed_append c _ [a] hl).mp hh with hh2 | ⟨a2, ha2, hs2⟩
          · exact i5 hh2
          · simp only [List.mem_singleton] at ha2
            subst ha2
            exact absurd hs2 ha
        · exact i5 ((halfClosed_of_log c _ hl).mp hh)
        · have hs := i4.2.1 hm
          refine ⟨hs, ?_⟩
          apply Buffer.content_eq_nil_of_readableBytes _ i1 hrep
          by_contra hne0
          have := i4.1 (by rw [hs]; decide) hne0
          rw [hnw] at this
          exact absurd this (by decide)
      intro hh
      obtain ⟨r1, r2⟩ := ih (c.runFunctor w) hinv2 hev2 (by rw [q3, q2]; exact hfit) hh
      refine ⟨?_, r2⟩
      rw [r1, q1, q2, q3]

/-- C6 (amended). Take a connection constructed with an empty log, an empty
task queue and an empty output buffer, and after `connectEstablished` any
sequence of send, sendInLoop, handleWrite, shutdown (with `shutdownInLoop` run
inline or later from the loop's task queue), queued-task, handleError and
connectDestroyed events, with no handleClose (and no read of end of file)
among them. Then (1) every half-close of the write side found zero readable
bytes in the output buffer. (2) If no `sendInLoop` queued by a `send` from
another thread is waiting whenever `shutdown` is called, then once the
half-close is made the state is Disconnecting and no `sendInLoop` is waiting in
the queue. (3) If every send is made on the loop thread and no write fails with
`EPIPE`/`ECONNRESET` (the sent bytes fitting under `2^64`), then once the
half-close is made the bytes written to the socket are exactly the bytes passed
to `send` before `shutdown`, and the output buffer is empty. -/
theorem shutdownWrite_outputBuffer_empty (c : TcpConnection) (evs : List Event)
    (hlog : c.log = []) (hq : c.pendingFunctors_ = [])
    (hb : c.outputBuffer_.readableBytes = 0)
    (hev : ∀ e ∈ evs, e.IsWriteSide) :
    (∀ n, Action.shutdownWrite n ∈ (c.connectEstablished.run evs).log → n = 0) ∧
    (c.connectEstablished.ShutdownAfterQueuedSends evs →
      (c.connectEstablished.run evs).HalfClosed →
        (c.connectEstablished.run evs).state_ = .kDisconnecting ∧
        ∀ f ∈ (c.connectEstablished.run evs).pendingFunctors_, ¬ f.IsQueuedSend) ∧
    (c.wire = [] → c.outputBuffer_.IndexInv →
      (∀ e ∈ evs, e.IsLoopThreadSend) →
      c.outputBuffer_.buffer_.length + (sentBeforeShutdown evs).length < sizeMod →
      (c.connectEstablished.run evs).HalfClosed →
        (c.connectEstablished.run evs).wire = sentBeforeShutdown evs ∧
        (c.connectEstablished.run evs).outputBuffer_.content = []) := by
  obtain ⟨v1, _, _, v4, v5, v6⟩ := connectEstablished_view c
  have h0 : c.connectEstablished.HalfCloseInv := by
    refine ⟨?_, ?_, ?_⟩
    · rw [v6]; intro _ hr; exact absurd hb hr
    · rw [v5, hq]; intro hm; simp at hm
    · rw [v4, hlog]; intro n hm; simp at hm
  have hnot : ¬ c.connectEstablished.HalfClosed := by
    unfold HalfClosed
    rw [v4, hlog]
    simp [Action.IsShutdownWrite]
  refine ⟨(run_halfCloseInv c.connectEstablished evs hev h0).2.2, ?_, ?_⟩
  · intro hsd hh
    have hstart : c.connectEstablished.SendQueueInv := by
      refine ⟨?_, fun hx => absurd hx hnot, ?_⟩
      · rw [v5, hq]
        intro _ f hf
        simp at hf
      · rw [v5, hq]
        intro hm
        simp at hm
    obtain ⟨j1, j2, -⟩ := run_sendQueueInv c.connectEstablished evs hev hsd hstart
    exact ⟨j2 hh, j1 (j2 hh)⟩
  · intro hw hinv hloop hfit hh
    have hrep : c.outputBuffer_.Representable := by
      unfold Buffer.Representable
      omega
    have hstart : c.connectEstablished.LoopSendInv := by
      refine ⟨by rw [v6]; exact hinv, Or.inl v1, ?_, h0, fun hx => absurd hx hnot⟩
      rw [v5, hq]
      intro f hf
      simp at hf
    obtain ⟨r1, r2⟩ := run_loopSend c.connectEstablished evs hstart hloop
      (by rw [if_pos v1, v6]; exact hfit) hh
    refine ⟨?_, r2⟩
    rw [r1, if_pos v1, connectEstablished_wire, hw, v6,
      Buffer.content_eq_nil_of_readableBytes _ hinv hrep hb]
    rfl

/-- Witness for C6: two bytes are sent on the loop thread of which the socket
takes one, `shutdown` is called (the half-close is deferred because
write-interest is on), and the write event that drains the buffer makes the
half-close: it finds the buffer empty, no send is queued, and both bytes are
on the wire. -/
theorem shutdownWrite_outputBuffer_empty_witness :
    Action.shutdownWrite 0 ∈ ((init 5).connectEstablished.run
        [.send [1, 2] true (.accepts 1), .shutdown true, .handleWrite (.accepts 5)]).log ∧
      (∀ n, Action.shutdownWrite n ∈ ((init 5).connectEstablished.run
        [.send [1, 2] true (.accepts 1), .shutdown true, .handleWrite (.accepts 5)]).log →
        n = 0) ∧
      (∀ f ∈ ((init 5).connectEstablished.run
        [.send [1, 2] true (.accepts 1), .shutdown true,
          .handleWrite (.accepts 5)]).pendingFunctors_, ¬ f.IsQueuedSend) ∧
      ((init 5).connectEstablished.run
        [.send [1, 2] true (.accepts 1), .shutdown true, .handleWrite (.accepts 5)]).wire
        = [1, 2] :=
  have h := shutdownWrite_outputBuffer_empty (init 5)
    [.send [1, 2] true (.accepts 1), .shutdown true, .handleWrite (.accepts 5)]
    rfl rfl (by decide) (by decide)
  ⟨by decide, h.1,
    (h.2.1 ⟨fun hx => absurd hx (by decide), fun _ => by decide,
      fun hx => absurd hx (by decide), trivial⟩ (by decide)).2,
    (h.2.2 rfl (by decide) (by decide) (by decide) (by decide)).1⟩

/-- C6 as stated fails in two ways. With a handleClose among the events:
bytes are buffered, `shutdown` is called from another thread (so
`shutdownInLoop` is queued), the peer's close is handled, which clears
write-interest, and the queued `shutdownInLoop` then half-closes the socket
with one byte still in the output buffer. And without any handleClose bytes
passed to `send` before `shutdown` are truncated: `send [1,2]` is called from
another thread (so `sendInLoop` is queued), `shutdown` is called on the loop
thread and half-closes at once, with an empty output buffer but with the two
bytes still queued and nothing on the wire; the queued `sendInLoop` then writes
to a half-closed socket, which fails with `EPIPE`, and the bytes are dropped. -/
theorem shutdownWrite_fails_after_handleClose_or_queued_send :
    Action.shutdownWrite 1 ∈ ((init 5).connectEstablished.run
        [.send [1] true (.fails EWOULDBLOCK), .shutdown false, .handleClose,
          .runFunctor (.accepts 0)]).log ∧
    (Action.shutdownWrite 0 ∈ ((init 5).connectEstablished.run
        [.send [1, 2] false (.accepts 0), .shutdown true]).log ∧
      Functor.sendInLoop [1, 2] ∈ ((init 5).connectEstablished.run
        [.send [1, 2] false (.accepts 0), .shutdown true]).pendingFunctors_ ∧
      ((init 5).connectEstablished.run
        [.send [1, 2] false (.accepts 0), .shutdown true]).wire = [] ∧
      ((init 5).connectEstablished.run
        [.send [1, 2] false (.accepts 0), .shutdown true,
          .runFunctor (.fails EPIPE)]).wire = [] ∧
      ((init 5).connectEstablished.run
        [.send [1, 2] false (.accepts 0), .shutdown true,
          .runFunctor (.fails EPIPE)]).outputBuffer_.content = [] ∧
      ((init 5).connectEstablished.run
        [.send [1, 2] false (.accepts 0), .shutdown true,
          .runFunctor (.fails EPIPE)]).pendingFunctors_ = []) := by
  decide

end TcpConnection

end MyMuduo
